import Mathlib

/-!
# rss2email: the feed-processing pipeline of `send_cmd.go` and `push_cmd.go`

A shallow embedding of `sendCmd.ProcessURL`, `sendCmd.Execute`, `pushCmd.ProcessURL`
and `pushCmd.Execute`.  The Go code is stateful: it reads and writes the seen store,
talks to the network and the file system, and prints.  Here every function takes a
`World` and returns the new `World`; each external call appends an `Event` to
`World.log`, and what the outside answers is read from an `Env` of oracles.  Oracles
that stand for I/O take the number of events logged so far as a clock, so two calls
with equal arguments may be answered differently.
-/

namespace Rss2Email

/-! ## Data model -/

/-- The fields of `gofeed.Item` that the two commands read. -/
structure Item where
  GUID : String
  Link : String
  Title : String
  Content : String
  Description : String
deriving DecidableEq, Repr

/-- What a Go call of result type `error` can do: return `nil`, return an error
(`err.Error()` is kept), or not return at all because of a `panic`. -/
inductive Outcome where
  | nil : Outcome
  | err (msg : String) : Outcome
  | panic (msg : String) : Outcome
deriving DecidableEq, Repr

/-- The values of `subcommands.ExitStatus`. -/
inductive ExitStatus where
  | ExitSuccess : ExitStatus
  | ExitFailure : ExitStatus
  | ExitUsageError : ExitStatus
deriving DecidableEq, Repr

/-- How a call of `Execute` ends: with an exit status, or with a `panic` that
unwinds through it. -/
inductive ExecResult where
  | exit (status : ExitStatus) : ExecResult
  | panic (msg : String) : ExecResult
deriving DecidableEq, Repr

/-- The external calls made by the two commands.  `entry` in `sendMessage` and
`campaignPost` is the feed entry whose loop iteration makes the call. -/
inductive Event where
  /-- `FetchFeed(url)`: the HTTP GET of a feed. -/
  | fetch (url : String) : Event
  /-- `RecordSeen(i)`; `stored` tells whether the entry is in the store after the
  call. -/
  | recordSeen (i : Item) (stored : Bool) : Event
  /-- `app.SendMessage(message, recipient)` of the pushover client. -/
  | sendMessage (entry : Item) (apiKey userKey text title : String) : Event
  /-- `ioutil.ReadFile(p.emailTemplate)`. -/
  | readFile (path : String) : Event
  /-- `client.Do(r)`: the POST to `/api/campaigns/create.php`. -/
  | campaignPost (entry : Item) (urlStr : String) (form : List (String × String)) : Event
  /-- `os.Stat(p.emailTemplate)`. -/
  | stat (path : String) : Event
deriving DecidableEq, Repr

/-- The mutable surroundings of a run: the seen store, the trace of external calls,
and the two output streams. -/
structure World where
  seen : List String
  log : List Event
  stdout : List String
  stderr : List String
deriving DecidableEq, Repr

/-- What `text/template` does with a template source and the parameters
`Title`, `Body`: `Parse` fails (and `template.Must` panics), `Execute` returns an
error, or the rendered text is produced. -/
inductive TemplateResult where
  | parseError (msg : String) : TemplateResult
  | executeError (msg : String) : TemplateResult
  | rendered (out : String) : TemplateResult
deriving DecidableEq, Repr

/-- The answers of everything outside the two source files.  Arguments of type `Nat`
are the clock (`World.log.length` at the time of the call). -/
structure Env where
  /-- `NewFeed().Entries()`: the configured feed URIs, in order. -/
  feedEntries : List String
  /-- The HTTP GET inside `FetchFeed` (`http.NewRequest`, `client.Do`, `ioutil.ReadAll`):
  the body, or the error of the first step that failed. -/
  httpGet : Nat → String → Except String String
  /-- `gofeed.NewParser().ParseString`. -/
  parseString : String → Except String (List Item)
  /-- `html2text.FromString` of `jaytaylor.com/html2text` (used by `send`). -/
  FromString : String → Except String String
  /-- `html2text.HTML2Text` of `github.com/k3a/html2text` (used by `push`). -/
  HTML2Text : String → String
  /-- `app.SendMessage`: `none` for success, `some e` for the error `e`. -/
  sendMessage : Nat → String → String → String → String → Option String
  /-- `ioutil.ReadFile`. -/
  readFile : Nat → String → Except String String
  /-- `template.New("tmpl").Parse(src)` followed by `t.Execute(buf, x)`. -/
  template : String → String → String → TemplateResult
  /-- `url.ParseRequestURI(apiUrl)`, then `u.Path = resource`, then `u.String()`;
  `none` when the parse fails, so that `u` is `nil`. -/
  requestURI : String → String → Option String
  /-- `http.NewRequest(http.MethodPost, urlStr, ...)` returns a request (`true`) or
  `nil` with an ignored error (`false`). -/
  newRequest : String → Bool
  /-- `client.Do(r)`: a transport error, or the response's `StatusCode` and `Status`. -/
  clientDo : Nat → String → List (String × String) → Except String (Nat × String)
  /-- `os.Stat`: `none` for success, `some e` for the error. -/
  stat : Nat → String → Option String
  /-- The medium behind the seen store, asked to record an identifier (spec section
  4.1, `Record(identifier) -> error`): `none` for success, `some e` for the
  `StorageError`. -/
  record : Nat → String → Option String
  /-- `fmt.Sprintf(format)` without further arguments: what `fmt.Printf` prints when
  a text that is not a constant is passed as the format. -/
  sprintf : String → String

/-- Append an external call to the trace. -/
def World.emit (w : World) (e : Event) : World :=
  { w with log := w.log ++ [e] }

/-- `fmt.Printf` guarded by `if p.verbose`. -/
def World.printfIf (w : World) (verbose : Bool) (s : String) : World :=
  if verbose then { w with stdout := w.stdout ++ [s] } else w

/-- `fmt.Printf` to standard output. -/
def World.printf (w : World) (s : String) : World :=
  { w with stdout := w.stdout ++ [s] }

/-- `fmt.Fprintln(os.Stderr, ...)` for each collected error. -/
def World.eprintln (w : World) (lines : List String) : World :=
  { w with stderr := w.stderr ++ lines }

/-! ## The seen store -/

/-- Modelled from the spec: the key under which `HasSeen` and `RecordSeen` (not in
the given sources) file an entry.  Spec section 3: the feed-supplied GUID, falling
back to the entry's link URL if the GUID is absent or empty. -/
def identifier (i : Item) : String :=
  if i.GUID = "" then i.Link else i.GUID

/-- Modelled from the spec: whether the store `seen` holds the entry.  Spec section
4.1, `Contains(identifier) -> bool`: presence of the identifier, `false` for an
identifier never recorded.  Spec sections 3 and 8: an entry with neither GUID nor
link cannot be deduplicated and is never considered seen. -/
def seenIn (seen : List String) (i : Item) : Bool :=
  decide (identifier i ≠ "" ∧ identifier i ∈ seen)

/-- Modelled from the spec: `HasSeen` is not in the given sources; it is the test
`seenIn` on the store of the world.  The callers use `!HasSeen(i)` as a condition:
the function yields one boolean and no error, so the test is total on the content
of the store. -/
def HasSeen (w : World) (i : Item) : Bool :=
  seenIn w.seen i

/-- Modelled from the spec: whether a call of `RecordSeen` in world `w` leaves the
entry in the store.  It does not for an entry without identifier (spec section 3),
nor when the medium fails with a `StorageError` (spec section 4.1). -/
def storeAccepts (env : Env) (w : World) (i : Item) : Bool :=
  decide (identifier i ≠ "") && (env.record w.log.length (identifier i)).isNone

/-- Modelled from the spec: `RecordSeen` is not in the given sources.  Spec section
4.1, `Record(identifier) -> error`: a point insert that may fail, and a no-op on the
store when the identifier is already present.  The callers in `send_cmd.go` and
`push_cmd.go` use `RecordSeen(i)` as a statement, so a failure changes nothing but
the store.  The call itself is traced. -/
def RecordSeen (env : Env) (w : World) (i : Item) : World :=
  { w with
    seen := if storeAccepts env w i = true ∧ identifier i ∉ w.seen
      then w.seen ++ [identifier i] else w.seen
    log := w.log ++ [Event.recordSeen i (storeAccepts env w i)] }

/-! ## Shared pieces -/

/-- Both `FetchFeed` methods (they are identical): one GET with the custom
User-Agent; any failure returns `""` and the error. -/
def FetchFeed (env : Env) (w : World) (url : String) : World × Except String String :=
  (w.emit (Event.fetch url), env.httpGet w.log.length url)

/-- The statement `content := i.Content; if (content == "") && i.Description != ""
then content = i.Description` of both `ProcessURL` methods. -/
def selectContent (i : Item) : String :=
  if i.Content = "" ∧ i.Description ≠ "" then i.Description else i.Content

/-- Section 4.3 of the spec, in its words: `content` if non-empty; otherwise
`description` if non-empty; otherwise the empty string. -/
def specBestBody (i : Item) : String :=
  if i.Content ≠ "" then i.Content
  else if i.Description ≠ "" then i.Description
  else ""

/-- The Go loop `for _, i := range feed.Items` whose body may `return` an error or
panic: the first iteration that does not end normally ends the loop. -/
def forItems (body : World → Item → World × Outcome) : World → List Item → World × Outcome
  | w, [] => (w, Outcome.nil)
  | w, i :: rest =>
    match body w i with
    | (w1, Outcome.nil) => forItems body w1 rest
    | (w1, o) => (w1, o)

/-- The loop `for _, uri := range list.Entries()` of both `Execute` methods with its
accumulator `errors`: an error returned by `ProcessURL` is formatted and appended,
and the loop goes on; a panic leaves the loop. -/
def forFeeds (process : World → String → World × Outcome) :
    World → List String → List String → World × Except String (List String)
  | w, errors, [] => (w, Except.ok errors)
  | w, errors, uri :: rest =>
    match process w uri with
    | (w1, Outcome.nil) => forFeeds process w1 errors rest
    | (w1, Outcome.err e) =>
      forFeeds process w1 (errors ++ ["error processing " ++ uri ++ " - " ++ e ++ "\n"]) rest
    | (w1, Outcome.panic m) => (w1, Except.error m)

/-- The tail of both `Execute` methods: print the errors and fail, or succeed. -/
def finish (w : World) (errors : List String) : World × ExecResult :=
  if errors.length > 0 then
    (w.eprintln errors, ExecResult.exit ExitStatus.ExitFailure)
  else
    (w, ExecResult.exit ExitStatus.ExitSuccess)

/-! ## `send_cmd.go` -/

/-- The options of the `send` subcommand, set by its command-line flags. -/
structure sendCmd where
  verbose : Bool
  emails : List String
  send : Bool
  usePushover : Bool
  pushoverApiKey : String
  pushoverUserKey : String
  emailTemplate : String
  useSendy : Bool
  sendyApiHostname : String
  sendyApiKey : String
  sendyListId : String
  sendyFromName : String
  sendyFromEmail : String
deriving DecidableEq, Repr

/-- The usage text of `sendCmd.Execute`. -/
def sendCmd.cmdUsage : String :=
  "Usage: rss2email send [-send=<true>] [-usePushover=<false> -pushoverApiKey=<key> -pushoverUserKey=<key>]\n" ++
  "       [-emailTemplate=</path/to/file>] [-useSendy=<false> -sendyApiHostname=<sendy.example.com>\n" ++
  "        -sendyApiKey=<key> -sendyListId=<key> -sendyFromName=<name> -sendyFromEmail=<email>]"

/-- The block `if p.usePushover` of `sendCmd.ProcessURL`: one message with title,
and `return err` when sending fails. -/
def sendCmd.pushoverBlock (env : Env) (p : sendCmd) (w : World) (i : Item) (text : String) :
    World × Outcome :=
  if p.usePushover then
    match env.sendMessage w.log.length p.pushoverApiKey p.pushoverUserKey text i.Title with
    | some e =>
      (w.emit (Event.sendMessage i p.pushoverApiKey p.pushoverUserKey text i.Title), Outcome.err e)
    | none =>
      (w.emit (Event.sendMessage i p.pushoverApiKey p.pushoverUserKey text i.Title), Outcome.nil)
  else
    (w, Outcome.nil)

/-- The block `if len(p.emailTemplate) != 0` inside the Sendy branch: read the
template file, parse it (`template.Must` panics on a parse error) and render it
with the entry's title and the chosen content.  The result is the new value of
`content`, or the way the function is left. -/
def sendCmd.templateBlock (env : Env) (p : sendCmd) (w : World) (i : Item) (content : String) :
    World × Except Outcome String :=
  if p.emailTemplate.length ≠ 0 then
    match env.readFile w.log.length p.emailTemplate with
    | Except.error e => (w.emit (Event.readFile p.emailTemplate), Except.error (Outcome.err e))
    | Except.ok src =>
      match env.template src i.Title content with
      | TemplateResult.parseError m =>
        (w.emit (Event.readFile p.emailTemplate), Except.error (Outcome.panic m))
      | TemplateResult.executeError e =>
        (w.emit (Event.readFile p.emailTemplate), Except.error (Outcome.err e))
      | TemplateResult.rendered out =>
        (w.emit (Event.readFile p.emailTemplate), Except.ok out)
  else
    (w, Except.ok content)

/-- The form `data` built by the `data.Set` calls of the Sendy branch, in call order. -/
def sendCmd.campaignForm (p : sendCmd) (i : Item) (content text : String) :
    List (String × String) :=
  [("api_key", p.sendyApiKey), ("from_name", p.sendyFromName),
   ("from_email", p.sendyFromEmail), ("reply_to", p.sendyFromEmail),
   ("title", i.Title), ("html_text", content), ("plain_text", text),
   ("list_ids", p.sendyListId), ("send_campaign", "1"), ("subject", i.Title)]

/-- The block `if p.useSendy` of `sendCmd.ProcessURL`.  The errors of
`url.ParseRequestURI` and `http.NewRequest` are discarded by the code, so a failure
of either leaves a `nil` pointer that the next statement dereferences. -/
def sendCmd.sendyBlock (env : Env) (p : sendCmd) (w : World) (i : Item) (content text : String) :
    World × Outcome :=
  if p.useSendy then
    match sendCmd.templateBlock env p w i content with
    | (w1, Except.error o) => (w1, o)
    | (w1, Except.ok content1) =>
      match env.requestURI ("https://" ++ p.sendyApiHostname) "/api/campaigns/create.php" with
      | none => (w1, Outcome.panic "runtime error: invalid memory address or nil pointer dereference")
      | some urlStr =>
        if env.newRequest urlStr then
          match env.clientDo w1.log.length urlStr (sendCmd.campaignForm p i content1 text) with
          | Except.error e =>
            (w1.emit (Event.campaignPost i urlStr (sendCmd.campaignForm p i content1 text)),
              Outcome.err e)
          | Except.ok (code, status) =>
            if code ≠ 200 then
              (w1.emit (Event.campaignPost i urlStr (sendCmd.campaignForm p i content1 text)),
                Outcome.err status)
            else
              (w1.emit (Event.campaignPost i urlStr (sendCmd.campaignForm p i content1 text)),
                Outcome.nil)
        else
          (w1, Outcome.panic "runtime error: invalid memory address or nil pointer dereference")
  else
    (w, Outcome.nil)

/-- The block `if p.send` of `sendCmd.ProcessURL`: choose the content, convert it
(`panic(err)` when the conversion fails), then the pushover block, then the Sendy
block. -/
def sendCmd.sendBlock (env : Env) (p : sendCmd) (w : World) (i : Item) : World × Outcome :=
  if p.send then
    match env.FromString (selectContent i) with
    | Except.error e => (w, Outcome.panic e)
    | Except.ok text =>
      match sendCmd.pushoverBlock env p w i text with
      | (w1, Outcome.nil) => sendCmd.sendyBlock env p w1 i (selectContent i) text
      | (w1, o) => (w1, o)
  else
    (w, Outcome.nil)

/-- The body of the loop over `feed.Items` in `sendCmd.ProcessURL`. -/
def sendCmd.entryBody (env : Env) (p : sendCmd) (w : World) (i : Item) : World × Outcome :=
  if !HasSeen w i then
    sendCmd.sendBlock env p
      (RecordSeen env
        ((w.printfIf p.verbose ("New item: " ++ i.GUID ++ "\n")).printfIf p.verbose
          ("\tTitle: " ++ i.Title ++ "\n")) i) i
  else
    (w, Outcome.nil)

/-- `func (p *sendCmd) ProcessURL(input string) error`. -/
def sendCmd.ProcessURL (env : Env) (p : sendCmd) (w : World) (input : String) : World × Outcome :=
  match FetchFeed env (w.printfIf p.verbose ("Fetching " ++ input ++ "\n")) input with
  | (w1, Except.error e) => (w1, Outcome.err ("error processing " ++ input ++ " - " ++ e))
  | (w1, Except.ok txt) =>
    match env.parseString txt with
    | Except.error e => (w1, Outcome.err ("error parsing " ++ input ++ " contents: " ++ e))
    | Except.ok items =>
      forItems (sendCmd.entryBody env p)
        (w1.printfIf p.verbose ("\tFound " ++ toString items.length ++ " entries\n")) items

/-- `func (p *sendCmd) Execute(...) subcommands.ExitStatus`. -/
def sendCmd.Execute (env : Env) (p : sendCmd) (w : World) : World × ExecResult :=
  if p.usePushover ∨ p.useSendy then
    if p.usePushover ∧ (p.pushoverApiKey.length = 0 ∨ p.pushoverUserKey.length = 0) then
      (w.printf ("pushover required parameters missing\n" ++ sendCmd.cmdUsage ++ "\n"),
        ExecResult.exit ExitStatus.ExitFailure)
    else if p.useSendy ∧ (p.sendyApiKey.length = 0 ∨ p.sendyApiHostname.length = 0 ∨
        p.sendyListId.length = 0 ∨ p.sendyFromName.length = 0 ∨ p.sendyFromEmail.length = 0) then
      (w.printf ("sendy required parameters missing\n" ++ sendCmd.cmdUsage ++ "\n"),
        ExecResult.exit ExitStatus.ExitFailure)
    else if p.useSendy ∧ p.emailTemplate.length ≠ 0 then
      match env.stat w.log.length p.emailTemplate with
      | some _ =>
        ((w.emit (Event.stat p.emailTemplate)).printf
            (env.sprintf ("can't stat " ++ p.emailTemplate ++ "\n")),
          ExecResult.exit ExitStatus.ExitFailure)
      | none =>
        match forFeeds (sendCmd.ProcessURL env p) (w.emit (Event.stat p.emailTemplate)) []
            env.feedEntries with
        | (w1, Except.error m) => (w1, ExecResult.panic m)
        | (w1, Except.ok errors) => finish w1 errors
    else
      match forFeeds (sendCmd.ProcessURL env p) w [] env.feedEntries with
      | (w1, Except.error m) => (w1, ExecResult.panic m)
      | (w1, Except.ok errors) => finish w1 errors
  else
    (w.printf ("you must use either sendy or pushover\n" ++ sendCmd.cmdUsage ++ "\n"),
      ExecResult.exit ExitStatus.ExitFailure)

/-! ## `push_cmd.go` -/

/-- The options of the `push` subcommand, set by its command-line flags. -/
structure pushCmd where
  verbose : Bool
  emails : List String
  send : Bool
  apiKey : String
  userKey : String
deriving DecidableEq, Repr

/-- The block `if p.send` of `pushCmd.ProcessURL`: choose the content, convert it
(this converter returns no error) and send one message without title. -/
def pushCmd.sendBlock (env : Env) (p : pushCmd) (w : World) (i : Item) : World × Outcome :=
  if p.send then
    match env.sendMessage w.log.length p.apiKey p.userKey (env.HTML2Text (selectContent i)) "" with
    | some e =>
      (w.emit (Event.sendMessage i p.apiKey p.userKey (env.HTML2Text (selectContent i)) ""),
        Outcome.err e)
    | none =>
      (w.emit (Event.sendMessage i p.apiKey p.userKey (env.HTML2Text (selectContent i)) ""),
        Outcome.nil)
  else
    (w, Outcome.nil)

/-- The body of the loop over `feed.Items` in `pushCmd.ProcessURL`. -/
def pushCmd.entryBody (env : Env) (p : pushCmd) (w : World) (i : Item) : World × Outcome :=
  if !HasSeen w i then
    pushCmd.sendBlock env p
      (RecordSeen env
        ((w.printfIf p.verbose ("New item: " ++ i.GUID ++ "\n")).printfIf p.verbose
          ("\tTitle: " ++ i.Title ++ "\n")) i) i
  else
    (w, Outcome.nil)

/-- `func (p *pushCmd) ProcessURL(input string) error`. -/
def pushCmd.ProcessURL (env : Env) (p : pushCmd) (w : World) (input : String) : World × Outcome :=
  match FetchFeed env (w.printfIf p.verbose ("Fetching " ++ input ++ "\n")) input with
  | (w1, Except.error e) => (w1, Outcome.err ("error processing " ++ input ++ " - " ++ e))
  | (w1, Except.ok txt) =>
    match env.parseString txt with
    | Except.error e => (w1, Outcome.err ("error parsing " ++ input ++ " contents: " ++ e))
    | Except.ok items =>
      forItems (pushCmd.entryBody env p)
        (w1.printfIf p.verbose ("\tFound " ++ toString items.length ++ " entries\n")) items

/-- `func (p *pushCmd) Execute(...) subcommands.ExitStatus`. -/
def pushCmd.Execute (env : Env) (p : pushCmd) (w : World) : World × ExecResult :=
  if p.apiKey.length = 0 ∨ p.userKey.length = 0 then
    (w.printf "empty args supplied\nUsage: rss2email push -apiKey=<key> -userKey=<key>\n",
      ExecResult.exit ExitStatus.ExitFailure)
  else
    match forFeeds (pushCmd.ProcessURL env p) w [] env.feedEntries with
    | (w1, Except.error m) => (w1, ExecResult.panic m)
    | (w1, Except.ok errors) => finish w1 errors

/-! ## Reading the trace -/

/-- The entry on whose behalf a sink was called, for the two dispatch events. -/
def Event.dispatchEntry : Event → Option Item
  | Event.sendMessage entry _ _ _ _ => some entry
  | Event.campaignPost entry _ _ => some entry
  | _ => none

/-- A call of the pushover API. -/
def Event.isPush : Event → Bool
  | Event.sendMessage _ _ _ _ _ => true
  | _ => false

/-- A campaign-creation call. -/
def Event.isCampaign : Event → Bool
  | Event.campaignPost _ _ _ => true
  | _ => false

/-- A call of `RecordSeen`. -/
def Event.isRecord : Event → Bool
  | Event.recordSeen _ _ => true
  | _ => false

/-- The URL of a `FetchFeed` call. -/
def Event.fetched : Event → Option String
  | Event.fetch url => some url
  | _ => none

/-- The entry of a `RecordSeen` call. -/
def Event.recorded : Event → Option Item
  | Event.recordSeen i _ => some i
  | _ => none

/-- The entry of a pushover call. -/
def Event.pushed : Event → Option Item
  | Event.sendMessage entry _ _ _ _ => some entry
  | _ => none

/-- The entry of a campaign-creation call. -/
def Event.campaigned : Event → Option Item
  | Event.campaignPost entry _ _ => some entry
  | _ => none

/-- The events that a step from `w` to `w1` added to the trace. -/
def World.since (w w1 : World) : List Event :=
  w1.log.drop w.log.length

/-- The URLs fetched, in order. -/
def fetchedURLs (evs : List Event) : List String :=
  evs.filterMap Event.fetched

/-- The parsed content that a `ProcessURL` call for `input`, started in world `w`,
receives from `FetchFeed` and the parser; `none` when either fails. -/
def feedContent (env : Env) (w : World) (input : String) : Option (List Item) :=
  match env.httpGet w.log.length input with
  | Except.error _ => none
  | Except.ok txt =>
    match env.parseString txt with
    | Except.error _ => none
    | Except.ok items => some items

/-- The calls of `ProcessURL` that the loop of `Execute` makes, with their outcomes:
one per URI, in order, up to and including the first that panics. -/
def invocations (process : World → String → World × Outcome) :
    World → List String → List (String × Outcome)
  | _, [] => []
  | w, uri :: rest =>
    match process w uri with
    | (_, Outcome.panic m) => [(uri, Outcome.panic m)]
    | (w1, o) => (uri, o) :: invocations process w1 rest

/-- The line that `Execute` appends to `errors` for a feed, if its `ProcessURL`
returned an error. -/
def errorLine : String × Outcome → Option String
  | (uri, Outcome.err e) => some ("error processing " ++ uri ++ " - " ++ e ++ "\n")
  | _ => none

/-- An outcome that is a panic. -/
def Outcome.isPanic : Outcome → Bool
  | Outcome.panic _ => true
  | _ => false

/-- An outcome that is a returned error. -/
def Outcome.isErr : Outcome → Bool
  | Outcome.err _ => true
  | _ => false

/-! ## Notions used in the statements -/

/-- What the two loop bodies have in common: an entry already seen is skipped
without any effect; an entry not yet seen is recorded first, and whatever follows
is a sink call for that entry or the reading of the template. -/
structure EntryContract (body : World → Item → World × Outcome) : Prop where
  skip : ∀ w i, HasSeen w i = true → body w i = (w, Outcome.nil)
  fresh : ∀ w i, HasSeen w i = false →
    ∃ ok evs, (body w i).1.log = w.log ++ Event.recordSeen i ok :: evs ∧
      (body w i).1.seen = (if ok = true then w.seen ++ [identifier i] else w.seen) ∧
      (ok = true → identifier i ≠ "") ∧
      (body w i).1.stderr = w.stderr ∧
      ∀ e ∈ evs, e.isRecord = false ∧ e.fetched = none ∧
        (e.dispatchEntry = some i ∨ e.dispatchEntry = none)

/-- The error with which the outside answers the sink call `e` made at time `t`:
the error of `app.SendMessage`, the transport error of `client.Do`, or the status
of a response whose code is not 200; `none` for a call that succeeds and for an
event that is no sink call. -/
def sinkError (env : Env) (t : Nat) : Event → Option String
  | Event.sendMessage _ apiKey userKey text title => env.sendMessage t apiKey userKey text title
  | Event.campaignPost _ urlStr form =>
    match env.clientDo t urlStr form with
    | Except.error e => some e
    | Except.ok (code, status) => if code ≠ 200 then some status else none
  | _ => none

/-- A stretch `evs` of the trace that starts at time `n` and ends with outcome `o`
stops at a failed sink call: such a call is the last event of the stretch, and its
error is what is returned. -/
def FailStops (env : Env) (n : Nat) (evs : List Event) (o : Outcome) : Prop :=
  ∀ pre e post m, evs = pre ++ e :: post → sinkError env (n + pre.length) e = some m →
    post = [] ∧ o = Outcome.err m

/-- A stretch none of whose events is a failed sink call. -/
def NoFail (env : Env) (n : Nat) (evs : List Event) : Prop :=
  ∀ pre e post m, evs = pre ++ e :: post → sinkError env (n + pre.length) e ≠ some m

/-- What the two loop bodies have in common as to failed sink calls. -/
structure SinkContract (env : Env) (body : World → Item → World × Outcome) : Prop where
  stops : ∀ w i, FailStops env w.log.length (w.since (body w i).1) (body w i).2

/-- A `RecordSeen` call that did not leave its entry in the store. -/
def Event.unstored : Event → Bool
  | Event.recordSeen _ false => true
  | _ => false

/-- A stretch `evs` of the trace that leads from the store `seen0` to the store
`seen1` is orderly when the store only grew, every sink call for an entry comes
after a `RecordSeen` of that entry within the stretch, every entry recorded or
dispatched in the stretch was unseen in `seen0`, and every entry whose record was
stored is seen in `seen1`. -/
def Orderly (seen0 : List String) (evs : List Event) (seen1 : List String) : Prop :=
  (∀ x ∈ seen0, x ∈ seen1) ∧
  (∀ pre e post i, evs = pre ++ e :: post → e.dispatchEntry = some i →
    ∃ ok, Event.recordSeen i ok ∈ pre) ∧
  (∀ e ∈ evs, ∀ i, e.dispatchEntry = some i ∨ e.recorded = some i →
    seenIn seen0 i = false) ∧
  (∀ i, Event.recordSeen i true ∈ evs → seenIn seen1 i = true)

/-- The common shape of the two `ProcessURL` methods, which differ in the loop body
only. -/
def runFeed (env : Env) (verbose : Bool) (body : World → Item → World × Outcome)
    (w : World) (input : String) : World × Outcome :=
  match FetchFeed env (w.printfIf verbose ("Fetching " ++ input ++ "\n")) input with
  | (w1, Except.error e) => (w1, Outcome.err ("error processing " ++ input ++ " - " ++ e))
  | (w1, Except.ok txt) =>
    match env.parseString txt with
    | Except.error e => (w1, Outcome.err ("error parsing " ++ input ++ " contents: " ++ e))
    | Except.ok items =>
      forItems body (w1.printfIf verbose ("\tFound " ++ toString items.length ++ " entries\n"))
        items

/-- The world in which the loop over the entries starts. -/
def loopStart (verbose : Bool) (w : World) (input : String) (n : Nat) : World :=
  ((w.printfIf verbose ("Fetching " ++ input ++ "\n")).emit (Event.fetch input)).printfIf verbose
    ("\tFound " ++ toString n ++ " entries\n")

/-- The entries of a feed that are unseen when the loop reaches them, in a run in
which every record is stored: those not seen in `seen` whose identifier is not
carried by an earlier entry. -/
def freshEntries : List String → List Item → List Item
  | _, [] => []
  | seen, i :: rest =>
    if seenIn seen i = true then freshEntries seen rest
    else i :: freshEntries (seen ++ [identifier i]) rest

/-- The plain-text body that a sink call carries: the message text of a pushover
call, the `plain_text` field of a campaign form. -/
def Event.plainText : Event → Option String
  | Event.sendMessage _ _ _ text _ => some text
  | Event.campaignPost _ _ form => form.lookup "plain_text"
  | _ => none

/-- What `Execute` relies on in `ProcessURL`: a call fetches its URL first and no
other, and leaves standard error alone. -/
structure FeedContract (process : World → String → World × Outcome) : Prop where
  trace : ∀ w input, ∃ evs, (process w input).1.log = w.log ++ Event.fetch input :: evs ∧
    fetchedURLs evs = [] ∧ (process w input).1.stderr = w.stderr

/-- The credentials that `send` requires (spec sections 4.4 and 6): some sink is
enabled, and every enabled sink has all of its credentials. -/
def sendCmd.credentialsOK (p : sendCmd) : Prop :=
  (p.usePushover = true ∨ p.useSendy = true) ∧
  (p.usePushover = true → p.pushoverApiKey ≠ "" ∧ p.pushoverUserKey ≠ "") ∧
  (p.useSendy = true → p.sendyApiKey ≠ "" ∧ p.sendyApiHostname ≠ "" ∧ p.sendyListId ≠ "" ∧
    p.sendyFromName ≠ "" ∧ p.sendyFromEmail ≠ "")

instance (p : sendCmd) : Decidable (sendCmd.credentialsOK p) := by
  unfold sendCmd.credentialsOK; infer_instance

/-- The template file named for the campaign sink, if any, can be inspected when
`Execute` starts in world `w`. -/
def sendCmd.templateOK (env : Env) (p : sendCmd) (w : World) : Prop :=
  p.useSendy = true → p.emailTemplate ≠ "" → env.stat w.log.length p.emailTemplate = none

instance (env : Env) (p : sendCmd) (w : World) : Decidable (sendCmd.templateOK env p w) := by
  unfold sendCmd.templateOK; infer_instance

/-- The configuration of `send` is complete and valid. -/
def sendCmd.configValid (env : Env) (p : sendCmd) (w : World) : Prop :=
  sendCmd.credentialsOK p ∧ sendCmd.templateOK env p w

instance (env : Env) (p : sendCmd) (w : World) : Decidable (sendCmd.configValid env p w) := by
  unfold sendCmd.configValid; infer_instance

/-- The configuration of `push` is complete: both keys are given. -/
def pushCmd.configValid (p : pushCmd) : Prop :=
  p.apiKey ≠ "" ∧ p.userKey ≠ ""

instance (p : pushCmd) : Decidable (pushCmd.configValid p) := by
  unfold pushCmd.configValid; infer_instance

/-- The world in which the loop over the feeds of `sendCmd.Execute` starts: the
template file, if one is named for the campaign sink, has been inspected. -/
def sendCmd.feedsStart (p : sendCmd) (w : World) : World :=
  if p.useSendy = true ∧ p.emailTemplate ≠ "" then w.emit (Event.stat p.emailTemplate) else w

/-! ## Concrete runs -/

/-- A first entry, with content. -/
def itemA : Item :=
  { GUID := "a", Link := "", Title := "Title A", Content := "<p>alpha</p>", Description := "" }

/-- A second entry, with a description only. -/
def itemB : Item :=
  { GUID := "b", Link := "", Title := "Title B", Content := "", Description := "<i>beta</i>" }

/-- The world before the first run: nothing seen, nothing done. -/
def emptyWorld : World :=
  { seen := [], log := [], stdout := [], stderr := [] }

/-- Surroundings in which everything works: three feeds, each delivering `itemA`
and `itemB`; every sink accepts every call. -/
def calmEnv : Env where
  feedEntries := ["f1", "f2", "f3"]
  httpGet := fun _ _ => Except.ok "<rss/>"
  parseString := fun _ => Except.ok [itemA, itemB]
  FromString := fun s => Except.ok ("text:" ++ s)
  HTML2Text := fun s => "text:" ++ s
  sendMessage := fun _ _ _ _ _ => none
  readFile := fun _ _ => Except.ok "template"
  template := fun _ _ body => TemplateResult.rendered ("mail:" ++ body)
  requestURI := fun apiUrl resource => some (apiUrl ++ resource)
  newRequest := fun _ => true
  clientDo := fun _ _ _ => Except.ok (200, "200 OK")
  stat := fun _ _ => none
  record := fun _ _ => none
  sprintf := fun format => format

/-- The pushover service rejects every message. -/
def pushDownEnv : Env :=
  { calmEnv with sendMessage := fun _ _ _ _ _ => some "pushover: 500" }

/-- The markup-to-text conversion of `send` fails. -/
def badMarkupEnv : Env :=
  { calmEnv with FromString := fun _ => Except.error "html2text: bad markup" }

/-- The campaign service cannot be reached. -/
def campaignDownEnv : Env :=
  { calmEnv with clientDo := fun _ _ _ => Except.error "dial tcp: timeout" }

/-- The template file exists but cannot be read. -/
def unreadableTemplateEnv : Env :=
  { calmEnv with readFile := fun _ _ => Except.error "permission denied" }

/-- The second feed cannot be fetched. -/
def secondFeedDownEnv : Env :=
  { calmEnv with
    httpGet := fun _ url =>
      if url = "f2" then Except.error "connection refused" else Except.ok "<rss/>" }

/-- An entry with neither GUID nor link. -/
def itemNoId : Item :=
  { GUID := "", Link := "", Title := "Untitled", Content := "<p>gamma</p>", Description := "" }

/-- Every feed delivers the one entry `itemNoId`. -/
def noIdEnv : Env :=
  { calmEnv with parseString := fun _ => Except.ok [itemNoId] }

/-- The medium behind the seen store fails on every record. -/
def storeDownEnv : Env :=
  { calmEnv with record := fun _ _ => some "disk full" }

/-- The template file cannot be read during the first three steps and can be read
afterwards. -/
def lateTemplateEnv : Env :=
  { calmEnv with
    readFile := fun t _ =>
      if t < 3 then Except.error "permission denied" else Except.ok "template" }

/-- The pushover service rejects every message, the first feed holds `itemA`, the
second holds `itemB`, and the markup of `itemB` cannot be converted. -/
def pushDownThenBadMarkupEnv : Env :=
  { calmEnv with
    httpGet := fun _ url => Except.ok url
    parseString := fun txt =>
      if txt = "f1" then Except.ok [itemA]
      else if txt = "f2" then Except.ok [itemB]
      else Except.ok []
    FromString := fun s =>
      if s = "<i>beta</i>" then Except.error "html2text: bad markup"
      else Except.ok ("text:" ++ s)
    sendMessage := fun _ _ _ _ _ => some "pushover: 500" }

/-- A valid configuration of `push`. -/
def pushSample : pushCmd :=
  { verbose := false, emails := [], send := true, apiKey := "app-key", userKey := "user-key" }

/-- A valid configuration of `send` with both sinks enabled and no template. -/
def sendSample : sendCmd :=
  { verbose := false, emails := [], send := true, usePushover := true,
    pushoverApiKey := "app-key", pushoverUserKey := "user-key", emailTemplate := "",
    useSendy := true, sendyApiHostname := "sendy.example.com", sendyApiKey := "sendy-key",
    sendyListId := "list-1", sendyFromName := "News", sendyFromEmail := "news@example.com" }

/-- A valid configuration of `send` with the campaign sink only. -/
def campaignOnly : sendCmd :=
  { sendSample with usePushover := false, pushoverApiKey := "", pushoverUserKey := "" }

/-- The campaign sink only, with a template file. -/
def campaignTemplated : sendCmd :=
  { campaignOnly with emailTemplate := "mail.tmpl" }


/-! ## Basic facts about worlds -/

@[simp] theorem World.emit_log (w : World) (e : Event) : (w.emit e).log = w.log ++ [e] := rfl
@[simp] theorem World.emit_seen (w : World) (e : Event) : (w.emit e).seen = w.seen := rfl
@[simp] theorem World.emit_stderr (w : World) (e : Event) : (w.emit e).stderr = w.stderr := rfl

@[simp] theorem World.printfIf_log (w : World) (b : Bool) (s : String) :
    (w.printfIf b s).log = w.log := by
  unfold World.printfIf; split <;> rfl

@[simp] theorem World.printfIf_seen (w : World) (b : Bool) (s : String) :
    (w.printfIf b s).seen = w.seen := by
  unfold World.printfIf; split <;> rfl

@[simp] theorem World.printfIf_stderr (w : World) (b : Bool) (s : String) :
    (w.printfIf b s).stderr = w.stderr := by
  unfold World.printfIf; split <;> rfl

@[simp] theorem World.printfIf_false (w : World) (s : String) : w.printfIf false s = w := rfl

@[simp] theorem World.printf_log (w : World) (s : String) : (w.printf s).log = w.log := rfl
@[simp] theorem World.printf_seen (w : World) (s : String) : (w.printf s).seen = w.seen := rfl
@[simp] theorem World.printf_stderr (w : World) (s : String) :
    (w.printf s).stderr = w.stderr := rfl

@[simp] theorem World.eprintln_log (w : World) (l : List String) :
    (w.eprintln l).log = w.log := rfl
@[simp] theorem World.eprintln_seen (w : World) (l : List String) :
    (w.eprintln l).seen = w.seen := rfl
@[simp] theorem World.eprintln_stderr (w : World) (l : List String) :
    (w.eprintln l).stderr = w.stderr ++ l := rfl

@[simp] theorem RecordSeen_log (env : Env) (w : World) (i : Item) :
    (RecordSeen env w i).log = w.log ++ [Event.recordSeen i (storeAccepts env w i)] := rfl

@[simp] theorem RecordSeen_stderr (env : Env) (w : World) (i : Item) :
    (RecordSeen env w i).stderr = w.stderr := rfl

theorem RecordSeen_seen (env : Env) (w : World) (i : Item) :
    (RecordSeen env w i).seen =
      if storeAccepts env w i = true ∧ identifier i ∉ w.seen
        then w.seen ++ [identifier i] else w.seen :=
  rfl

theorem seenIn_iff (seen : List String) (i : Item) :
    seenIn seen i = true ↔ identifier i ≠ "" ∧ identifier i ∈ seen := by
  simp [seenIn]

theorem seenIn_false_iff (seen : List String) (i : Item) :
    seenIn seen i = false ↔ (identifier i ≠ "" → identifier i ∉ seen) := by
  simp [seenIn]

theorem seenIn_mono {s0 s1 : List String} (h : ∀ x ∈ s0, x ∈ s1) (i : Item)
    (hi : seenIn s0 i = true) : seenIn s1 i = true := by
  rw [seenIn_iff] at hi ⊢
  exact ⟨hi.1, h _ hi.2⟩

theorem seenIn_false_of_mono {s0 s1 : List String} (h : ∀ x ∈ s0, x ∈ s1) (i : Item)
    (hi : seenIn s1 i = false) : seenIn s0 i = false := by
  cases h0 : seenIn s0 i with
  | false => rfl
  | true => rw [seenIn_mono h i h0] at hi; cases hi

theorem HasSeen_iff (w : World) (i : Item) :
    HasSeen w i = true ↔ identifier i ≠ "" ∧ identifier i ∈ w.seen :=
  seenIn_iff w.seen i

theorem HasSeen_false_iff (w : World) (i : Item) :
    HasSeen w i = false ↔ (identifier i ≠ "" → identifier i ∉ w.seen) :=
  seenIn_false_iff w.seen i

theorem storeAccepts_nonempty (env : Env) (w : World) (i : Item)
    (h : storeAccepts env w i = true) : identifier i ≠ "" := by
  unfold storeAccepts at h
  simp only [Bool.and_eq_true, decide_eq_true_eq] at h
  exact h.1

@[simp] theorem storeAccepts_printfIf (env : Env) (w : World) (b : Bool) (s : String)
    (i : Item) : storeAccepts env (w.printfIf b s) i = storeAccepts env w i := by
  unfold storeAccepts; simp

@[simp] theorem HasSeen_printfIf (w : World) (b : Bool) (s : String) (i : Item) :
    HasSeen (w.printfIf b s) i = HasSeen w i := by
  unfold HasSeen; simp

theorem storeAccepts_congr (env : Env) (w w1 : World) (i : Item) (h : w1.log = w.log) :
    storeAccepts env w1 i = storeAccepts env w i := by
  unfold storeAccepts
  rw [h]

/-- The store after `RecordSeen` of an unseen entry. -/
theorem RecordSeen_seen_fresh (env : Env) (w : World) (i : Item) (h : HasSeen w i = false) :
    (RecordSeen env w i).seen =
      if storeAccepts env w i = true then w.seen ++ [identifier i] else w.seen := by
  rw [RecordSeen_seen]
  by_cases hok : storeAccepts env w i = true
  · have hne := storeAccepts_nonempty env w i hok
    have hn := (HasSeen_false_iff w i).mp h hne
    simp [hok, hn]
  · simp [hok]

theorem length_eq_zero_iff (s : String) : s.length = 0 ↔ s = "" := by
  cases s with
  | mk d =>
    constructor
    · intro h
      have hd : d = [] := List.length_eq_zero.mp h
      subst hd; rfl
    · intro h; rw [h]; rfl

/-! ## One loop iteration -/

theorem pushCmd_sendBlock_spec (env : Env) (p : pushCmd) (w : World) (i : Item)
    (P : Event → Prop)
    (hP : p.send = true →
      P (Event.sendMessage i p.apiKey p.userKey (env.HTML2Text (selectContent i)) "")) :
    ∃ evs, (pushCmd.sendBlock env p w i).1.log = w.log ++ evs ∧
      (pushCmd.sendBlock env p w i).1.seen = w.seen ∧
      (pushCmd.sendBlock env p w i).1.stderr = w.stderr ∧
      (∀ e ∈ evs, P e) ∧
      ((pushCmd.sendBlock env p w i).2 = Outcome.nil →
        evs.filterMap Event.pushed = if p.send then [i] else []) ∧
      (pushCmd.sendBlock env p w i).2.isPanic = false := by
  unfold pushCmd.sendBlock
  split
  · rename_i hsend
    split
    · exact ⟨[_], rfl, rfl, rfl, by simpa using hP hsend, by simp, rfl⟩
    · exact ⟨[_], rfl, rfl, rfl, by simpa using hP hsend, by simp [Event.pushed, hsend], rfl⟩
  · rename_i hsend
    exact ⟨[], by simp, rfl, rfl, by simp, by simp [hsend], rfl⟩

theorem sendCmd_pushoverBlock_spec (env : Env) (p : sendCmd) (w : World) (i : Item)
    (text : String) (P : Event → Prop)
    (hP : p.usePushover = true →
      P (Event.sendMessage i p.pushoverApiKey p.pushoverUserKey text i.Title)) :
    ∃ evs, (sendCmd.pushoverBlock env p w i text).1.log = w.log ++ evs ∧
      (sendCmd.pushoverBlock env p w i text).1.seen = w.seen ∧
      (sendCmd.pushoverBlock env p w i text).1.stderr = w.stderr ∧
      (∀ e ∈ evs, P e) ∧
      ((sendCmd.pushoverBlock env p w i text).2 = Outcome.nil →
        evs.filterMap Event.pushed = if p.usePushover then [i] else []) ∧
      evs.filterMap Event.campaigned = [] := by
  unfold sendCmd.pushoverBlock
  split
  · rename_i hpush
    split
    · exact ⟨[_], rfl, rfl, rfl, by simpa using hP hpush, by simp, by simp [Event.campaigned]⟩
    · exact ⟨[_], rfl, rfl, rfl, by simpa using hP hpush, by simp [Event.pushed, hpush],
        by simp [Event.campaigned]⟩
  · rename_i hpush
    exact ⟨[], by simp, rfl, rfl, by simp, by simp [hpush], rfl⟩

theorem sendCmd_templateBlock_spec (env : Env) (p : sendCmd) (w : World) (i : Item)
    (content : String) (P : Event → Prop)
    (hP : p.emailTemplate.length ≠ 0 → P (Event.readFile p.emailTemplate)) :
    ∃ evs, (sendCmd.templateBlock env p w i content).1.log = w.log ++ evs ∧
      (sendCmd.templateBlock env p w i content).1.seen = w.seen ∧
      (sendCmd.templateBlock env p w i content).1.stderr = w.stderr ∧
      (∀ e ∈ evs, P e) ∧
      evs.filterMap Event.pushed = [] ∧ evs.filterMap Event.campaigned = [] := by
  unfold sendCmd.templateBlock
  split
  · rename_i ht
    have h1 : ∀ e ∈ [Event.readFile p.emailTemplate], P e := by simpa using hP ht
    split
    · exact ⟨[_], rfl, rfl, rfl, h1, rfl, rfl⟩
    · split
      · exact ⟨[_], rfl, rfl, rfl, h1, rfl, rfl⟩
      · exact ⟨[_], rfl, rfl, rfl, h1, rfl, rfl⟩
      · exact ⟨[_], rfl, rfl, rfl, h1, rfl, rfl⟩
  · exact ⟨[], by simp, rfl, rfl, by simp, rfl, rfl⟩

theorem sendCmd_sendyBlock_spec (env : Env) (p : sendCmd) (w : World) (i : Item)
    (content text : String) (P : Event → Prop)
    (hread : p.useSendy = true → p.emailTemplate.length ≠ 0 →
      P (Event.readFile p.emailTemplate))
    (hpost : p.useSendy = true → ∀ urlStr c,
      P (Event.campaignPost i urlStr (sendCmd.campaignForm p i c text))) :
    ∃ evs, (sendCmd.sendyBlock env p w i content text).1.log = w.log ++ evs ∧
      (sendCmd.sendyBlock env p w i content text).1.seen = w.seen ∧
      (sendCmd.sendyBlock env p w i content text).1.stderr = w.stderr ∧
      (∀ e ∈ evs, P e) ∧
      evs.filterMap Event.pushed = [] ∧
      ((sendCmd.sendyBlock env p w i content text).2 = Outcome.nil →
        evs.filterMap Event.campaigned = if p.useSendy then [i] else []) ∧
      (evs.filterMap Event.campaigned = [] ∨ evs.filterMap Event.campaigned = [i]) := by
  unfold sendCmd.sendyBlock
  split
  · rename_i hsendy
    obtain ⟨tevs, hl, hs, he, ht, htp, htc⟩ :=
      sendCmd_templateBlock_spec env p w i content P (hread hsendy)
    have hP2 : ∀ (u : String) (c : String),
        ∀ e ∈ tevs ++ [Event.campaignPost i u (sendCmd.campaignForm p i c text)], P e := by
      intro u c e h
      rcases List.mem_append.mp h with h | h
      · exact ht e h
      · simp at h; subst h; exact hpost hsendy u c
    have hpushed : ∀ (u : String) (f : List (String × String)),
        (tevs ++ [Event.campaignPost i u f]).filterMap Event.pushed = [] := by
      intro u f
      rw [List.filterMap_append, htp]; rfl
    have hcamp : ∀ (u : String) (f : List (String × String)),
        (tevs ++ [Event.campaignPost i u f]).filterMap Event.campaigned = [i] := by
      intro u f
      rw [List.filterMap_append, htc]; rfl
    split
    · rename_i w1 o heq
      rw [heq] at hl hs he
      refine ⟨tevs, hl, hs, he, ht, htp, ?_, Or.inl htc⟩
      intro ho
      -- the template block never hands back `nil` as the way out
      exfalso
      simp only at ho
      subst ho
      unfold sendCmd.templateBlock at heq
      split at heq
      · split at heq
        · simp at heq
        · split at heq <;> simp at heq
      · simp at heq
    · rename_i w1 c1 heq
      rw [heq] at hl hs he
      simp only at hl hs he
      split
      · exact ⟨tevs, hl, hs, he, ht, htp, by simp, Or.inl htc⟩
      · split
        · split
          · exact ⟨tevs ++ [_], by rw [World.emit_log, hl, List.append_assoc], by simp [hs],
              by simp [he], hP2 _ _, hpushed _ _, by simp, Or.inr (hcamp _ _)⟩
          · split
            · exact ⟨tevs ++ [_], by rw [World.emit_log, hl, List.append_assoc], by simp [hs],
                by simp [he], hP2 _ _, hpushed _ _, by simp, Or.inr (hcamp _ _)⟩
            · exact ⟨tevs ++ [_], by rw [World.emit_log, hl, List.append_assoc], by simp [hs],
                by simp [he], hP2 _ _, hpushed _ _, by simp [hcamp, hsendy], Or.inr (hcamp _ _)⟩
        · exact ⟨tevs, hl, hs, he, ht, htp, by simp, Or.inl htc⟩
  · rename_i hsendy
    exact ⟨[], by simp, rfl, rfl, by simp, rfl, by simp [hsendy], Or.inl rfl⟩

theorem sendCmd_sendBlock_spec (env : Env) (p : sendCmd) (w : World) (i : Item)
    (P : Event → Prop)
    (hpush : p.send = true → p.usePushover = true → ∀ text,
      env.FromString (selectContent i) = Except.ok text →
      P (Event.sendMessage i p.pushoverApiKey p.pushoverUserKey text i.Title))
    (hread : p.send = true → p.useSendy = true → p.emailTemplate.length ≠ 0 →
      P (Event.readFile p.emailTemplate))
    (hpost : p.send = true → p.useSendy = true → ∀ text urlStr c,
      env.FromString (selectContent i) = Except.ok text →
      P (Event.campaignPost i urlStr (sendCmd.campaignForm p i c text))) :
    ∃ evs, (sendCmd.sendBlock env p w i).1.log = w.log ++ evs ∧
      (sendCmd.sendBlock env p w i).1.seen = w.seen ∧
      (sendCmd.sendBlock env p w i).1.stderr = w.stderr ∧
      (∀ e ∈ evs, P e) ∧
      ((sendCmd.sendBlock env p w i).2 = Outcome.nil →
        evs.filterMap Event.pushed = (if p.send ∧ p.usePushover then [i] else []) ∧
        evs.filterMap Event.campaigned = (if p.send ∧ p.useSendy then [i] else [])) ∧
      (evs.filterMap Event.campaigned = [] ∨ evs.filterMap Event.campaigned = [i]) := by
  unfold sendCmd.sendBlock
  split
  · rename_i hsend
    split
    · exact ⟨[], by simp, rfl, rfl, by simp, by simp, Or.inl rfl⟩
    · rename_i text htext
      obtain ⟨pevs, hl, hs, he, hp, hpp, hpc⟩ := sendCmd_pushoverBlock_spec env p w i text P
        (fun h => hpush hsend h text htext)
      split
      · rename_i w1 heq
        rw [heq] at hl hs he hpp
        simp only at hl hs he hpp
        obtain ⟨sevs, hl2, hs2, he2, hp2, hsp, hsc, hsa⟩ :=
          sendCmd_sendyBlock_spec env p w1 i (selectContent i) text P (hread hsend)
            (fun h u c => hpost hsend h text u c htext)
        refine ⟨pevs ++ sevs, by simp [hl2, hl], by simp [hs2, hs], by simp [he2, he], ?_, ?_,
          by rw [List.filterMap_append, hpc]; simpa using hsa⟩
        · intro e h
          rcases List.mem_append.mp h with h | h
          · exact hp e h
          · exact hp2 e h
        · intro ho
          rw [List.filterMap_append, List.filterMap_append, hpp trivial, hsp, hpc, hsc ho]
          simp [hsend]
      · rename_i w1 o hne heq
        rw [heq] at hl hs he
        refine ⟨pevs, hl, hs, he, hp, ?_, Or.inl hpc⟩
        intro ho
        simp only at ho
        exact absurd ho (by intro h; subst h; exact hne rfl)
  · rename_i hsend
    exact ⟨[], by simp, rfl, rfl, by simp, by simp [hsend], Or.inl rfl⟩

/-- The events after the `RecordSeen` of an unseen entry in `pushCmd.ProcessURL`. -/
theorem pushCmd_entryBody_fresh (env : Env) (p : pushCmd) (w : World) (i : Item)
    (h : HasSeen w i = false) (P : Event → Prop)
    (hP : p.send = true →
      P (Event.sendMessage i p.apiKey p.userKey (env.HTML2Text (selectContent i)) "")) :
    ∃ evs, (pushCmd.entryBody env p w i).1.log =
        w.log ++ Event.recordSeen i (storeAccepts env w i) :: evs ∧
      (pushCmd.entryBody env p w i).1.seen =
        (if storeAccepts env w i = true then w.seen ++ [identifier i] else w.seen) ∧
      (pushCmd.entryBody env p w i).1.stderr = w.stderr ∧
      (∀ e ∈ evs, P e) ∧
      ((pushCmd.entryBody env p w i).2 = Outcome.nil →
        evs.filterMap Event.pushed = if p.send then [i] else []) ∧
      (pushCmd.entryBody env p w i).2.isPanic = false := by
  obtain ⟨evs, hl, hs, he, hp, hn, hq⟩ := pushCmd_sendBlock_spec env p
    (RecordSeen env ((w.printfIf p.verbose ("New item: " ++ i.GUID ++ "\n")).printfIf p.verbose
      ("\tTitle: " ++ i.Title ++ "\n")) i) i P hP
  have hseen := RecordSeen_seen_fresh env
    ((w.printfIf p.verbose ("New item: " ++ i.GUID ++ "\n")).printfIf p.verbose
      ("\tTitle: " ++ i.Title ++ "\n")) i (by simpa using h)
  simp only [storeAccepts_printfIf, World.printfIf_seen] at hseen
  refine ⟨evs, ?_, ?_, ?_, hp, ?_, ?_⟩
  · simp [pushCmd.entryBody, h, hl]
  · simp only [pushCmd.entryBody, h, Bool.not_false, if_true]
    rw [hs, hseen]
  · simp [pushCmd.entryBody, h, he]
  · simpa [pushCmd.entryBody, h] using hn
  · simpa [pushCmd.entryBody, h] using hq

/-- The events after the `RecordSeen` of an unseen entry in `sendCmd.ProcessURL`. -/
theorem sendCmd_entryBody_fresh (env : Env) (p : sendCmd) (w : World) (i : Item)
    (h : HasSeen w i = false) (P : Event → Prop)
    (hpush : p.send = true → p.usePushover = true → ∀ text,
      env.FromString (selectContent i) = Except.ok text →
      P (Event.sendMessage i p.pushoverApiKey p.pushoverUserKey text i.Title))
    (hread : p.send = true → p.useSendy = true → p.emailTemplate.length ≠ 0 →
      P (Event.readFile p.emailTemplate))
    (hpost : p.send = true → p.useSendy = true → ∀ text urlStr c,
      env.FromString (selectContent i) = Except.ok text →
      P (Event.campaignPost i urlStr (sendCmd.campaignForm p i c text))) :
    ∃ evs, (sendCmd.entryBody env p w i).1.log =
        w.log ++ Event.recordSeen i (storeAccepts env w i) :: evs ∧
      (sendCmd.entryBody env p w i).1.seen =
        (if storeAccepts env w i = true then w.seen ++ [identifier i] else w.seen) ∧
      (sendCmd.entryBody env p w i).1.stderr = w.stderr ∧
      (∀ e ∈ evs, P e) ∧
      ((sendCmd.entryBody env p w i).2 = Outcome.nil →
        evs.filterMap Event.pushed = (if p.send ∧ p.usePushover then [i] else []) ∧
        evs.filterMap Event.campaigned = (if p.send ∧ p.useSendy then [i] else [])) ∧
      (evs.filterMap Event.campaigned = [] ∨ evs.filterMap Event.campaigned = [i]) := by
  obtain ⟨evs, hl, hs, he, hp, hn, ha⟩ := sendCmd_sendBlock_spec env p
    (RecordSeen env ((w.printfIf p.verbose ("New item: " ++ i.GUID ++ "\n")).printfIf p.verbose
      ("\tTitle: " ++ i.Title ++ "\n")) i) i P hpush hread hpost
  have hseen := RecordSeen_seen_fresh env
    ((w.printfIf p.verbose ("New item: " ++ i.GUID ++ "\n")).printfIf p.verbose
      ("\tTitle: " ++ i.Title ++ "\n")) i (by simpa using h)
  simp only [storeAccepts_printfIf, World.printfIf_seen] at hseen
  refine ⟨evs, ?_, ?_, ?_, hp, ?_, ha⟩
  · simp [sendCmd.entryBody, h, hl]
  · simp only [sendCmd.entryBody, h, Bool.not_false, if_true]
    rw [hs, hseen]
  · simp [sendCmd.entryBody, h, he]
  · simpa [sendCmd.entryBody, h] using hn

theorem pushCmd_entryContract (env : Env) (p : pushCmd) :
    EntryContract (pushCmd.entryBody env p) where
  skip := by
    intro w i h
    simp [pushCmd.entryBody, h]
  fresh := by
    intro w i h
    obtain ⟨evs, hl, hs, he, hp, _⟩ := pushCmd_entryBody_fresh env p w i h
      (fun e => e.isRecord = false ∧ e.fetched = none ∧
        (e.dispatchEntry = some i ∨ e.dispatchEntry = none))
      (by intro _; simp [Event.isRecord, Event.fetched, Event.dispatchEntry])
    exact ⟨storeAccepts env w i, evs, hl, hs, storeAccepts_nonempty env w i, he, hp⟩

theorem sendCmd_entryContract (env : Env) (p : sendCmd) :
    EntryContract (sendCmd.entryBody env p) where
  skip := by
    intro w i h
    simp [sendCmd.entryBody, h]
  fresh := by
    intro w i h
    obtain ⟨evs, hl, hs, he, hp, _⟩ := sendCmd_entryBody_fresh env p w i h
      (fun e => e.isRecord = false ∧ e.fetched = none ∧
        (e.dispatchEntry = some i ∨ e.dispatchEntry = none))
      (by intros; simp [Event.isRecord, Event.fetched, Event.dispatchEntry])
      (by intros; simp [Event.isRecord, Event.fetched, Event.dispatchEntry])
      (by intros; simp [Event.isRecord, Event.fetched, Event.dispatchEntry])
    exact ⟨storeAccepts env w i, evs, hl, hs, storeAccepts_nonempty env w i, he, hp⟩

/-! ## Traces in which recording comes first -/

theorem Orderly.refl (seen : List String) : Orderly seen [] seen := by
  refine ⟨fun _ h => h, ?_, ?_, ?_⟩
  · intro pre e post i h
    simp at h
  · intro e h
    simp at h
  · intro i h
    simp at h

theorem Orderly.append {s0 s1 s2 : List String} {a b : List Event}
    (ha : Orderly s0 a s1) (hb : Orderly s1 b s2) : Orderly s0 (a ++ b) s2 := by
  obtain ⟨ha1, ha2, ha3, ha4⟩ := ha
  obtain ⟨hb1, hb2, hb3, hb4⟩ := hb
  refine ⟨fun x h => hb1 x (ha1 x h), ?_, ?_, ?_⟩
  · intro pre e post i h hd
    rcases List.append_eq_append_iff.mp h with ⟨a1, h1, h2⟩ | ⟨c1, h1, h2⟩
    · -- the event lies in `b`
      obtain ⟨ok, hok⟩ := hb2 a1 e post i h2 hd
      rw [h1]
      exact ⟨ok, List.mem_append_right _ hok⟩
    · -- the event lies in `a`
      cases c1 with
      | nil =>
        simp at h1 h2
        obtain ⟨ok, hok⟩ := hb2 [] e post i (by simpa using h2.symm) hd
        simp at hok
      | cons c cs =>
        simp at h2
        obtain ⟨hc, _⟩ := h2
        subst hc
        exact ha2 pre e cs i h1 hd
  · intro e h i hi
    rcases List.mem_append.mp h with h | h
    · exact ha3 e h i hi
    · exact seenIn_false_of_mono ha1 i (hb3 e h i hi)
  · intro i h
    rcases List.mem_append.mp h with h | h
    · exact seenIn_mono hb1 i (ha4 i h)
    · exact hb4 i h

theorem Event.recorded_of_not_record {e : Event} (h : e.isRecord = false) :
    e.recorded = none := by
  cases e <;> simp_all [Event.isRecord, Event.recorded]

theorem Orderly.quiet {seen : List String} {evs : List Event}
    (h : ∀ e ∈ evs, e.isRecord = false ∧ e.dispatchEntry = none) : Orderly seen evs seen := by
  refine ⟨fun _ hx => hx, ?_, ?_, ?_⟩
  · intro pre e post i heq hd
    have := (h e (by rw [heq]; simp)).2
    rw [this] at hd; cases hd
  · intro e he i hi
    rcases hi with hi | hi
    · rw [(h e he).2] at hi; cases hi
    · rw [Event.recorded_of_not_record (h e he).1] at hi; cases hi
  · intro i hi
    have := (h _ hi).1
    simp [Event.isRecord] at this

theorem Orderly.fresh {seen : List String} {i : Item} {ok : Bool} {evs : List Event}
    (hn : seenIn seen i = false) (hok : ok = true → identifier i ≠ "")
    (h : ∀ e ∈ evs, e.isRecord = false ∧ e.fetched = none ∧
      (e.dispatchEntry = some i ∨ e.dispatchEntry = none)) :
    Orderly seen (Event.recordSeen i ok :: evs)
      (if ok = true then seen ++ [identifier i] else seen) := by
  refine ⟨?_, ?_, ?_, ?_⟩
  · intro x hx
    split
    · exact List.mem_append_left _ hx
    · exact hx
  · intro pre e post j heq hd
    cases pre with
    | nil =>
      simp at heq
      rw [← heq.1] at hd
      simp [Event.dispatchEntry] at hd
    | cons c cs =>
      simp at heq
      obtain ⟨hc, hcs⟩ := heq
      subst hc
      have he : e ∈ evs := by rw [hcs]; simp
      rcases (h e he).2.2 with h1 | h1
      · rw [h1] at hd
        cases hd
        exact ⟨ok, by simp⟩
      · rw [h1] at hd; cases hd
  · intro e he j hj
    have hij : j = i := by
      rcases List.mem_cons.mp he with he | he
      · subst he
        rcases hj with hj | hj
        · simp [Event.dispatchEntry] at hj
        · simp [Event.recorded] at hj; exact hj.symm
      · rcases hj with hj | hj
        · rcases (h e he).2.2 with h1 | h1
          · rw [h1] at hj; cases hj; rfl
          · rw [h1] at hj; cases hj
        · rw [Event.recorded_of_not_record (h e he).1] at hj; cases hj
    rw [hij]; exact hn
  · intro j hj
    rcases List.mem_cons.mp hj with hj | hj
    · cases hj
      rw [seenIn_iff]
      simp only [if_true]
      exact ⟨hok rfl, by simp⟩
    · have := (h _ hj).1
      simp [Event.isRecord] at this

/-- The loop over the entries, for any body that keeps the contract: the trace is
extended by an orderly stretch without fetches, and standard error is untouched. -/
theorem forItems_orderly {body : World → Item → World × Outcome} (hb : EntryContract body)
    (items : List Item) : ∀ w : World,
    ∃ evs, (forItems body w items).1.log = w.log ++ evs ∧
      Orderly w.seen evs (forItems body w items).1.seen ∧
      (forItems body w items).1.stderr = w.stderr ∧
      fetchedURLs evs = [] := by
  induction items with
  | nil =>
    intro w
    exact ⟨[], by simp [forItems], Orderly.refl _, rfl, rfl⟩
  | cons i rest ih =>
    intro w
    cases hseen : HasSeen w i with
    | true =>
      have hskip := hb.skip w i hseen
      obtain ⟨evs, h1, h2, h3, h4⟩ := ih w
      refine ⟨evs, ?_, ?_, ?_, h4⟩
      · simpa [forItems, hskip] using h1
      · simpa [forItems, hskip] using h2
      · simpa [forItems, hskip] using h3
    | false =>
      obtain ⟨ok, evs, hl, hs, hok, he, hp⟩ := hb.fresh w i hseen
      have hord : Orderly w.seen (Event.recordSeen i ok :: evs) (body w i).1.seen := by
        rw [hs]; exact Orderly.fresh hseen hok hp
      have hfetch : fetchedURLs (Event.recordSeen i ok :: evs) = [] := by
        unfold fetchedURLs
        rw [List.filterMap_eq_nil_iff]
        intro e he1
        rcases List.mem_cons.mp he1 with he1 | he1
        · subst he1; rfl
        · exact (hp e he1).2.1
      cases hbody : body w i with
      | mk w1 o =>
        rw [hbody] at hl he hord
        simp only at hl he hord
        cases o with
        | nil =>
          obtain ⟨evs2, h1, h2, h3, h4⟩ := ih w1
          refine ⟨(Event.recordSeen i ok :: evs) ++ evs2, ?_, ?_, ?_, ?_⟩
          · simp [forItems, hbody, h1, hl]
          · simpa [forItems, hbody] using Orderly.append hord h2
          · simp [forItems, hbody, h3, he]
          · unfold fetchedURLs at hfetch h4 ⊢
            rw [List.filterMap_append, hfetch, h4]; rfl
        | err m =>
          exact ⟨_, by simpa [forItems, hbody] using hl, by simpa [forItems, hbody] using hord,
            by simpa [forItems, hbody] using he, hfetch⟩
        | panic m =>
          exact ⟨_, by simpa [forItems, hbody] using hl, by simpa [forItems, hbody] using hord,
            by simpa [forItems, hbody] using he, hfetch⟩

/-- When every entry is already seen, the loop does nothing at all. -/
theorem forItems_all_seen {body : World → Item → World × Outcome} (hb : EntryContract body)
    (w : World) (items : List Item) (h : ∀ i ∈ items, HasSeen w i = true) :
    forItems body w items = (w, Outcome.nil) := by
  induction items with
  | nil => rfl
  | cons i rest ih =>
    simp only [forItems, hb.skip w i (h i (by simp))]
    exact ih (fun j hj => h j (by simp [hj]))

theorem since_of_log {w w1 : World} {evs : List Event} (h : w1.log = w.log ++ evs) :
    w.since w1 = evs := by
  unfold World.since
  rw [h, List.drop_left]

theorem since_self (w : World) : w.since w = [] := by
  simp [World.since]

/-- When the loop runs to its end and every record it made was stored, every entry
is seen afterwards. -/
theorem forItems_nil_seen {body : World → Item → World × Outcome} (hb : EntryContract body)
    (items : List Item) : ∀ (w w1 : World), forItems body w items = (w1, Outcome.nil) →
    (∀ e ∈ w.since w1, e.unstored = false) →
    ∀ i ∈ items, HasSeen w1 i = true := by
  induction items with
  | nil => intro w w1 _ _ i hi; simp at hi
  | cons j rest ih =>
    intro w w1 hrun hst i hi
    cases hbody : body w j with
    | mk w2 o =>
      cases o with
      | nil =>
        simp only [forItems, hbody] at hrun
        obtain ⟨evs2, hl2, hord, _, _⟩ := forItems_orderly hb rest w2
        rw [hrun] at hl2 hord
        simp only at hl2 hord
        have hfirst : ∃ evs1, w2.log = w.log ++ evs1 ∧ HasSeen w2 j = true := by
          cases hseen : HasSeen w j with
          | true =>
            have := hb.skip w j hseen
            rw [hbody] at this
            cases this
            exact ⟨[], by simp, hseen⟩
          | false =>
            obtain ⟨ok, evs, hl, hs, hok, _, _⟩ := hb.fresh w j hseen
            rw [hbody] at hl hs
            simp only at hl hs
            have hall : w1.log = w.log ++ ((Event.recordSeen j ok :: evs) ++ evs2) := by
              rw [hl2, hl, List.append_assoc]
            have hst1 := hst (Event.recordSeen j ok) (by rw [since_of_log hall]; simp)
            have hokt : ok = true := by
              cases ok with
              | true => rfl
              | false => simp [Event.unstored] at hst1
            subst hokt
            refine ⟨_, hl, ?_⟩
            unfold HasSeen
            rw [seenIn_iff, hs]
            exact ⟨hok rfl, by simp⟩
        obtain ⟨evs1, hl1, hj⟩ := hfirst
        rcases List.mem_cons.mp hi with hi | hi
        · subst hi
          exact seenIn_mono hord.1 i hj
        · refine ih w2 w1 hrun ?_ i hi
          intro e he
          rw [since_of_log hl2] at he
          have hall : w1.log = w.log ++ (evs1 ++ evs2) := by
            rw [hl2, hl1, List.append_assoc]
          exact hst e (by rw [since_of_log hall]; exact List.mem_append_right _ he)
      | err m => simp [forItems, hbody] at hrun
      | panic m => simp [forItems, hbody] at hrun

/-! ## One feed -/

theorem sendCmd_ProcessURL_eq (env : Env) (p : sendCmd) :
    sendCmd.ProcessURL env p = runFeed env p.verbose (sendCmd.entryBody env p) := rfl

theorem pushCmd_ProcessURL_eq (env : Env) (p : pushCmd) :
    pushCmd.ProcessURL env p = runFeed env p.verbose (pushCmd.entryBody env p) := rfl

@[simp] theorem loopStart_log (verbose : Bool) (w : World) (input : String) (n : Nat) :
    (loopStart verbose w input n).log = w.log ++ [Event.fetch input] := by
  simp [loopStart]

@[simp] theorem loopStart_seen (verbose : Bool) (w : World) (input : String) (n : Nat) :
    (loopStart verbose w input n).seen = w.seen := by
  simp [loopStart]

@[simp] theorem loopStart_stderr (verbose : Bool) (w : World) (input : String) (n : Nat) :
    (loopStart verbose w input n).stderr = w.stderr := by
  simp [loopStart]

/-- With the feed fetched and parsed, `ProcessURL` is the loop over its entries. -/
theorem runFeed_of_content (env : Env) (verbose : Bool)
    (body : World → Item → World × Outcome) (w : World) (input : String) (items : List Item)
    (h : feedContent env w input = some items) :
    runFeed env verbose body w input =
      forItems body (loopStart verbose w input items.length) items := by
  unfold feedContent at h
  unfold runFeed FetchFeed
  simp only [World.printfIf_log]
  cases hget : env.httpGet w.log.length input with
  | error e => rw [hget] at h; simp at h
  | ok txt =>
    rw [hget] at h
    simp only at h
    cases hparse : env.parseString txt with
    | error e => rw [hparse] at h; simp at h
    | ok its =>
      rw [hparse] at h
      simp only [Option.some.injEq] at h
      subst h
      simp only [hparse, loopStart]

/-- Without content, `ProcessURL` fetches, returns an error and does nothing else. -/
theorem runFeed_of_no_content (env : Env) (verbose : Bool)
    (body : World → Item → World × Outcome) (w : World) (input : String)
    (h : feedContent env w input = none) :
    ∃ m, runFeed env verbose body w input =
      ((w.printfIf verbose ("Fetching " ++ input ++ "\n")).emit (Event.fetch input),
        Outcome.err m) := by
  unfold feedContent at h
  unfold runFeed FetchFeed
  simp only [World.printfIf_log]
  cases hget : env.httpGet w.log.length input with
  | error e => exact ⟨_, rfl⟩
  | ok txt =>
    rw [hget] at h
    simp only at h
    cases hparse : env.parseString txt with
    | error e => exact ⟨"error parsing " ++ input ++ " contents: " ++ e, by simp only [hparse]⟩
    | ok its => rw [hparse] at h; simp at h

/-- Every call of `ProcessURL` fetches once, at its start; what follows is orderly
and contains no further fetch; standard error is untouched. -/
theorem runFeed_orderly (env : Env) (verbose : Bool)
    {body : World → Item → World × Outcome} (hb : EntryContract body)
    (w : World) (input : String) :
    ∃ evs, (runFeed env verbose body w input).1.log = w.log ++ Event.fetch input :: evs ∧
      Orderly w.seen evs (runFeed env verbose body w input).1.seen ∧
      (runFeed env verbose body w input).1.stderr = w.stderr ∧
      fetchedURLs evs = [] := by
  cases hc : feedContent env w input with
  | none =>
    obtain ⟨m, hm⟩ := runFeed_of_no_content env verbose body w input hc
    rw [hm]
    exact ⟨[], by simp, by simpa using Orderly.refl _, by simp, rfl⟩
  | some items =>
    rw [runFeed_of_content env verbose body w input items hc]
    obtain ⟨evs, h1, h2, h3, h4⟩ :=
      forItems_orderly hb items (loopStart verbose w input items.length)
    exact ⟨evs, by simpa using h1, by simpa using h2, by simpa using h3, h4⟩

/-- The whole stretch of a `ProcessURL` call, its fetch included, is orderly. -/
theorem runFeed_orderly_since (env : Env) (verbose : Bool)
    {body : World → Item → World × Outcome} (hb : EntryContract body)
    (w : World) (input : String) :
    Orderly w.seen (w.since (runFeed env verbose body w input).1)
      (runFeed env verbose body w input).1.seen := by
  obtain ⟨evs, h1, h2, _, _⟩ := runFeed_orderly env verbose hb w input
  have hq : Orderly w.seen [Event.fetch input] w.seen :=
    Orderly.quiet (by simp [Event.isRecord, Event.dispatchEntry])
  have := Orderly.append hq h2
  unfold World.since
  rw [h1]
  simpa using this

theorem HasSeen_loopStart (verbose : Bool) (w : World) (input : String) (n : Nat) (i : Item) :
    HasSeen (loopStart verbose w input n) i = HasSeen w i := by
  unfold HasSeen; simp

/-- A call over content whose entries are all seen: one fetch, no other event, the
store unchanged, and `nil` returned. -/
theorem runFeed_all_seen (env : Env) (verbose : Bool)
    {body : World → Item → World × Outcome} (hb : EntryContract body)
    (w : World) (input : String) (items : List Item)
    (hc : feedContent env w input = some items) (h : ∀ i ∈ items, HasSeen w i = true) :
    (runFeed env verbose body w input).2 = Outcome.nil ∧
    (runFeed env verbose body w input).1.seen = w.seen ∧
    (runFeed env verbose body w input).1.log = w.log ++ [Event.fetch input] := by
  rw [runFeed_of_content env verbose body w input items hc,
    forItems_all_seen hb _ items (by simpa [HasSeen_loopStart] using h)]
  simp

/-- After a call that returned `nil` and whose records were all stored, every entry
of the content is seen. -/
theorem runFeed_nil_seen (env : Env) (verbose : Bool)
    {body : World → Item → World × Outcome} (hb : EntryContract body)
    (w : World) (input : String) (items : List Item)
    (hc : feedContent env w input = some items)
    (hnil : (runFeed env verbose body w input).2 = Outcome.nil)
    (hst : ∀ e ∈ w.since (runFeed env verbose body w input).1, e.unstored = false) :
    ∀ i ∈ items, HasSeen (runFeed env verbose body w input).1 i = true := by
  rw [runFeed_of_content env verbose body w input items hc] at hnil hst ⊢
  obtain ⟨evs, hl, _, _, _⟩ := forItems_orderly hb items (loopStart verbose w input items.length)
  have hall : (forItems body (loopStart verbose w input items.length) items).1.log =
      w.log ++ (Event.fetch input :: evs) := by
    rw [hl]; simp
  refine forItems_nil_seen hb items _ _ (Prod.ext rfl hnil) ?_
  intro e he
  rw [since_of_log hl] at he
  exact hst e (by rw [since_of_log hall]; exact List.mem_cons_of_mem _ he)

/-! ## Runs that reach the end of the feed -/

/-- A loop that reaches its end and whose records were all stored.  A projection of
the trace that the body, on an unseen entry and when it ends normally, fills with
`g i` is filled with `g` of the fresh entries, in order; and the identifiers of the
fresh entries are appended to the store, in order. -/
theorem forItems_stored {α : Type} {body : World → Item → World × Outcome}
    (hb : EntryContract body) (f : Event → Option α) (g : Item → List α)
    (hg : ∀ w i, HasSeen w i = false → (body w i).2 = Outcome.nil →
      (w.since (body w i).1).filterMap f = g i)
    (items : List Item) : ∀ w : World, (forItems body w items).2 = Outcome.nil →
      (∀ e ∈ w.since (forItems body w items).1, e.unstored = false) →
      (w.since (forItems body w items).1).filterMap f =
        (freshEntries w.seen items).flatMap g ∧
      (forItems body w items).1.seen =
        w.seen ++ (freshEntries w.seen items).map identifier := by
  induction items with
  | nil =>
    intro w _ _
    simp [forItems, freshEntries, since_self]
  | cons i rest ih =>
    intro w hnil hst
    cases hseen : HasSeen w i with
    | true =>
      have hskip := hb.skip w i hseen
      have hsi : seenIn w.seen i = true := hseen
      simp only [forItems, hskip] at hnil hst ⊢
      simp only [freshEntries, hsi, if_true]
      exact ih w hnil hst
    | false =>
      have hsi : seenIn w.seen i = false := hseen
      obtain ⟨ok, evs, hl, hs, _, _, _⟩ := hb.fresh w i hseen
      have hgi := hg w i hseen
      cases hbody : body w i with
      | mk w1 o =>
        rw [hbody] at hl hs hgi
        simp only at hl hs hgi
        cases o with
        | nil =>
          simp only [forItems, hbody] at hnil hst ⊢
          obtain ⟨evs2, hl2, _, _, _⟩ := forItems_orderly hb rest w1
          have hall : (forItems body w1 rest).1.log =
              w.log ++ ((Event.recordSeen i ok :: evs) ++ evs2) := by
            rw [hl2, hl, List.append_assoc]
          rw [since_of_log hall] at hst
          have hokt : ok = true := by
            have := hst (Event.recordSeen i ok) (by simp)
            cases ok with
            | true => rfl
            | false => simp [Event.unstored] at this
          subst hokt
          simp only [if_true] at hs
          have ih1 := ih w1 hnil (by
            intro e he
            rw [since_of_log hl2] at he
            exact hst e (List.mem_append_right _ he))
          rw [since_of_log hl2] at ih1
          have hgi1 := hgi rfl
          rw [since_of_log hl] at hgi1
          constructor
          · rw [since_of_log hall, List.filterMap_append, ih1.1, hgi1, hs]
            simp only [freshEntries, hsi, Bool.false_eq_true, if_false, List.flatMap_cons]
          · rw [ih1.2, hs]
            simp [freshEntries, hsi]
        | err m => simp [forItems, hbody] at hnil
        | panic m => simp [forItems, hbody] at hnil

/-- The records made by the body on an unseen entry: that entry, once. -/
theorem EntryContract.recorded {body : World → Item → World × Outcome}
    (hb : EntryContract body) (w : World) (i : Item) (h : HasSeen w i = false) :
    (w.since (body w i).1).filterMap Event.recorded = [i] := by
  obtain ⟨ok, evs, hl, _, _, _, hp⟩ := hb.fresh w i h
  rw [since_of_log hl]
  have : evs.filterMap Event.recorded = [] := by
    rw [List.filterMap_eq_nil_iff]
    intro e he
    exact Event.recorded_of_not_record (hp e he).1
  simp [List.filterMap_cons, Event.recorded, this]

/-- The trace and the store of a `ProcessURL` call that received `items`, returned
`nil` and had all its records stored. -/
theorem runFeed_stored {α : Type} (env : Env) (verbose : Bool)
    {body : World → Item → World × Outcome}
    (hb : EntryContract body) (f : Event → Option α) (g : Item → List α)
    (hf : ∀ url, f (Event.fetch url) = none)
    (hg : ∀ w i, HasSeen w i = false → (body w i).2 = Outcome.nil →
      (w.since (body w i).1).filterMap f = g i)
    (w : World) (input : String) (items : List Item)
    (hc : feedContent env w input = some items)
    (hnil : (runFeed env verbose body w input).2 = Outcome.nil)
    (hst : ∀ e ∈ w.since (runFeed env verbose body w input).1, e.unstored = false) :
    (w.since (runFeed env verbose body w input).1).filterMap f =
      (freshEntries w.seen items).flatMap g ∧
    (runFeed env verbose body w input).1.seen =
      w.seen ++ (freshEntries w.seen items).map identifier := by
  rw [runFeed_of_content env verbose body w input items hc] at hnil hst ⊢
  obtain ⟨evs, hl, _, _, _⟩ := forItems_orderly hb items (loopStart verbose w input items.length)
  have hall : (forItems body (loopStart verbose w input items.length) items).1.log =
      w.log ++ (Event.fetch input :: evs) := by
    rw [hl]; simp
  have h := forItems_stored hb f g hg items (loopStart verbose w input items.length) hnil (by
    intro e he
    rw [since_of_log hl] at he
    exact hst e (by rw [since_of_log hall]; exact List.mem_cons_of_mem _ he))
  rw [since_of_log hl] at h
  constructor
  · rw [since_of_log hall, List.filterMap_cons, hf, h.1]
    simp
  · simpa using h.2

/-- Calls that the body makes once for an unseen entry when it ends normally, and at
most once otherwise: in every run they are, in order, one for each entry recorded,
except that the entry at which the loop is left may have none. -/
theorem forItems_calls {body : World → Item → World × Outcome} (hb : EntryContract body)
    (f : Event → Option Item)
    (hnil : ∀ w i, HasSeen w i = false → (body w i).2 = Outcome.nil →
      (w.since (body w i).1).filterMap f = [i])
    (hany : ∀ w i, HasSeen w i = false →
      (w.since (body w i).1).filterMap f = [] ∨ (w.since (body w i).1).filterMap f = [i])
    (items : List Item) : ∀ w : World, ∃ tail,
      (w.since (forItems body w items).1).filterMap Event.recorded =
        (w.since (forItems body w items).1).filterMap f ++ tail ∧
      tail.length ≤ 1 ∧ ((forItems body w items).2 = Outcome.nil → tail = []) := by
  induction items with
  | nil =>
    intro w
    exact ⟨[], by simp [forItems, since_self], by simp, fun _ => rfl⟩
  | cons i rest ih =>
    intro w
    cases hseen : HasSeen w i with
    | true =>
      have hskip := hb.skip w i hseen
      simp only [forItems, hskip]
      exact ih w
    | false =>
      obtain ⟨ok, evs, hl, _, _, _, _⟩ := hb.fresh w i hseen
      have hrec := hb.recorded w i hseen
      have h1 := hnil w i hseen
      have h2 := hany w i hseen
      cases hbody : body w i with
      | mk w1 o =>
        rw [hbody] at hl hrec h1 h2
        simp only at hl hrec h1 h2
        rw [since_of_log hl] at hrec h1 h2
        cases o with
        | nil =>
          obtain ⟨tail, ht1, ht2, ht3⟩ := ih w1
          obtain ⟨evs2, hl2, _, _, _⟩ := forItems_orderly hb rest w1
          have hall : (forItems body w1 rest).1.log =
              w.log ++ ((Event.recordSeen i ok :: evs) ++ evs2) := by
            rw [hl2, hl, List.append_assoc]
          rw [since_of_log hl2] at ht1
          refine ⟨tail, ?_, ht2, ?_⟩
          · simp only [forItems, hbody]
            rw [since_of_log hall, List.filterMap_append, List.filterMap_append, hrec, h1 rfl,
              ht1, List.append_assoc]
          · simpa only [forItems, hbody] using ht3
        | err m =>
          simp only [forItems, hbody]
          rw [since_of_log hl, hrec]
          rcases h2 with h2 | h2
          · exact ⟨[i], by rw [h2]; rfl, by simp, by simp⟩
          · exact ⟨[], by rw [h2]; rfl, by simp, by simp⟩
        | panic m =>
          simp only [forItems, hbody]
          rw [since_of_log hl, hrec]
          rcases h2 with h2 | h2
          · exact ⟨[i], by rw [h2]; rfl, by simp, by simp⟩
          · exact ⟨[], by rw [h2]; rfl, by simp, by simp⟩

/-- The calls of a `ProcessURL` run, see `forItems_calls`. -/
theorem runFeed_calls (env : Env) (verbose : Bool)
    {body : World → Item → World × Outcome} (hb : EntryContract body)
    (f : Event → Option Item) (hf : ∀ url, f (Event.fetch url) = none)
    (hnil : ∀ w i, HasSeen w i = false → (body w i).2 = Outcome.nil →
      (w.since (body w i).1).filterMap f = [i])
    (hany : ∀ w i, HasSeen w i = false →
      (w.since (body w i).1).filterMap f = [] ∨ (w.since (body w i).1).filterMap f = [i])
    (w : World) (input : String) : ∃ tail,
      (w.since (runFeed env verbose body w input).1).filterMap Event.recorded =
        (w.since (runFeed env verbose body w input).1).filterMap f ++ tail ∧
      tail.length ≤ 1 ∧ ((runFeed env verbose body w input).2 = Outcome.nil → tail = []) := by
  cases hc : feedContent env w input with
  | none =>
    obtain ⟨m, hm⟩ := runFeed_of_no_content env verbose body w input hc
    rw [hm]
    have hl : ((w.printfIf verbose ("Fetching " ++ input ++ "\n")).emit (Event.fetch input)).log =
        w.log ++ [Event.fetch input] := by simp
    rw [since_of_log hl]
    exact ⟨[], by simp [Event.recorded, hf], by simp, by simp⟩
  | some items =>
    rw [runFeed_of_content env verbose body w input items hc]
    obtain ⟨tail, ht1, ht2, ht3⟩ :=
      forItems_calls hb f hnil hany items (loopStart verbose w input items.length)
    obtain ⟨evs, hl, _, _, _⟩ := forItems_orderly hb items (loopStart verbose w input items.length)
    rw [since_of_log hl] at ht1
    have hall : (forItems body (loopStart verbose w input items.length) items).1.log =
        w.log ++ (Event.fetch input :: evs) := by
      rw [hl]; simp
    refine ⟨tail, ?_, ht2, ht3⟩
    rw [since_of_log hall, List.filterMap_cons, List.filterMap_cons, hf]
    simpa [Event.recorded] using ht1

/-! ## Properties of every event of a run -/

/-- What holds of every event of every iteration holds of every event of the loop. -/
theorem forItems_forall {body : World → Item → World × Outcome} (hb : EntryContract body)
    (P : Event → Prop) (hP : ∀ (w : World) (i : Item), ∀ e ∈ w.since (body w i).1, P e)
    (items : List Item) : ∀ w : World, ∀ e ∈ w.since (forItems body w items).1, P e := by
  induction items with
  | nil =>
    intro w e he
    simp [forItems, since_self] at he
  | cons i rest ih =>
    intro w e he
    have hlog : ∃ evs, (body w i).1.log = w.log ++ evs := by
      cases hseen : HasSeen w i with
      | true => exact ⟨[], by rw [hb.skip w i hseen]; simp⟩
      | false =>
        obtain ⟨ok, evs, hl, _⟩ := hb.fresh w i hseen
        exact ⟨_, hl⟩
    obtain ⟨evs1, hl1⟩ := hlog
    have h1 := hP w i
    rw [since_of_log hl1] at h1
    cases hbody : body w i with
    | mk w1 o =>
      rw [hbody] at hl1
      simp only at hl1
      cases o with
      | nil =>
        simp only [forItems, hbody] at he
        obtain ⟨evs2, hl2, _⟩ := forItems_orderly hb rest w1
        have h2 := ih w1
        rw [since_of_log hl2] at h2
        have hall : (forItems body w1 rest).1.log = w.log ++ (evs1 ++ evs2) := by
          rw [hl2, hl1, List.append_assoc]
        rw [since_of_log hall] at he
        rcases List.mem_append.mp he with he | he
        · exact h1 e he
        · exact h2 e he
      | err m =>
        simp only [forItems, hbody] at he
        rw [since_of_log hl1] at he
        exact h1 e he
      | panic m =>
        simp only [forItems, hbody] at he
        rw [since_of_log hl1] at he
        exact h1 e he

/-- What holds of the fetch and of every event of every iteration holds of every
event of a `ProcessURL` call. -/
theorem runFeed_forall (env : Env) (verbose : Bool)
    {body : World → Item → World × Outcome} (hb : EntryContract body)
    (P : Event → Prop) (hfetch : ∀ url, P (Event.fetch url))
    (hP : ∀ (w : World) (i : Item), ∀ e ∈ w.since (body w i).1, P e)
    (w : World) (input : String) :
    ∀ e ∈ w.since (runFeed env verbose body w input).1, P e := by
  intro e he
  cases hc : feedContent env w input with
  | none =>
    obtain ⟨m, hm⟩ := runFeed_of_no_content env verbose body w input hc
    rw [hm] at he
    have hl : ((w.printfIf verbose ("Fetching " ++ input ++ "\n")).emit (Event.fetch input)).log =
        w.log ++ [Event.fetch input] := by simp
    rw [since_of_log hl] at he
    simp at he
    rw [he]; exact hfetch input
  | some items =>
    rw [runFeed_of_content env verbose body w input items hc] at he
    obtain ⟨evs, hl, _⟩ := forItems_orderly hb items (loopStart verbose w input items.length)
    have h := forItems_forall hb P hP items (loopStart verbose w input items.length)
    rw [since_of_log hl] at h
    have hall : (forItems body (loopStart verbose w input items.length) items).1.log =
        w.log ++ (Event.fetch input :: evs) := by
      rw [hl]; simp
    rw [since_of_log hall] at he
    rcases List.mem_cons.mp he with he | he
    · rw [he]; exact hfetch input
    · exact h e he

/-- Every event of one iteration of `sendCmd.ProcessURL`. -/
theorem sendCmd_entryBody_forall (env : Env) (p : sendCmd) (P : Event → Prop)
    (hrec : ∀ i ok, P (Event.recordSeen i ok))
    (hpush : ∀ i, p.send = true → p.usePushover = true → ∀ text,
      env.FromString (selectContent i) = Except.ok text →
      P (Event.sendMessage i p.pushoverApiKey p.pushoverUserKey text i.Title))
    (hread : p.send = true → p.useSendy = true → p.emailTemplate.length ≠ 0 →
      P (Event.readFile p.emailTemplate))
    (hpost : ∀ i, p.send = true → p.useSendy = true → ∀ text urlStr c,
      env.FromString (selectContent i) = Except.ok text →
      P (Event.campaignPost i urlStr (sendCmd.campaignForm p i c text)))
    (w : World) (i : Item) : ∀ e ∈ w.since (sendCmd.entryBody env p w i).1, P e := by
  intro e he
  cases hseen : HasSeen w i with
  | true =>
    rw [(sendCmd_entryContract env p).skip w i hseen, since_self] at he
    simp at he
  | false =>
    obtain ⟨evs, hl, _, _, hp, _⟩ :=
      sendCmd_entryBody_fresh env p w i hseen P (hpush i) hread (hpost i)
    rw [since_of_log hl] at he
    rcases List.mem_cons.mp he with he | he
    · rw [he]; exact hrec i _
    · exact hp e he

/-- Every event of one iteration of `pushCmd.ProcessURL`. -/
theorem pushCmd_entryBody_forall (env : Env) (p : pushCmd) (P : Event → Prop)
    (hrec : ∀ i ok, P (Event.recordSeen i ok))
    (hpush : ∀ i, p.send = true →
      P (Event.sendMessage i p.apiKey p.userKey (env.HTML2Text (selectContent i)) ""))
    (w : World) (i : Item) : ∀ e ∈ w.since (pushCmd.entryBody env p w i).1, P e := by
  intro e he
  cases hseen : HasSeen w i with
  | true =>
    rw [(pushCmd_entryContract env p).skip w i hseen, since_self] at he
    simp at he
  | false =>
    obtain ⟨evs, hl, _, _, hp, _⟩ := pushCmd_entryBody_fresh env p w i hseen P (hpush i)
    rw [since_of_log hl] at he
    rcases List.mem_cons.mp he with he | he
    · rw [he]; exact hrec i _
    · exact hp e he

/-- Every event of a call of `sendCmd.ProcessURL`. -/
theorem sendCmd_ProcessURL_forall (env : Env) (p : sendCmd) (P : Event → Prop)
    (hfetch : ∀ url, P (Event.fetch url))
    (hrec : ∀ i ok, P (Event.recordSeen i ok))
    (hpush : ∀ i, p.send = true → p.usePushover = true → ∀ text,
      env.FromString (selectContent i) = Except.ok text →
      P (Event.sendMessage i p.pushoverApiKey p.pushoverUserKey text i.Title))
    (hread : p.send = true → p.useSendy = true → p.emailTemplate.length ≠ 0 →
      P (Event.readFile p.emailTemplate))
    (hpost : ∀ i, p.send = true → p.useSendy = true → ∀ text urlStr c,
      env.FromString (selectContent i) = Except.ok text →
      P (Event.campaignPost i urlStr (sendCmd.campaignForm p i c text)))
    (w : World) (input : String) :
    ∀ e ∈ w.since (sendCmd.ProcessURL env p w input).1, P e := by
  rw [sendCmd_ProcessURL_eq]
  exact runFeed_forall env p.verbose (sendCmd_entryContract env p) P hfetch
    (sendCmd_entryBody_forall env p P hrec hpush hread hpost) w input

/-- Every event of a call of `pushCmd.ProcessURL`. -/
theorem pushCmd_ProcessURL_forall (env : Env) (p : pushCmd) (P : Event → Prop)
    (hfetch : ∀ url, P (Event.fetch url))
    (hrec : ∀ i ok, P (Event.recordSeen i ok))
    (hpush : ∀ i, p.send = true →
      P (Event.sendMessage i p.apiKey p.userKey (env.HTML2Text (selectContent i)) ""))
    (w : World) (input : String) :
    ∀ e ∈ w.since (pushCmd.ProcessURL env p w input).1, P e := by
  rw [pushCmd_ProcessURL_eq]
  exact runFeed_forall env p.verbose (pushCmd_entryContract env p) P hfetch
    (pushCmd_entryBody_forall env p P hrec hpush) w input

/-- The loop of `pushCmd.ProcessURL` never panics. -/
theorem pushCmd_forItems_no_panic (env : Env) (p : pushCmd) (items : List Item) :
    ∀ w : World, (forItems (pushCmd.entryBody env p) w items).2.isPanic = false := by
  induction items with
  | nil => intro w; rfl
  | cons i rest ih =>
    intro w
    have hbody : (pushCmd.entryBody env p w i).2.isPanic = false := by
      cases hseen : HasSeen w i with
      | true => rw [(pushCmd_entryContract env p).skip w i hseen]; rfl
      | false =>
        obtain ⟨_, _, _, _, _, _, hq⟩ :=
          pushCmd_entryBody_fresh env p w i hseen (fun _ => True) (fun _ => trivial)
        exact hq
    cases hb : pushCmd.entryBody env p w i with
    | mk w1 o =>
      rw [hb] at hbody
      cases o with
      | nil => simp only [forItems, hb]; exact ih w1
      | err m => simp [forItems, hb, Outcome.isPanic]
      | panic m => simp [Outcome.isPanic] at hbody

/-- `pushCmd.ProcessURL` always returns: `nil` or an error, never a panic. -/
theorem pushCmd_ProcessURL_no_panic (env : Env) (p : pushCmd) (w : World) (input : String) :
    (pushCmd.ProcessURL env p w input).2.isPanic = false := by
  rw [pushCmd_ProcessURL_eq]
  cases hc : feedContent env w input with
  | none =>
    obtain ⟨m, hm⟩ := runFeed_of_no_content env p.verbose (pushCmd.entryBody env p) w input hc
    rw [hm]; rfl
  | some items =>
    rw [runFeed_of_content env p.verbose _ w input items hc]
    exact pushCmd_forItems_no_panic env p items _

theorem flatMap_if_singleton {α : Type} (c : Prop) [Decidable c] (l : List α) :
    l.flatMap (fun i => if c then [i] else []) = if c then l else [] := by
  induction l with
  | nil => split <;> rfl
  | cons x xs ih =>
    rw [List.flatMap_cons, ih]
    split <;> simp

theorem flatMap_singleton_id {α : Type} (l : List α) : l.flatMap (fun i => [i]) = l := by
  induction l with
  | nil => rfl
  | cons x xs ih => rw [List.flatMap_cons, ih]; rfl

/-- A call of `pushCmd.ProcessURL` that received `items`, returned `nil` and had all
its records stored: the fresh entries were recorded, each was pushed once when
`send` is set, and their identifiers were appended to the store. -/
theorem pushCmd_ProcessURL_nil_trace (env : Env) (p : pushCmd) (w : World) (input : String)
    (items : List Item) (hc : feedContent env w input = some items)
    (hnil : (pushCmd.ProcessURL env p w input).2 = Outcome.nil)
    (hst : ∀ e ∈ w.since (pushCmd.ProcessURL env p w input).1, e.unstored = false) :
    (w.since (pushCmd.ProcessURL env p w input).1).filterMap Event.recorded =
      freshEntries w.seen items ∧
    (w.since (pushCmd.ProcessURL env p w input).1).filterMap Event.pushed =
      (if p.send then freshEntries w.seen items else []) ∧
    (pushCmd.ProcessURL env p w input).1.seen =
      w.seen ++ (freshEntries w.seen items).map identifier := by
  rw [pushCmd_ProcessURL_eq] at hnil hst ⊢
  have hb := pushCmd_entryContract env p
  have h1 := runFeed_stored env p.verbose hb Event.recorded (fun i => [i]) (fun _ => rfl)
    (fun w i h _ => hb.recorded w i h) w input items hc hnil hst
  have h2 := runFeed_stored env p.verbose hb Event.pushed (fun i => if p.send then [i] else [])
    (fun _ => rfl)
    (by
      intro w i h ho
      obtain ⟨evs, hl, _, _, _, hn, _⟩ :=
        pushCmd_entryBody_fresh env p w i h (fun _ => True) (fun _ => trivial)
      rw [since_of_log hl, List.filterMap_cons]
      simpa [Event.pushed] using hn ho)
    w input items hc hnil hst
  refine ⟨?_, ?_, h1.2⟩
  · rw [h1.1, flatMap_singleton_id]
  · rw [h2.1, flatMap_if_singleton]

/-- What one iteration of `sendCmd.ProcessURL` on an unseen entry sends when it ends
normally. -/
theorem sendCmd_entryBody_sent (env : Env) (p : sendCmd) (w : World) (i : Item)
    (h : HasSeen w i = false) (ho : (sendCmd.entryBody env p w i).2 = Outcome.nil) :
    (w.since (sendCmd.entryBody env p w i).1).filterMap Event.pushed =
      (if p.send ∧ p.usePushover then [i] else []) ∧
    (w.since (sendCmd.entryBody env p w i).1).filterMap Event.campaigned =
      (if p.send ∧ p.useSendy then [i] else []) := by
  obtain ⟨evs, hl, _, _, _, hn, _⟩ :=
    sendCmd_entryBody_fresh env p w i h (fun _ => True) (fun _ _ _ _ => trivial)
      (fun _ _ _ => trivial) (fun _ _ _ _ _ _ => trivial)
  rw [since_of_log hl, List.filterMap_cons, List.filterMap_cons]
  simpa [Event.pushed, Event.campaigned] using hn ho

/-- One iteration of `sendCmd.ProcessURL` on an unseen entry makes at most one
campaign call, and that for the entry. -/
theorem sendCmd_entryBody_campaigned (env : Env) (p : sendCmd) (w : World) (i : Item)
    (h : HasSeen w i = false) :
    (w.since (sendCmd.entryBody env p w i).1).filterMap Event.campaigned = [] ∨
    (w.since (sendCmd.entryBody env p w i).1).filterMap Event.campaigned = [i] := by
  obtain ⟨evs, hl, _, _, _, _, ha⟩ :=
    sendCmd_entryBody_fresh env p w i h (fun _ => True) (fun _ _ _ _ => trivial)
      (fun _ _ _ => trivial) (fun _ _ _ _ _ _ => trivial)
  rw [since_of_log hl, List.filterMap_cons]
  simpa [Event.campaigned] using ha

/-- A call of `sendCmd.ProcessURL` that received `items`, returned `nil` and had all
its records stored: the fresh entries were recorded, each was sent once to every
enabled sink when `send` is set, and their identifiers were appended to the
store. -/
theorem sendCmd_ProcessURL_nil_trace (env : Env) (p : sendCmd) (w : World) (input : String)
    (items : List Item) (hc : feedContent env w input = some items)
    (hnil : (sendCmd.ProcessURL env p w input).2 = Outcome.nil)
    (hst : ∀ e ∈ w.since (sendCmd.ProcessURL env p w input).1, e.unstored = false) :
    (w.since (sendCmd.ProcessURL env p w input).1).filterMap Event.recorded =
      freshEntries w.seen items ∧
    (w.since (sendCmd.ProcessURL env p w input).1).filterMap Event.pushed =
      (if p.send ∧ p.usePushover then freshEntries w.seen items else []) ∧
    (w.since (sendCmd.ProcessURL env p w input).1).filterMap Event.campaigned =
      (if p.send ∧ p.useSendy then freshEntries w.seen items else []) ∧
    (sendCmd.ProcessURL env p w input).1.seen =
      w.seen ++ (freshEntries w.seen items).map identifier := by
  rw [sendCmd_ProcessURL_eq] at hnil hst ⊢
  have hb := sendCmd_entryContract env p
  have h1 := runFeed_stored env p.verbose hb Event.recorded (fun i => [i]) (fun _ => rfl)
    (fun w i h _ => hb.recorded w i h) w input items hc hnil hst
  have h2 := runFeed_stored env p.verbose hb Event.pushed
    (fun i => if p.send ∧ p.usePushover then [i] else []) (fun _ => rfl)
    (fun w i h ho => (sendCmd_entryBody_sent env p w i h ho).1) w input items hc hnil hst
  have h3 := runFeed_stored env p.verbose hb Event.campaigned
    (fun i => if p.send ∧ p.useSendy then [i] else []) (fun _ => rfl)
    (fun w i h ho => (sendCmd_entryBody_sent env p w i h ho).2) w input items hc hnil hst
  refine ⟨?_, ?_, ?_, h1.2⟩
  · rw [h1.1, flatMap_singleton_id]
  · rw [h2.1, flatMap_if_singleton]
  · rw [h3.1, flatMap_if_singleton]

/-! ## Leaving the loop early -/

/-- The loop over `a ++ b`: the loop over `a`, and the loop over `b` only if the
first ended normally. -/
theorem forItems_append (body : World → Item → World × Outcome) (a b : List Item) :
    ∀ w : World, forItems body w (a ++ b) =
      match forItems body w a with
      | (w1, Outcome.nil) => forItems body w1 b
      | (w1, o) => (w1, o) := by
  induction a with
  | nil => intro w; rfl
  | cons i rest ih =>
    intro w
    cases hb : body w i with
    | mk w1 o =>
      cases o with
      | nil => simp only [List.cons_append, forItems, hb]; exact ih w1
      | err m => simp [forItems, hb]
      | panic m => simp [forItems, hb]

/-- An iteration that does not end normally ends the loop: the result of the loop
is the result of that iteration. -/
theorem forItems_stops (body : World → Item → World × Outcome) (pre post : List Item)
    (i : Item) (w w1 w2 : World) (o : Outcome)
    (hpre : forItems body w pre = (w1, Outcome.nil)) (hi : body w1 i = (w2, o))
    (ho : o ≠ Outcome.nil) :
    forItems body w (pre ++ i :: post) = (w2, o) := by
  rw [forItems_append, hpre]
  cases o with
  | nil => exact absurd rfl ho
  | err m => simp only [forItems, hi]
  | panic m => simp only [forItems, hi]

/-- With `send` unset, an iteration of `sendCmd.ProcessURL` ends normally. -/
theorem sendCmd_entryBody_unsent (env : Env) (p : sendCmd) (h : p.send = false)
    (w : World) (i : Item) : (sendCmd.entryBody env p w i).2 = Outcome.nil := by
  unfold sendCmd.entryBody sendCmd.sendBlock
  simp only [h]
  split <;> rfl

/-- With `send` unset, an iteration of `pushCmd.ProcessURL` ends normally. -/
theorem pushCmd_entryBody_unsent (env : Env) (p : pushCmd) (h : p.send = false)
    (w : World) (i : Item) : (pushCmd.entryBody env p w i).2 = Outcome.nil := by
  unfold pushCmd.entryBody pushCmd.sendBlock
  simp only [h]
  split <;> rfl

/-- A loop all of whose iterations end normally ends normally. -/
theorem forItems_nil_of_body (body : World → Item → World × Outcome)
    (h : ∀ w i, (body w i).2 = Outcome.nil) (items : List Item) :
    ∀ w : World, (forItems body w items).2 = Outcome.nil := by
  induction items with
  | nil => intro w; rfl
  | cons i rest ih =>
    intro w
    have hi := h w i
    cases hb : body w i with
    | mk w1 o =>
      rw [hb] at hi
      simp only at hi
      subst hi
      simp only [forItems, hb]
      exact ih w1

/-! ## The loop over the feeds -/

theorem sendCmd_feedContract (env : Env) (p : sendCmd) :
    FeedContract (sendCmd.ProcessURL env p) where
  trace := by
    intro w input
    obtain ⟨evs, h1, _, h3, h4⟩ :=
      runFeed_orderly env p.verbose (sendCmd_entryContract env p) w input
    exact ⟨evs, h1, h4, h3⟩

theorem pushCmd_feedContract (env : Env) (p : pushCmd) :
    FeedContract (pushCmd.ProcessURL env p) where
  trace := by
    intro w input
    obtain ⟨evs, h1, _, h3, h4⟩ :=
      runFeed_orderly env p.verbose (pushCmd_entryContract env p) w input
    exact ⟨evs, h1, h4, h3⟩

/-- The fetches of the loop over the feeds are the calls of `ProcessURL` it makes, in
order; standard error is not written inside the loop. -/
theorem forFeeds_trace {process : World → String → World × Outcome}
    (hp : FeedContract process) (uris : List String) : ∀ (w : World) (errors : List String),
    ∃ evs, (forFeeds process w errors uris).1.log = w.log ++ evs ∧
      fetchedURLs evs = (invocations process w uris).map Prod.fst ∧
      (forFeeds process w errors uris).1.stderr = w.stderr := by
  induction uris with
  | nil =>
    intro w errors
    exact ⟨[], by simp [forFeeds], rfl, rfl⟩
  | cons uri rest ih =>
    intro w errors
    obtain ⟨evs, hl, hf, he⟩ := hp.trace w uri
    have hfetch : fetchedURLs (Event.fetch uri :: evs) = [uri] := by
      unfold fetchedURLs at hf ⊢
      rw [List.filterMap_cons]
      simp [Event.fetched, hf]
    cases hproc : process w uri with
    | mk w1 o =>
      rw [hproc] at hl he
      simp only at hl he
      cases o with
      | nil =>
        obtain ⟨evs2, hl2, hf2, he2⟩ := ih w1 errors
        refine ⟨(Event.fetch uri :: evs) ++ evs2, ?_, ?_, ?_⟩
        · simp only [forFeeds, hproc]; rw [hl2, hl, List.append_assoc]
        · unfold fetchedURLs at hfetch hf2 ⊢
          rw [List.filterMap_append, hfetch, hf2]
          simp [invocations, hproc]
        · simp only [forFeeds, hproc]; rw [he2, he]
      | err m =>
        obtain ⟨evs2, hl2, hf2, he2⟩ :=
          ih w1 (errors ++ ["error processing " ++ uri ++ " - " ++ m ++ "\n"])
        refine ⟨(Event.fetch uri :: evs) ++ evs2, ?_, ?_, ?_⟩
        · simp only [forFeeds, hproc]; rw [hl2, hl, List.append_assoc]
        · unfold fetchedURLs at hfetch hf2 ⊢
          rw [List.filterMap_append, hfetch, hf2]
          simp [invocations, hproc]
        · simp only [forFeeds, hproc]; rw [he2, he]
      | panic m =>
        refine ⟨Event.fetch uri :: evs, ?_, ?_, ?_⟩
        · simp only [forFeeds, hproc]; exact hl
        · rw [hfetch]; simp [invocations, hproc]
        · simp only [forFeeds, hproc]; exact he

/-- The loop over the feeds ends normally exactly when no call of `ProcessURL`
panics, and `errors` then holds one line for each call that returned an error, in
order. -/
theorem forFeeds_ok_iff (process : World → String → World × Outcome) (uris : List String) :
    ∀ (w : World) (errors result : List String),
    (forFeeds process w errors uris).2 = Except.ok result ↔
      (∀ x ∈ invocations process w uris, x.2.isPanic = false) ∧
      result = errors ++ (invocations process w uris).filterMap errorLine := by
  induction uris with
  | nil =>
    intro w errors result
    simp only [forFeeds, invocations, List.filterMap_nil, List.append_nil, List.not_mem_nil,
      false_implies, implies_true, true_and, Except.ok.injEq]
    exact eq_comm
  | cons uri rest ih =>
    intro w errors result
    cases hproc : process w uri with
    | mk w1 o =>
      cases o with
      | nil =>
        simp only [forFeeds, invocations, hproc]
        rw [ih w1 errors result]
        simp [Outcome.isPanic, errorLine]
      | err m =>
        simp only [forFeeds, invocations, hproc]
        rw [ih w1 _ result]
        simp [Outcome.isPanic, errorLine]
      | panic m =>
        simp [forFeeds, invocations, hproc, Outcome.isPanic]

/-- The loop over the feeds is left by a panic exactly when a call of `ProcessURL`
panics. -/
theorem forFeeds_error_iff (process : World → String → World × Outcome) (uris : List String) :
    ∀ (w : World) (errors : List String) (m : String),
    (forFeeds process w errors uris).2 = Except.error m ↔
      ∃ u, (u, Outcome.panic m) ∈ invocations process w uris := by
  induction uris with
  | nil =>
    intro w errors m
    simp [forFeeds, invocations]
  | cons uri rest ih =>
    intro w errors m
    cases hproc : process w uri with
    | mk w1 o =>
      cases o with
      | nil =>
        simp only [forFeeds, invocations, hproc]
        rw [ih w1 errors m]
        simp
      | err m1 =>
        simp only [forFeeds, invocations, hproc]
        rw [ih w1 _ m]
        simp
      | panic m1 =>
        simp only [forFeeds, invocations, hproc]
        constructor
        · intro h
          cases h
          exact ⟨uri, by simp⟩
        · rintro ⟨u, hu⟩
          simp at hu
          rw [hu.2]

/-- When no call panics, `ProcessURL` is called once for every URI, in order. -/
theorem invocations_all (process : World → String → World × Outcome) (uris : List String) :
    ∀ w : World, (∀ x ∈ invocations process w uris, x.2.isPanic = false) →
      (invocations process w uris).map Prod.fst = uris := by
  induction uris with
  | nil => intro w _; rfl
  | cons uri rest ih =>
    intro w h
    cases hproc : process w uri with
    | mk w1 o =>
      cases o with
      | nil =>
        simp only [invocations, hproc] at h ⊢
        simp only [List.map_cons, List.cons.injEq, true_and]
        exact ih w1 (fun x hx => h x (List.mem_cons_of_mem _ hx))
      | err m =>
        simp only [invocations, hproc] at h ⊢
        simp only [List.map_cons, List.cons.injEq, true_and]
        exact ih w1 (fun x hx => h x (List.mem_cons_of_mem _ hx))
      | panic m =>
        simp only [invocations, hproc] at h
        have := h (uri, Outcome.panic m) (by simp)
        simp [Outcome.isPanic] at this

/-- No call of `pushCmd.ProcessURL` made by the loop panics. -/
theorem pushCmd_invocations_no_panic (env : Env) (p : pushCmd) (uris : List String) :
    ∀ w : World, ∀ x ∈ invocations (pushCmd.ProcessURL env p) w uris, x.2.isPanic = false := by
  induction uris with
  | nil => intro w x hx; simp [invocations] at hx
  | cons uri rest ih =>
    intro w x hx
    have hnp := pushCmd_ProcessURL_no_panic env p w uri
    cases hproc : pushCmd.ProcessURL env p w uri with
    | mk w1 o =>
      rw [hproc] at hnp
      cases o with
      | nil =>
        simp only [invocations, hproc, List.mem_cons] at hx
        rcases hx with hx | hx
        · rw [hx]; rfl
        · exact ih w1 x hx
      | err m =>
        simp only [invocations, hproc, List.mem_cons] at hx
        rcases hx with hx | hx
        · rw [hx]; rfl
        · exact ih w1 x hx
      | panic m => simp [Outcome.isPanic] at hnp

/-! ## `Execute` -/

/-- The outcome of the loop over the feeds, turned into the result of `Execute`. -/
theorem sendCmd_Execute_valid (env : Env) (p : sendCmd) (w : World)
    (h : sendCmd.configValid env p w) :
    sendCmd.Execute env p w =
      match forFeeds (sendCmd.ProcessURL env p) (sendCmd.feedsStart p w) [] env.feedEntries with
      | (w1, Except.error m) => (w1, ExecResult.panic m)
      | (w1, Except.ok errors) => finish w1 errors := by
  obtain ⟨⟨hsink, hpush, hsendy⟩, htmpl⟩ := h
  have hsink1 : p.usePushover = true ∨ p.useSendy = true := hsink
  have c1 : ¬ (p.usePushover = true ∧
      (p.pushoverApiKey.length = 0 ∨ p.pushoverUserKey.length = 0)) := by
    rintro ⟨h1, h2⟩
    have := hpush h1
    simp only [length_eq_zero_iff] at h2
    tauto
  have c2 : ¬ (p.useSendy = true ∧ (p.sendyApiKey.length = 0 ∨ p.sendyApiHostname.length = 0 ∨
      p.sendyListId.length = 0 ∨ p.sendyFromName.length = 0 ∨ p.sendyFromEmail.length = 0)) := by
    rintro ⟨h1, h2⟩
    have := hsendy h1
    simp only [length_eq_zero_iff] at h2
    tauto
  unfold sendCmd.Execute sendCmd.feedsStart
  rw [if_pos hsink1, if_neg c1, if_neg c2]
  by_cases c3 : p.useSendy = true ∧ p.emailTemplate.length ≠ 0
  · have c3' : p.useSendy = true ∧ p.emailTemplate ≠ "" :=
      ⟨c3.1, fun h => c3.2 ((length_eq_zero_iff _).mpr h)⟩
    rw [if_pos c3, if_pos c3', htmpl c3'.1 c3'.2]
  · have c3' : ¬ (p.useSendy = true ∧ p.emailTemplate ≠ "") :=
      fun h => c3 ⟨h.1, fun h2 => h.2 ((length_eq_zero_iff _).mp h2)⟩
    rw [if_neg c3, if_neg c3']

/-- With an invalid configuration `sendCmd.Execute` fails before the loop over the
feeds: nothing is fetched, recorded or dispatched. -/
theorem sendCmd_Execute_invalid (env : Env) (p : sendCmd) (w : World)
    (h : ¬ sendCmd.configValid env p w) :
    (sendCmd.Execute env p w).2 = ExecResult.exit ExitStatus.ExitFailure ∧
    (sendCmd.Execute env p w).1.seen = w.seen ∧
    (sendCmd.Execute env p w).1.stderr = w.stderr ∧
    ((sendCmd.Execute env p w).1.log = w.log ∨
      (sendCmd.Execute env p w).1.log = w.log ++ [Event.stat p.emailTemplate]) := by
  unfold sendCmd.Execute
  by_cases hsink : p.usePushover = true ∨ p.useSendy = true
  · rw [if_pos hsink]
    by_cases c1 : p.usePushover = true ∧
        (p.pushoverApiKey.length = 0 ∨ p.pushoverUserKey.length = 0)
    · rw [if_pos c1]; simp
    · rw [if_neg c1]
      by_cases c2 : p.useSendy = true ∧ (p.sendyApiKey.length = 0 ∨
          p.sendyApiHostname.length = 0 ∨ p.sendyListId.length = 0 ∨
          p.sendyFromName.length = 0 ∨ p.sendyFromEmail.length = 0)
      · rw [if_pos c2]; simp
      · rw [if_neg c2]
        have hcred : sendCmd.credentialsOK p := by
          refine ⟨hsink, ?_, ?_⟩
          · intro h1
            simp only [length_eq_zero_iff] at c1
            tauto
          · intro h1
            simp only [length_eq_zero_iff] at c2
            tauto
        have htmpl : ¬ sendCmd.templateOK env p w := fun ht => h ⟨hcred, ht⟩
        unfold sendCmd.templateOK at htmpl
        push_neg at htmpl
        obtain ⟨t1, t2, t3⟩ := htmpl
        have c3 : p.useSendy = true ∧ p.emailTemplate.length ≠ 0 :=
          ⟨t1, fun h2 => t2 ((length_eq_zero_iff _).mp h2)⟩
        rw [if_pos c3]
        cases hstat : env.stat w.log.length p.emailTemplate with
        | none => exact absurd hstat t3
        | some e => simp
  · rw [if_neg hsink]; simp

/-- The outcome of the loop over the feeds, turned into the result of `Execute`. -/
theorem pushCmd_Execute_valid (env : Env) (p : pushCmd) (w : World)
    (h : pushCmd.configValid p) :
    pushCmd.Execute env p w =
      match forFeeds (pushCmd.ProcessURL env p) w [] env.feedEntries with
      | (w1, Except.error m) => (w1, ExecResult.panic m)
      | (w1, Except.ok errors) => finish w1 errors := by
  have c1 : ¬ (p.apiKey.length = 0 ∨ p.userKey.length = 0) := by
    simp only [length_eq_zero_iff]
    unfold pushCmd.configValid at h
    tauto
  unfold pushCmd.Execute
  rw [if_neg c1]

/-- With a key missing `pushCmd.Execute` fails before the loop over the feeds. -/
theorem pushCmd_Execute_invalid (env : Env) (p : pushCmd) (w : World)
    (h : ¬ pushCmd.configValid p) :
    (pushCmd.Execute env p w).2 = ExecResult.exit ExitStatus.ExitFailure ∧
    (pushCmd.Execute env p w).1.seen = w.seen ∧
    (pushCmd.Execute env p w).1.stderr = w.stderr ∧
    (pushCmd.Execute env p w).1.log = w.log := by
  have c1 : p.apiKey.length = 0 ∨ p.userKey.length = 0 := by
    simp only [length_eq_zero_iff]
    unfold pushCmd.configValid at h
    tauto
  unfold pushCmd.Execute
  rw [if_pos c1]
  simp

/-- The result of `finish`. -/
theorem finish_result (w : World) (errors : List String) :
    (finish w errors).2 = ExecResult.exit
      (if errors = [] then ExitStatus.ExitSuccess else ExitStatus.ExitFailure) ∧
    (finish w errors).1.log = w.log ∧ (finish w errors).1.seen = w.seen ∧
    (finish w errors).1.stderr = w.stderr ++ errors := by
  unfold finish
  cases errors with
  | nil => simp
  | cons e es => simp

/-- No line is appended to `errors` exactly when every call returned `nil` or
panicked. -/
theorem errorLines_eq_nil_iff (l : List (String × Outcome)) :
    l.filterMap errorLine = [] ↔ ∀ x ∈ l, x.2.isErr = false := by
  rw [List.filterMap_eq_nil_iff]
  constructor
  · intro h x hx
    have := h x hx
    rcases x with ⟨u, o⟩
    cases o <;> simp_all [errorLine, Outcome.isErr]
  · intro h x hx
    have := h x hx
    rcases x with ⟨u, o⟩
    cases o <;> simp_all [errorLine, Outcome.isErr]

/-! ## Credentials of a sink that is not enabled -/

/-- With the push sink disabled, the loop body of `send` does not depend on the
pushover keys. -/
theorem sendCmd_entryBody_pushover_keys (env : Env) (p : sendCmd) (h : p.usePushover = false)
    (k u : String) :
    sendCmd.entryBody env { p with pushoverApiKey := k, pushoverUserKey := u } =
      sendCmd.entryBody env p := by
  funext w i
  unfold sendCmd.entryBody sendCmd.sendBlock sendCmd.pushoverBlock
  simp only [h]
  rfl

/-- With the campaign sink disabled, the loop body of `send` does not depend on the
Sendy credentials. -/
theorem sendCmd_entryBody_sendy_keys (env : Env) (p : sendCmd) (h : p.useSendy = false)
    (key host list name email : String) :
    sendCmd.entryBody env { p with
          sendyApiKey := key, sendyApiHostname := host, sendyListId := list,
          sendyFromName := name, sendyFromEmail := email } =
      sendCmd.entryBody env p := by
  funext w i
  unfold sendCmd.entryBody sendCmd.sendBlock sendCmd.sendyBlock
  simp only [h]
  rfl

/-- `sendCmd.ProcessURL` depends on the configuration through `verbose` and the loop
body only. -/
theorem sendCmd_ProcessURL_congr (env : Env) (p q : sendCmd) (hv : q.verbose = p.verbose)
    (hb : sendCmd.entryBody env q = sendCmd.entryBody env p) :
    sendCmd.ProcessURL env q = sendCmd.ProcessURL env p := by
  rw [sendCmd_ProcessURL_eq, sendCmd_ProcessURL_eq, hv, hb]

/-! ## Failed sink calls -/

theorem failStops_nil (env : Env) (n : Nat) (o : Outcome) : FailStops env n [] o := by
  intro pre e post m h
  simp at h

theorem failStops_single (env : Env) (n : Nat) (e : Event) (o : Outcome)
    (h : ∀ m, sinkError env n e = some m → o = Outcome.err m) : FailStops env n [e] o := by
  intro pre e1 post m heq hs
  cases pre with
  | nil =>
    simp only [List.nil_append, List.cons.injEq] at heq
    obtain ⟨h1, h2⟩ := heq
    subst h1
    exact ⟨h2.symm, h m (by simpa using hs)⟩
  | cons c cs =>
    simp at heq

theorem noFail_of_nil {env : Env} {n : Nat} {evs : List Event}
    (h : FailStops env n evs Outcome.nil) : NoFail env n evs := by
  intro pre e post m heq hs
  have := (h pre e post m heq hs).2
  cases this

theorem noFail_of_quiet {env : Env} {n : Nat} {evs : List Event}
    (h : ∀ e ∈ evs, ∀ t, sinkError env t e = none) : NoFail env n evs := by
  intro pre e post m heq hs
  rw [h e (by rw [heq]; simp)] at hs
  cases hs

theorem failStops_append {env : Env} {n : Nat} {a b : List Event} {o : Outcome}
    (ha : NoFail env n a) (hb : FailStops env (n + a.length) b o) :
    FailStops env n (a ++ b) o := by
  intro pre e post m heq hs
  rcases List.append_eq_append_iff.mp heq with ⟨a1, h1, h2⟩ | ⟨c1, h1, h2⟩
  · refine hb a1 e post m h2 ?_
    rw [h1, List.length_append, ← Nat.add_assoc] at hs
    exact hs
  · cases c1 with
    | nil =>
      simp only [List.append_nil] at h1
      simp only [List.nil_append] at h2
      refine hb [] e post m h2.symm ?_
      rw [h1]
      simpa using hs
    | cons c cs =>
      simp only [List.cons_append, List.cons.injEq] at h2
      obtain ⟨hc, _⟩ := h2
      subst hc
      exact absurd hs (ha pre e cs m h1)

theorem failStops_of_quiet {env : Env} {n : Nat} {evs : List Event} {o : Outcome}
    (h : ∀ e ∈ evs, ∀ t, sinkError env t e = none) : FailStops env n evs o := by
  intro pre e post m heq hs
  rw [h e (by rw [heq]; simp)] at hs
  cases hs

theorem length_of_log {w w1 : World} {evs : List Event} (h : w1.log = w.log ++ evs) :
    w1.log.length = w.log.length + evs.length := by
  rw [h, List.length_append]

theorem pushCmd_sendBlock_stops (env : Env) (p : pushCmd) (w : World) (i : Item) :
    FailStops env w.log.length (w.since (pushCmd.sendBlock env p w i).1)
      (pushCmd.sendBlock env p w i).2 := by
  unfold pushCmd.sendBlock
  split
  · split
    · rename_i e heq
      rw [since_of_log (World.emit_log w _)]
      exact failStops_single env _ _ _ (by
        intro m hm
        simp only [sinkError, heq, Option.some.injEq] at hm
        rw [hm])
    · rename_i heq
      rw [since_of_log (World.emit_log w _)]
      exact failStops_single env _ _ _ (by
        intro m hm
        simp [sinkError, heq] at hm)
  · rw [since_self]; exact failStops_nil env _ _

theorem sendCmd_pushoverBlock_stops (env : Env) (p : sendCmd) (w : World) (i : Item)
    (text : String) :
    FailStops env w.log.length (w.since (sendCmd.pushoverBlock env p w i text).1)
      (sendCmd.pushoverBlock env p w i text).2 := by
  unfold sendCmd.pushoverBlock
  split
  · split
    · rename_i e heq
      rw [since_of_log (World.emit_log w _)]
      exact failStops_single env _ _ _ (by
        intro m hm
        simp only [sinkError, heq, Option.some.injEq] at hm
        rw [hm])
    · rename_i heq
      rw [since_of_log (World.emit_log w _)]
      exact failStops_single env _ _ _ (by
        intro m hm
        simp [sinkError, heq] at hm)
  · rw [since_self]; exact failStops_nil env _ _

theorem sendCmd_sendyBlock_stops (env : Env) (p : sendCmd) (w : World) (i : Item)
    (content text : String) :
    FailStops env w.log.length (w.since (sendCmd.sendyBlock env p w i content text).1)
      (sendCmd.sendyBlock env p w i content text).2 := by
  obtain ⟨tevs, hl, _, _, ht, _, _⟩ := sendCmd_templateBlock_spec env p w i content
    (fun e => ∀ t, sinkError env t e = none) (fun _ _ => rfl)
  unfold sendCmd.sendyBlock
  split
  · split
    · rename_i w1 o heq
      rw [heq] at hl
      rw [since_of_log hl]
      exact failStops_of_quiet ht
    · rename_i w1 c1 heq
      rw [heq] at hl
      simp only at hl
      have hlen := length_of_log hl
      split
      · rw [since_of_log hl]
        exact failStops_of_quiet ht
      · rename_i urlStr hreq
        split
        · split
          · rename_i e hdo
            have hlog : (w1.emit (Event.campaignPost i urlStr (sendCmd.campaignForm p i c1 text))).log =
                w.log ++ (tevs ++ [Event.campaignPost i urlStr (sendCmd.campaignForm p i c1 text)]) := by
              rw [World.emit_log, hl, List.append_assoc]
            rw [since_of_log hlog]
            refine failStops_append (noFail_of_quiet ht) (failStops_single env _ _ _ ?_)
            intro m hm
            rw [← hlen] at hm
            simp only [sinkError, hdo, Option.some.injEq] at hm
            rw [hm]
          · rename_i code status hdo
            split
            · rename_i hcode
              have hlog : (w1.emit (Event.campaignPost i urlStr
                  (sendCmd.campaignForm p i c1 text))).log =
                  w.log ++ (tevs ++ [Event.campaignPost i urlStr
                    (sendCmd.campaignForm p i c1 text)]) := by
                rw [World.emit_log, hl, List.append_assoc]
              rw [since_of_log hlog]
              refine failStops_append (noFail_of_quiet ht) (failStops_single env _ _ _ ?_)
              intro m hm
              rw [← hlen] at hm
              simp only [sinkError, hdo, hcode, ne_eq, not_false_eq_true, if_true,
                Option.some.injEq] at hm
              rw [hm]
            · rename_i hcode
              have hlog : (w1.emit (Event.campaignPost i urlStr
                  (sendCmd.campaignForm p i c1 text))).log =
                  w.log ++ (tevs ++ [Event.campaignPost i urlStr
                    (sendCmd.campaignForm p i c1 text)]) := by
                rw [World.emit_log, hl, List.append_assoc]
              rw [since_of_log hlog]
              refine failStops_append (noFail_of_quiet ht) (failStops_single env _ _ _ ?_)
              intro m hm
              rw [← hlen] at hm
              simp [sinkError, hdo, hcode] at hm
        · rw [since_of_log hl]
          exact failStops_of_quiet ht
  · rw [since_self]; exact failStops_nil env _ _

theorem sendCmd_sendBlock_stops (env : Env) (p : sendCmd) (w : World) (i : Item) :
    FailStops env w.log.length (w.since (sendCmd.sendBlock env p w i).1)
      (sendCmd.sendBlock env p w i).2 := by
  unfold sendCmd.sendBlock
  split
  · split
    · rw [since_self]; exact failStops_nil env _ _
    · rename_i text htext
      obtain ⟨pevs, hl, _⟩ := sendCmd_pushoverBlock_spec env p w i text (fun _ => True)
        (fun _ => trivial)
      have hstop := sendCmd_pushoverBlock_stops env p w i text
      split
      · rename_i w1 heq
        rw [heq] at hl hstop
        simp only at hl hstop
        rw [since_of_log hl] at hstop
        obtain ⟨sevs, hl2, _⟩ := sendCmd_sendyBlock_spec env p w1 i (selectContent i) text
          (fun _ => True) (fun _ _ => trivial) (fun _ _ _ => trivial)
        have hstop2 := sendCmd_sendyBlock_stops env p w1 i (selectContent i) text
        rw [since_of_log hl2, length_of_log hl] at hstop2
        have hall : (sendCmd.sendyBlock env p w1 i (selectContent i) text).1.log =
            w.log ++ (pevs ++ sevs) := by
          rw [hl2, hl, List.append_assoc]
        rw [since_of_log hall]
        exact failStops_append (noFail_of_nil hstop) hstop2
      · rename_i w1 o _ heq
        rw [heq] at hstop
        exact hstop
  · rw [since_self]; exact failStops_nil env _ _

theorem pushCmd_sinkContract (env : Env) (p : pushCmd) :
    SinkContract env (pushCmd.entryBody env p) where
  stops := by
    intro w i
    cases hseen : HasSeen w i with
    | true =>
      rw [(pushCmd_entryContract env p).skip w i hseen, since_self]
      exact failStops_nil env _ _
    | false =>
      obtain ⟨evs, hl, _⟩ := pushCmd_entryBody_fresh env p w i hseen (fun _ => True)
        (fun _ => trivial)
      have hstop := pushCmd_sendBlock_stops env p
        (RecordSeen env ((w.printfIf p.verbose ("New item: " ++ i.GUID ++ "\n")).printfIf
          p.verbose ("\tTitle: " ++ i.Title ++ "\n")) i) i
      have hbody : pushCmd.entryBody env p w i = pushCmd.sendBlock env p
          (RecordSeen env ((w.printfIf p.verbose ("New item: " ++ i.GUID ++ "\n")).printfIf
            p.verbose ("\tTitle: " ++ i.Title ++ "\n")) i) i := by
        simp [pushCmd.entryBody, hseen]
      rw [← hbody] at hstop
      have hrec : (RecordSeen env ((w.printfIf p.verbose ("New item: " ++ i.GUID ++ "\n")).printfIf
          p.verbose ("\tTitle: " ++ i.Title ++ "\n")) i).log =
          w.log ++ [Event.recordSeen i (storeAccepts env w i)] := by simp
      have hl2 : (pushCmd.entryBody env p w i).1.log =
          (RecordSeen env ((w.printfIf p.verbose ("New item: " ++ i.GUID ++ "\n")).printfIf
            p.verbose ("\tTitle: " ++ i.Title ++ "\n")) i).log ++ evs := by
        rw [hl, hrec]; simp
      rw [since_of_log hl2, length_of_log hrec] at hstop
      rw [since_of_log hl]
      exact failStops_append (a := [Event.recordSeen i (storeAccepts env w i)])
        (noFail_of_quiet (by intro e he t; simp at he; subst he; rfl)) hstop

theorem sendCmd_sinkContract (env : Env) (p : sendCmd) :
    SinkContract env (sendCmd.entryBody env p) where
  stops := by
    intro w i
    cases hseen : HasSeen w i with
    | true =>
      rw [(sendCmd_entryContract env p).skip w i hseen, since_self]
      exact failStops_nil env _ _
    | false =>
      obtain ⟨evs, hl, _⟩ := sendCmd_entryBody_fresh env p w i hseen (fun _ => True)
        (fun _ _ _ _ => trivial) (fun _ _ _ => trivial) (fun _ _ _ _ _ _ => trivial)
      have hstop := sendCmd_sendBlock_stops env p
        (RecordSeen env ((w.printfIf p.verbose ("New item: " ++ i.GUID ++ "\n")).printfIf
          p.verbose ("\tTitle: " ++ i.Title ++ "\n")) i) i
      have hbody : sendCmd.entryBody env p w i = sendCmd.sendBlock env p
          (RecordSeen env ((w.printfIf p.verbose ("New item: " ++ i.GUID ++ "\n")).printfIf
            p.verbose ("\tTitle: " ++ i.Title ++ "\n")) i) i := by
        simp [sendCmd.entryBody, hseen]
      rw [← hbody] at hstop
      have hrec : (RecordSeen env ((w.printfIf p.verbose ("New item: " ++ i.GUID ++ "\n")).printfIf
          p.verbose ("\tTitle: " ++ i.Title ++ "\n")) i).log =
          w.log ++ [Event.recordSeen i (storeAccepts env w i)] := by simp
      have hl2 : (sendCmd.entryBody env p w i).1.log =
          (RecordSeen env ((w.printfIf p.verbose ("New item: " ++ i.GUID ++ "\n")).printfIf
            p.verbose ("\tTitle: " ++ i.Title ++ "\n")) i).log ++ evs := by
        rw [hl, hrec]; simp
      rw [since_of_log hl2, length_of_log hrec] at hstop
      rw [since_of_log hl]
      exact failStops_append (a := [Event.recordSeen i (storeAccepts env w i)])
        (noFail_of_quiet (by intro e he t; simp at he; subst he; rfl)) hstop

/-- A failed sink call ends the loop over the entries. -/
theorem forItems_failStops {env : Env} {body : World → Item → World × Outcome}
    (hb : EntryContract body) (hs : SinkContract env body) (items : List Item) :
    ∀ w : World, FailStops env w.log.length (w.since (forItems body w items).1)
      (forItems body w items).2 := by
  induction items with
  | nil =>
    intro w
    simp only [forItems, since_self]
    exact failStops_nil env _ _
  | cons i rest ih =>
    intro w
    have hlog : ∃ evs, (body w i).1.log = w.log ++ evs := by
      cases hseen : HasSeen w i with
      | true => exact ⟨[], by rw [hb.skip w i hseen]; simp⟩
      | false =>
        obtain ⟨ok, evs, hl, _⟩ := hb.fresh w i hseen
        exact ⟨_, hl⟩
    obtain ⟨evs1, hl1⟩ := hlog
    have h1 := hs.stops w i
    rw [since_of_log hl1] at h1
    cases hbody : body w i with
    | mk w1 o =>
      rw [hbody] at hl1 h1
      simp only at hl1 h1
      cases o with
      | nil =>
        simp only [forItems, hbody]
        obtain ⟨evs2, hl2, _⟩ := forItems_orderly hb rest w1
        have h2 := ih w1
        rw [since_of_log hl2, length_of_log hl1] at h2
        have hall : (forItems body w1 rest).1.log = w.log ++ (evs1 ++ evs2) := by
          rw [hl2, hl1, List.append_assoc]
        rw [since_of_log hall]
        exact failStops_append (noFail_of_nil h1) h2
      | err m =>
        simp only [forItems, hbody]
        rw [since_of_log hl1]
        exact h1
      | panic m =>
        simp only [forItems, hbody]
        rw [since_of_log hl1]
        exact h1

/-- A failed sink call is the last event of a `ProcessURL` call, and its error is
what the call returns. -/
theorem runFeed_failStops (env : Env) (verbose : Bool)
    {body : World → Item → World × Outcome}
    (hb : EntryContract body) (hs : SinkContract env body) (w : World) (input : String) :
    FailStops env w.log.length (w.since (runFeed env verbose body w input).1)
      (runFeed env verbose body w input).2 := by
  cases hc : feedContent env w input with
  | none =>
    obtain ⟨m, hm⟩ := runFeed_of_no_content env verbose body w input hc
    rw [hm]
    have hl : ((w.printfIf verbose ("Fetching " ++ input ++ "\n")).emit (Event.fetch input)).log =
        w.log ++ [Event.fetch input] := by simp
    rw [since_of_log hl]
    exact failStops_of_quiet (by intro e he t; simp at he; subst he; rfl)
  | some items =>
    rw [runFeed_of_content env verbose body w input items hc]
    obtain ⟨evs, hl, _⟩ := forItems_orderly hb items (loopStart verbose w input items.length)
    have h := forItems_failStops hb hs items (loopStart verbose w input items.length)
    have hstart : (loopStart verbose w input items.length).log = w.log ++ [Event.fetch input] :=
      loopStart_log verbose w input items.length
    rw [since_of_log hl, length_of_log hstart] at h
    have hall : (forItems body (loopStart verbose w input items.length) items).1.log =
        w.log ++ ([Event.fetch input] ++ evs) := by
      rw [hl]; simp
    rw [since_of_log hall]
    exact failStops_append (noFail_of_quiet (by intro e he t; simp at he; subst he; rfl)) h

/-! ## Feeds without new entries -/

/-- When every feed can be fetched and parsed and holds seen entries only, the loop
over the feeds collects no error and leaves the store as it is. -/
theorem forFeeds_all_seen (env : Env) (verbose : Bool)
    {body : World → Item → World × Outcome} (hb : EntryContract body)
    (seen0 : List String) (uris : List String)
    (h : ∀ u ∈ uris, ∀ t, ∃ txt items, env.httpGet t u = Except.ok txt ∧
      env.parseString txt = Except.ok items ∧ ∀ i ∈ items, seenIn seen0 i = true) :
    ∀ (w : World) (errors : List String), w.seen = seen0 →
      (forFeeds (runFeed env verbose body) w errors uris).2 = Except.ok errors := by
  induction uris with
  | nil => intro w errors _; rfl
  | cons u rest ih =>
    intro w errors hw
    obtain ⟨txt, items, h1, h2, h3⟩ := h u (by simp) w.log.length
    have hc : feedContent env w u = some items := by
      unfold feedContent
      rw [h1]
      simp only [h2]
    have hseen : ∀ i ∈ items, HasSeen w i = true := by
      intro i hi
      unfold HasSeen
      rw [hw]
      exact h3 i hi
    obtain ⟨r1, r2, _⟩ := runFeed_all_seen env verbose hb w u items hc hseen
    cases hrun : runFeed env verbose body w u with
    | mk w1 o =>
      rw [hrun] at r1 r2
      simp only at r1 r2
      subst r1
      simp only [forFeeds, hrun]
      exact ih (fun v hv => h v (List.mem_cons_of_mem _ hv)) w1 errors (r2.trans hw)

/-! ## The whole run -/

/-- With both keys given, `pushCmd.Execute` calls `ProcessURL` once for every URI,
in order, and writes one line to standard error for each call that returned an
error. -/
theorem pushCmd_Execute_trace (env : Env) (w : World) (p : pushCmd)
    (hv : pushCmd.configValid p) :
    (invocations (pushCmd.ProcessURL env p) w env.feedEntries).map Prod.fst =
      env.feedEntries ∧
    fetchedURLs (w.since (pushCmd.Execute env p w).1) = env.feedEntries ∧
    (pushCmd.Execute env p w).1.stderr =
      w.stderr ++ (invocations (pushCmd.ProcessURL env p) w env.feedEntries).filterMap
        errorLine := by
  have hnp := pushCmd_invocations_no_panic env p env.feedEntries w
  have hall := invocations_all _ env.feedEntries w hnp
  obtain ⟨evs, hl, hf, he⟩ := forFeeds_trace (pushCmd_feedContract env p) env.feedEntries w []
  have hok := (forFeeds_ok_iff (pushCmd.ProcessURL env p) env.feedEntries w [] _).mpr
    ⟨hnp, rfl⟩
  rw [pushCmd_Execute_valid env p w hv]
  cases hrun : forFeeds (pushCmd.ProcessURL env p) w [] env.feedEntries with
  | mk w1 r =>
    rw [hrun] at hl he hok
    simp only at hl he hok
    subst hok
    simp only
    obtain ⟨_, f2, _, f4⟩ := finish_result w1
      ([] ++ (invocations (pushCmd.ProcessURL env p) w env.feedEntries).filterMap errorLine)
    refine ⟨hall, ?_, ?_⟩
    · rw [since_of_log (f2.trans hl), hf, hall]
    · rw [f4, he]; simp

/-- With a valid configuration and no call that panics, `sendCmd.Execute` calls
`ProcessURL` once for every URI, in order, and writes one line to standard error
for each call that returned an error. -/
theorem sendCmd_Execute_trace (env : Env) (w : World) (p : sendCmd)
    (hv : sendCmd.configValid env p w)
    (hnp : ∀ x ∈ invocations (sendCmd.ProcessURL env p) (sendCmd.feedsStart p w)
      env.feedEntries, x.2.isPanic = false) :
    (invocations (sendCmd.ProcessURL env p) (sendCmd.feedsStart p w) env.feedEntries).map
      Prod.fst = env.feedEntries ∧
    fetchedURLs (w.since (sendCmd.Execute env p w).1) = env.feedEntries ∧
    (sendCmd.Execute env p w).1.stderr =
      w.stderr ++ (invocations (sendCmd.ProcessURL env p) (sendCmd.feedsStart p w)
        env.feedEntries).filterMap errorLine := by
  have hall := invocations_all _ env.feedEntries (sendCmd.feedsStart p w) hnp
  obtain ⟨evs, hl, hf, he⟩ := forFeeds_trace (sendCmd_feedContract env p) env.feedEntries
    (sendCmd.feedsStart p w) []
  have hok := (forFeeds_ok_iff (sendCmd.ProcessURL env p) env.feedEntries
    (sendCmd.feedsStart p w) [] _).mpr ⟨hnp, rfl⟩
  have hstart : ∃ pre, (sendCmd.feedsStart p w).log = w.log ++ pre ∧ fetchedURLs pre = [] ∧
      (sendCmd.feedsStart p w).stderr = w.stderr := by
    unfold sendCmd.feedsStart
    split
    · exact ⟨[_], rfl, rfl, rfl⟩
    · exact ⟨[], by simp, rfl, rfl⟩
  obtain ⟨pre, hs1, hs2, hs3⟩ := hstart
  rw [sendCmd_Execute_valid env p w hv]
  cases hrun : forFeeds (sendCmd.ProcessURL env p) (sendCmd.feedsStart p w) []
      env.feedEntries with
  | mk w1 r =>
    rw [hrun] at hl he hok
    simp only at hl he hok
    subst hok
    simp only
    obtain ⟨_, f2, _, f4⟩ := finish_result w1
      ([] ++ (invocations (sendCmd.ProcessURL env p) (sendCmd.feedsStart p w)
        env.feedEntries).filterMap errorLine)
    refine ⟨hall, ?_, ?_⟩
    · have hlog : (finish w1 ([] ++ (invocations (sendCmd.ProcessURL env p)
          (sendCmd.feedsStart p w) env.feedEntries).filterMap errorLine)).1.log =
          w.log ++ (pre ++ evs) := by
        rw [f2, hl, hs1, List.append_assoc]
      rw [since_of_log hlog]
      unfold fetchedURLs at hs2 hf ⊢
      rw [List.filterMap_append, hs2, hf, hall]; rfl
    · rw [f4, he, hs3]; simp

/-- In a loop that reaches its end, `RecordSeen` is called for the identifier of
every entry that was unseen when the loop started. -/
theorem forItems_recorded {body : World → Item → World × Outcome} (hb : EntryContract body)
    (items : List Item) : ∀ w : World, (forItems body w items).2 = Outcome.nil →
    ∀ i ∈ items, HasSeen w i = false →
      ∃ j ok, identifier j = identifier i ∧
        Event.recordSeen j ok ∈ w.since (forItems body w items).1 := by
  induction items with
  | nil => intro w _ i hi; simp at hi
  | cons h rest ih =>
    intro w hnil i hi hnew
    cases hseen : HasSeen w h with
    | true =>
      have hskip := hb.skip w h hseen
      simp only [forItems, hskip] at hnil ⊢
      rcases List.mem_cons.mp hi with hi | hi
      · subst hi; rw [hseen] at hnew; cases hnew
      · exact ih w hnil i hi hnew
    | false =>
      obtain ⟨ok, evs, hl, hs, hok, _, _⟩ := hb.fresh w h hseen
      cases hbody : body w h with
      | mk w1 o =>
        rw [hbody] at hl hs
        simp only at hl hs
        cases o with
        | nil =>
          simp only [forItems, hbody] at hnil ⊢
          obtain ⟨evs2, hl2, _, _, _⟩ := forItems_orderly hb rest w1
          have hall : (forItems body w1 rest).1.log =
              w.log ++ ((Event.recordSeen h ok :: evs) ++ evs2) := by
            rw [hl2, hl, List.append_assoc]
          rw [since_of_log hall]
          rcases List.mem_cons.mp hi with hi | hi
          · subst hi
            exact ⟨i, ok, rfl, by simp⟩
          · cases hnew1 : HasSeen w1 i with
            | false =>
              obtain ⟨j, ok2, hj, hmem⟩ := ih w1 hnil i hi hnew1
              rw [since_of_log hl2] at hmem
              exact ⟨j, ok2, hj, List.mem_append_right _ hmem⟩
            | true =>
              have h1 := (HasSeen_iff w1 i).mp hnew1
              have h0 := (HasSeen_false_iff w i).mp hnew h1.1
              rw [hs] at h1
              cases ok with
              | false => exact absurd (by simpa using h1.2) h0
              | true =>
                have : identifier i = identifier h := by
                  have := h1.2
                  simp only [if_true, List.mem_append, List.mem_singleton] at this
                  rcases this with h2 | h2
                  · exact absurd h2 h0
                  · exact h2
                exact ⟨h, true, this.symm, by simp⟩
        | err m => simp [forItems, hbody] at hnil
        | panic m => simp [forItems, hbody] at hnil

/-- In a `ProcessURL` call that received `items` and returned `nil`, `RecordSeen` is
called for the identifier of every entry that was unseen when the call started. -/
theorem runFeed_recorded (env : Env) (verbose : Bool)
    {body : World → Item → World × Outcome} (hb : EntryContract body)
    (w : World) (input : String) (items : List Item)
    (hc : feedContent env w input = some items)
    (hnil : (runFeed env verbose body w input).2 = Outcome.nil) :
    ∀ i ∈ items, HasSeen w i = false →
      ∃ j ok, identifier j = identifier i ∧
        Event.recordSeen j ok ∈ w.since (runFeed env verbose body w input).1 := by
  intro i hi hnew
  rw [runFeed_of_content env verbose body w input items hc] at hnil ⊢
  obtain ⟨evs, hl, _, _, _⟩ := forItems_orderly hb items (loopStart verbose w input items.length)
  have hall : (forItems body (loopStart verbose w input items.length) items).1.log =
      w.log ++ (Event.fetch input :: evs) := by
    rw [hl]; simp
  obtain ⟨j, ok, hj, hmem⟩ := forItems_recorded hb items _ hnil i hi
    (by rw [HasSeen_loopStart]; exact hnew)
  rw [since_of_log hl] at hmem
  rw [since_of_log hall]
  exact ⟨j, ok, hj, List.mem_cons_of_mem _ hmem⟩

/-! ## The claims -/

/-- C1, counterexample.  A feed with the unseen entry `itemA` is processed while the
pushover service rejects every message.  In both commands `RecordSeen` is called
before the message is sent, the dispatch fails, `ProcessURL` returns that error, and
the identifier `"a"` is in the seen store all the same. -/
theorem C1_seen_although_dispatch_failed :
    (pushCmd.ProcessURL pushDownEnv pushSample emptyWorld "f1").2 =
      Outcome.err "pushover: 500" ∧
    (pushCmd.ProcessURL pushDownEnv pushSample emptyWorld "f1").1.log =
      [Event.fetch "f1", Event.recordSeen itemA true,
        Event.sendMessage itemA "app-key" "user-key" "text:<p>alpha</p>" ""] ∧
    identifier itemA ∈ (pushCmd.ProcessURL pushDownEnv pushSample emptyWorld "f1").1.seen ∧
    (sendCmd.ProcessURL pushDownEnv sendSample emptyWorld "f1").2 =
      Outcome.err "pushover: 500" ∧
    (sendCmd.ProcessURL pushDownEnv sendSample emptyWorld "f1").1.log =
      [Event.fetch "f1", Event.recordSeen itemA true,
        Event.sendMessage itemA "app-key" "user-key" "text:<p>alpha</p>" "Title A"] ∧
    identifier itemA ∈ (sendCmd.ProcessURL pushDownEnv sendSample emptyWorld "f1").1.seen := by
  decide

/-- C1, as amended.  In `sendCmd.ProcessURL` and `pushCmd.ProcessURL`, whenever a
sink is called for an entry during a run, `RecordSeen` was called for that entry
earlier in the same run and the entry was unseen when the run started; if that
record was stored, the entry is seen when `ProcessURL` ends, whatever the dispatch
and the run come to; and no run calls a sink for an entry that is seen when the run
starts. -/
theorem C1_recorded_before_dispatch (env : Env) (w : World) (input : String)
    (pre post : List Event) (e : Event) (i : Item) (hd : e.dispatchEntry = some i) :
    (∀ p : sendCmd, w.since (sendCmd.ProcessURL env p w input).1 = pre ++ e :: post →
      (∃ ok, Event.recordSeen i ok ∈ pre) ∧ HasSeen w i = false ∧
      (Event.recordSeen i true ∈ pre →
        HasSeen (sendCmd.ProcessURL env p w input).1 i = true)) ∧
    (∀ p : pushCmd, w.since (pushCmd.ProcessURL env p w input).1 = pre ++ e :: post →
      (∃ ok, Event.recordSeen i ok ∈ pre) ∧ HasSeen w i = false ∧
      (Event.recordSeen i true ∈ pre →
        HasSeen (pushCmd.ProcessURL env p w input).1 i = true)) ∧
    (∀ p : sendCmd, HasSeen w i = true →
      e ∉ w.since (sendCmd.ProcessURL env p w input).1) ∧
    (∀ p : pushCmd, HasSeen w i = true →
      e ∉ w.since (pushCmd.ProcessURL env p w input).1) := by
  refine ⟨?_, ?_, ?_, ?_⟩
  · intro p h
    have ho := runFeed_orderly_since env p.verbose (sendCmd_entryContract env p) w input
    rw [← sendCmd_ProcessURL_eq] at ho
    have hmem : e ∈ w.since (sendCmd.ProcessURL env p w input).1 := by rw [h]; simp
    refine ⟨ho.2.1 pre e post i h hd, ho.2.2.1 e hmem i (Or.inl hd), ?_⟩
    intro hrec
    exact ho.2.2.2 i (by rw [h]; exact List.mem_append_left _ hrec)
  · intro p h
    have ho := runFeed_orderly_since env p.verbose (pushCmd_entryContract env p) w input
    rw [← pushCmd_ProcessURL_eq] at ho
    have hmem : e ∈ w.since (pushCmd.ProcessURL env p w input).1 := by rw [h]; simp
    refine ⟨ho.2.1 pre e post i h hd, ho.2.2.1 e hmem i (Or.inl hd), ?_⟩
    intro hrec
    exact ho.2.2.2 i (by rw [h]; exact List.mem_append_left _ hrec)
  · intro p hseen hmem
    have ho := runFeed_orderly_since env p.verbose (sendCmd_entryContract env p) w input
    rw [← sendCmd_ProcessURL_eq] at ho
    have := ho.2.2.1 e hmem i (Or.inl hd)
    rw [show seenIn w.seen i = HasSeen w i from rfl, hseen] at this
    cases this
  · intro p hseen hmem
    have ho := runFeed_orderly_since env p.verbose (pushCmd_entryContract env p) w input
    rw [← pushCmd_ProcessURL_eq] at ho
    have := ho.2.2.1 e hmem i (Or.inl hd)
    rw [show seenIn w.seen i = HasSeen w i from rfl, hseen] at this
    cases this

/-- C1, as amended, at the run whose push fails: the record of `itemA` precedes the
rejected message, and `itemA` is seen when `ProcessURL` returns the error. -/
theorem C1_recorded_before_dispatch_witness :
    (∃ ok, Event.recordSeen itemA ok ∈ [Event.fetch "f1", Event.recordSeen itemA true]) ∧
    HasSeen emptyWorld itemA = false ∧
    HasSeen (pushCmd.ProcessURL pushDownEnv pushSample emptyWorld "f1").1 itemA = true :=
  have h := (C1_recorded_before_dispatch pushDownEnv emptyWorld "f1"
    [Event.fetch "f1", Event.recordSeen itemA true] []
    (Event.sendMessage itemA "app-key" "user-key" "text:<p>alpha</p>" "") itemA rfl).2.1
    pushSample (by decide)
  ⟨h.1, h.2.1, h.2.2 (by decide)⟩

/-- C2, counterexample.  `send` is configured validly for three feeds, and the
markup conversion fails on the first entry of the first feed: `ProcessURL` panics,
the loop of `Execute` is left, and the second and third feed are never processed. -/
theorem C2_panic_skips_later_feeds :
    sendCmd.configValid badMarkupEnv sendSample emptyWorld ∧
    badMarkupEnv.feedEntries = ["f1", "f2", "f3"] ∧
    (invocations (sendCmd.ProcessURL badMarkupEnv sendSample) emptyWorld
      badMarkupEnv.feedEntries).map Prod.fst = ["f1"] ∧
    fetchedURLs (sendCmd.Execute badMarkupEnv sendSample emptyWorld).1.log = ["f1"] ∧
    (sendCmd.Execute badMarkupEnv sendSample emptyWorld).2 =
      ExecResult.panic "html2text: bad markup" := by
  decide

/-- C2, as amended.  With a valid configuration, `pushCmd.Execute` always, and
`sendCmd.Execute` whenever no call of `ProcessURL` panics, calls `ProcessURL` once
for each configured URI, in list order, whether or not earlier calls returned an
error; and the lines written to standard error are one per call that returned an
error, in list order, each made of the feed's URI and the error. -/
theorem C2_every_feed_processed (env : Env) (w : World) :
    (∀ p : pushCmd, pushCmd.configValid p →
      (invocations (pushCmd.ProcessURL env p) w env.feedEntries).map Prod.fst =
        env.feedEntries ∧
      fetchedURLs (w.since (pushCmd.Execute env p w).1) = env.feedEntries ∧
      (pushCmd.Execute env p w).1.stderr =
        w.stderr ++ (invocations (pushCmd.ProcessURL env p) w env.feedEntries).filterMap
          errorLine) ∧
    (∀ p : sendCmd, sendCmd.configValid env p w →
      (∀ x ∈ invocations (sendCmd.ProcessURL env p) (sendCmd.feedsStart p w) env.feedEntries,
        x.2.isPanic = false) →
      (invocations (sendCmd.ProcessURL env p) (sendCmd.feedsStart p w) env.feedEntries).map
        Prod.fst = env.feedEntries ∧
      fetchedURLs (w.since (sendCmd.Execute env p w).1) = env.feedEntries ∧
      (sendCmd.Execute env p w).1.stderr =
        w.stderr ++ (invocations (sendCmd.ProcessURL env p) (sendCmd.feedsStart p w)
          env.feedEntries).filterMap errorLine) :=
  ⟨fun p hv => pushCmd_Execute_trace env w p hv,
   fun p hv hnp => sendCmd_Execute_trace env w p hv hnp⟩

/-- C2, as amended, at three feeds of which the second cannot be fetched: `push` and
`send` fetch all three in order and report one error, that of the second feed. -/
theorem C2_every_feed_processed_witness :
    (fetchedURLs (emptyWorld.since (pushCmd.Execute secondFeedDownEnv pushSample emptyWorld).1) =
        ["f1", "f2", "f3"] ∧
      (pushCmd.Execute secondFeedDownEnv pushSample emptyWorld).1.stderr =
        ["error processing f2 - error processing f2 - connection refused\n"]) ∧
    (fetchedURLs (emptyWorld.since (sendCmd.Execute secondFeedDownEnv sendSample emptyWorld).1) =
        ["f1", "f2", "f3"] ∧
      (sendCmd.Execute secondFeedDownEnv sendSample emptyWorld).1.stderr =
        ["error processing f2 - error processing f2 - connection refused\n"]) :=
  ⟨⟨((C2_every_feed_processed secondFeedDownEnv emptyWorld).1 pushSample (by decide)).2.1,
    ((C2_every_feed_processed secondFeedDownEnv emptyWorld).1 pushSample (by decide)).2.2⟩,
   ⟨((C2_every_feed_processed secondFeedDownEnv emptyWorld).2 sendSample (by decide)
      (by decide)).2.1,
    ((C2_every_feed_processed secondFeedDownEnv emptyWorld).2 sendSample (by decide)
      (by decide)).2.2⟩⟩

/-- C3, counterexample.  In `send` with a template that cannot be read at first, the
first run over `itemA`, `itemB` stops at the template after recording `itemA`: no
sink was called, so no dispatch failed; the second run over the same content
records `itemB` and creates a campaign for it.  In `push`, a feed whose entry has
neither GUID nor link is pushed in the first run, which returns `nil`, and pushed
and recorded again in the second run over the same content. -/
theorem C3_second_run_dispatches :
    feedContent lateTemplateEnv emptyWorld "f1" = some [itemA, itemB] ∧
    feedContent lateTemplateEnv
      (sendCmd.ProcessURL lateTemplateEnv campaignTemplated emptyWorld "f1").1 "f1" =
        some [itemA, itemB] ∧
    (sendCmd.ProcessURL lateTemplateEnv campaignTemplated emptyWorld "f1").1.log =
      [Event.fetch "f1", Event.recordSeen itemA true, Event.readFile "mail.tmpl"] ∧
    ((sendCmd.ProcessURL lateTemplateEnv campaignTemplated emptyWorld "f1").1.since
      (sendCmd.ProcessURL lateTemplateEnv campaignTemplated
        (sendCmd.ProcessURL lateTemplateEnv campaignTemplated emptyWorld "f1").1 "f1").1).filterMap
          Event.campaigned = [itemB] ∧
    ((sendCmd.ProcessURL lateTemplateEnv campaignTemplated emptyWorld "f1").1.since
      (sendCmd.ProcessURL lateTemplateEnv campaignTemplated
        (sendCmd.ProcessURL lateTemplateEnv campaignTemplated emptyWorld "f1").1 "f1").1).filterMap
          Event.recorded = [itemB] ∧
    (pushCmd.ProcessURL noIdEnv pushSample emptyWorld "f1").2 = Outcome.nil ∧
    (emptyWorld.since (pushCmd.ProcessURL noIdEnv pushSample emptyWorld "f1").1).filterMap
      Event.pushed = [itemNoId] ∧
    ((pushCmd.ProcessURL noIdEnv pushSample emptyWorld "f1").1.since
      (pushCmd.ProcessURL noIdEnv pushSample
        (pushCmd.ProcessURL noIdEnv pushSample emptyWorld "f1").1 "f1").1).filterMap
          Event.pushed = [itemNoId] ∧
    ((pushCmd.ProcessURL noIdEnv pushSample emptyWorld "f1").1.since
      (pushCmd.ProcessURL noIdEnv pushSample
        (pushCmd.ProcessURL noIdEnv pushSample emptyWorld "f1").1 "f1").1).filterMap
          Event.recorded = [itemNoId] := by
  decide

/-- C3, as amended.  With the seen store as the presence test and point insert of
`HasSeen` and `RecordSeen`: if a call of `ProcessURL` received `items`, returned
`nil` and had every record it made stored, a second call that receives the same
`items` returns `nil`, leaves the store as it is and adds one fetch and nothing
else to the trace; no run calls a sink for an entry that is seen when the run
starts; and for two entries identified `"a"` and `"b"` and an empty store, such a
first run records both and sends both to every enabled sink, and the store is
`["a", "b"]` after the first and after the second run. -/
theorem C3_second_run_silent (env : Env) (w : World) (input : String) (items : List Item)
    (hc : feedContent env w input = some items) :
    (∀ p : sendCmd, (sendCmd.ProcessURL env p w input).2 = Outcome.nil →
      (∀ e ∈ w.since (sendCmd.ProcessURL env p w input).1, e.unstored = false) →
      feedContent env (sendCmd.ProcessURL env p w input).1 input = some items →
      (sendCmd.ProcessURL env p (sendCmd.ProcessURL env p w input).1 input).2 = Outcome.nil ∧
      (sendCmd.ProcessURL env p (sendCmd.ProcessURL env p w input).1 input).1.seen =
        (sendCmd.ProcessURL env p w input).1.seen ∧
      (sendCmd.ProcessURL env p w input).1.since
        (sendCmd.ProcessURL env p (sendCmd.ProcessURL env p w input).1 input).1 =
          [Event.fetch input]) ∧
    (∀ p : pushCmd, (pushCmd.ProcessURL env p w input).2 = Outcome.nil →
      (∀ e ∈ w.since (pushCmd.ProcessURL env p w input).1, e.unstored = false) →
      feedContent env (pushCmd.ProcessURL env p w input).1 input = some items →
      (pushCmd.ProcessURL env p (pushCmd.ProcessURL env p w input).1 input).2 = Outcome.nil ∧
      (pushCmd.ProcessURL env p (pushCmd.ProcessURL env p w input).1 input).1.seen =
        (pushCmd.ProcessURL env p w input).1.seen ∧
      (pushCmd.ProcessURL env p w input).1.since
        (pushCmd.ProcessURL env p (pushCmd.ProcessURL env p w input).1 input).1 =
          [Event.fetch input]) ∧
    (∀ (p : sendCmd) (e : Event) (i : Item),
      e ∈ w.since (sendCmd.ProcessURL env p w input).1 → e.dispatchEntry = some i →
      HasSeen w i = false) ∧
    (∀ (p : pushCmd) (e : Event) (i : Item),
      e ∈ w.since (pushCmd.ProcessURL env p w input).1 → e.dispatchEntry = some i →
      HasSeen w i = false) ∧
    (∀ ia ib : Item, identifier ia = "a" → identifier ib = "b" → items = [ia, ib] →
      w.seen = [] →
      (∀ p : sendCmd, p.send = true → (sendCmd.ProcessURL env p w input).2 = Outcome.nil →
        (∀ e ∈ w.since (sendCmd.ProcessURL env p w input).1, e.unstored = false) →
        feedContent env (sendCmd.ProcessURL env p w input).1 input = some items →
        (w.since (sendCmd.ProcessURL env p w input).1).filterMap Event.recorded = [ia, ib] ∧
        (w.since (sendCmd.ProcessURL env p w input).1).filterMap Event.pushed =
          (if p.usePushover then [ia, ib] else []) ∧
        (w.since (sendCmd.ProcessURL env p w input).1).filterMap Event.campaigned =
          (if p.useSendy then [ia, ib] else []) ∧
        (sendCmd.ProcessURL env p w input).1.seen = ["a", "b"] ∧
        (sendCmd.ProcessURL env p (sendCmd.ProcessURL env p w input).1 input).1.seen =
          ["a", "b"]) ∧
      (∀ p : pushCmd, p.send = true → (pushCmd.ProcessURL env p w input).2 = Outcome.nil →
        (∀ e ∈ w.since (pushCmd.ProcessURL env p w input).1, e.unstored = false) →
        feedContent env (pushCmd.ProcessURL env p w input).1 input = some items →
        (w.since (pushCmd.ProcessURL env p w input).1).filterMap Event.recorded = [ia, ib] ∧
        (w.since (pushCmd.ProcessURL env p w input).1).filterMap Event.pushed = [ia, ib] ∧
        (pushCmd.ProcessURL env p w input).1.seen = ["a", "b"] ∧
        (pushCmd.ProcessURL env p (pushCmd.ProcessURL env p w input).1 input).1.seen =
          ["a", "b"])) := by
  have hsend : ∀ p : sendCmd, (sendCmd.ProcessURL env p w input).2 = Outcome.nil →
      (∀ e ∈ w.since (sendCmd.ProcessURL env p w input).1, e.unstored = false) →
      feedContent env (sendCmd.ProcessURL env p w input).1 input = some items →
      (sendCmd.ProcessURL env p (sendCmd.ProcessURL env p w input).1 input).2 = Outcome.nil ∧
      (sendCmd.ProcessURL env p (sendCmd.ProcessURL env p w input).1 input).1.seen =
        (sendCmd.ProcessURL env p w input).1.seen ∧
      (sendCmd.ProcessURL env p w input).1.since
        (sendCmd.ProcessURL env p (sendCmd.ProcessURL env p w input).1 input).1 =
          [Event.fetch input] := by
    intro p hnil hst hc2
    have hb := sendCmd_entryContract env p
    rw [sendCmd_ProcessURL_eq] at hnil hst hc2 ⊢
    have hall := runFeed_nil_seen env p.verbose hb w input items hc hnil hst
    obtain ⟨h1, h2, h3⟩ := runFeed_all_seen env p.verbose hb _ input items hc2 hall
    exact ⟨h1, h2, since_of_log h3⟩
  have hpush : ∀ p : pushCmd, (pushCmd.ProcessURL env p w input).2 = Outcome.nil →
      (∀ e ∈ w.since (pushCmd.ProcessURL env p w input).1, e.unstored = false) →
      feedContent env (pushCmd.ProcessURL env p w input).1 input = some items →
      (pushCmd.ProcessURL env p (pushCmd.ProcessURL env p w input).1 input).2 = Outcome.nil ∧
      (pushCmd.ProcessURL env p (pushCmd.ProcessURL env p w input).1 input).1.seen =
        (pushCmd.ProcessURL env p w input).1.seen ∧
      (pushCmd.ProcessURL env p w input).1.since
        (pushCmd.ProcessURL env p (pushCmd.ProcessURL env p w input).1 input).1 =
          [Event.fetch input] := by
    intro p hnil hst hc2
    have hb := pushCmd_entryContract env p
    rw [pushCmd_ProcessURL_eq] at hnil hst hc2 ⊢
    have hall := runFeed_nil_seen env p.verbose hb w input items hc hnil hst
    obtain ⟨h1, h2, h3⟩ := runFeed_all_seen env p.verbose hb _ input items hc2 hall
    exact ⟨h1, h2, since_of_log h3⟩
  refine ⟨hsend, hpush, ?_, ?_, ?_⟩
  · intro p e i he hd
    have ho := runFeed_orderly_since env p.verbose (sendCmd_entryContract env p) w input
    rw [← sendCmd_ProcessURL_eq] at ho
    exact ho.2.2.1 e he i (Or.inl hd)
  · intro p e i he hd
    have ho := runFeed_orderly_since env p.verbose (pushCmd_entryContract env p) w input
    rw [← pushCmd_ProcessURL_eq] at ho
    exact ho.2.2.1 e he i (Or.inl hd)
  · intro ia ib ha hb hitems hw
    have hfresh : freshEntries w.seen items = [ia, ib] := by
      rw [hitems, hw]
      simp [freshEntries, seenIn, ha, hb]
    constructor
    · intro p hs hnil hst hc2
      obtain ⟨h1, h2, h3, h4⟩ := sendCmd_ProcessURL_nil_trace env p w input items hc hnil hst
      rw [hfresh] at h1 h2 h3 h4
      have h5 : (sendCmd.ProcessURL env p w input).1.seen = ["a", "b"] := by
        rw [h4, hw]; simp [ha, hb]
      refine ⟨h1, ?_, ?_, h5, ?_⟩
      · rw [h2]; simp [hs]
      · rw [h3]; simp [hs]
      · rw [(hsend p hnil hst hc2).2.1, h5]
    · intro p hs hnil hst hc2
      obtain ⟨h1, h2, h4⟩ := pushCmd_ProcessURL_nil_trace env p w input items hc hnil hst
      rw [hfresh] at h1 h2 h4
      have h5 : (pushCmd.ProcessURL env p w input).1.seen = ["a", "b"] := by
        rw [h4, hw]; simp [ha, hb]
      refine ⟨h1, ?_, h5, ?_⟩
      · rw [h2]; simp [hs]
      · rw [(hpush p hnil hst hc2).2.1, h5]

/-- C3, as amended, at the two entries `itemA` and `itemB` and an empty store: in
`push` and in `send` the first run records both and sends both to every enabled
sink, and the store is `["a", "b"]` after either run. -/
theorem C3_second_run_silent_witness :
    ((emptyWorld.since (pushCmd.ProcessURL calmEnv pushSample emptyWorld "f1").1).filterMap
        Event.recorded = [itemA, itemB] ∧
      (emptyWorld.since (pushCmd.ProcessURL calmEnv pushSample emptyWorld "f1").1).filterMap
        Event.pushed = [itemA, itemB] ∧
      (pushCmd.ProcessURL calmEnv pushSample emptyWorld "f1").1.seen = ["a", "b"] ∧
      (pushCmd.ProcessURL calmEnv pushSample
        (pushCmd.ProcessURL calmEnv pushSample emptyWorld "f1").1 "f1").1.seen = ["a", "b"]) ∧
    ((emptyWorld.since (sendCmd.ProcessURL calmEnv sendSample emptyWorld "f1").1).filterMap
        Event.recorded = [itemA, itemB] ∧
      (emptyWorld.since (sendCmd.ProcessURL calmEnv sendSample emptyWorld "f1").1).filterMap
        Event.campaigned = [itemA, itemB] ∧
      (sendCmd.ProcessURL calmEnv sendSample
        (sendCmd.ProcessURL calmEnv sendSample emptyWorld "f1").1 "f1").1.seen = ["a", "b"]) :=
  have h := (C3_second_run_silent calmEnv emptyWorld "f1" [itemA, itemB] rfl).2.2.2.2
    itemA itemB rfl rfl rfl rfl
  have hs := h.1 sendSample rfl (by decide) (by decide) (by decide)
  ⟨h.2 pushSample rfl (by decide) (by decide) (by decide), hs.1, hs.2.2.1, hs.2.2.2.2⟩

/-- C4, counterexample.  `send` is configured validly, and the markup conversion
fails on the first entry of the first feed.  No call of `ProcessURL` returned an
error, yet `Execute` does not return `ExitSuccess`: it does not return at all. -/
theorem C4_panic_is_no_exit_status :
    sendCmd.configValid badMarkupEnv sendSample emptyWorld ∧
    (∀ x ∈ invocations (sendCmd.ProcessURL badMarkupEnv sendSample)
      (sendCmd.feedsStart sendSample emptyWorld) badMarkupEnv.feedEntries, x.2.isErr = false) ∧
    (sendCmd.Execute badMarkupEnv sendSample emptyWorld).2 ≠
      ExecResult.exit ExitStatus.ExitSuccess ∧
    (sendCmd.Execute badMarkupEnv sendSample emptyWorld).2 ≠
      ExecResult.exit ExitStatus.ExitFailure := by
  decide

/-- C4, as amended.  `pushCmd.Execute` returns `ExitFailure` if and only if a key is
missing or some call of `ProcessURL` returned an error, and `ExitSuccess` in every
other case.  `sendCmd.Execute` returns `ExitFailure` when the configuration is
invalid; with a valid configuration it is left by a panic if and only if a call of
`ProcessURL` panics, and otherwise returns `ExitFailure` if and only if some call of
`ProcessURL` returned an error, and `ExitSuccess` if none did.  Both return
`ExitSuccess` for a valid configuration and an empty feed list, and for a valid
configuration and feeds that can be fetched and parsed and hold no new entry. -/
theorem C4_exit_status (env : Env) (w : World) :
    (∀ p : pushCmd,
      ((pushCmd.Execute env p w).2 = ExecResult.exit ExitStatus.ExitFailure ↔
        ¬ pushCmd.configValid p ∨
        ∃ x ∈ invocations (pushCmd.ProcessURL env p) w env.feedEntries, x.2.isErr = true) ∧
      ((pushCmd.Execute env p w).2 = ExecResult.exit ExitStatus.ExitSuccess ↔
        ¬ (¬ pushCmd.configValid p ∨
          ∃ x ∈ invocations (pushCmd.ProcessURL env p) w env.feedEntries, x.2.isErr = true)) ∧
      (pushCmd.configValid p → env.feedEntries = [] →
        (pushCmd.Execute env p w).2 = ExecResult.exit ExitStatus.ExitSuccess)) ∧
    (∀ p : sendCmd,
      (¬ sendCmd.configValid env p w →
        (sendCmd.Execute env p w).2 = ExecResult.exit ExitStatus.ExitFailure) ∧
      (sendCmd.configValid env p w → ∀ m,
        ((sendCmd.Execute env p w).2 = ExecResult.panic m ↔
          ∃ u, (u, Outcome.panic m) ∈ invocations (sendCmd.ProcessURL env p)
            (sendCmd.feedsStart p w) env.feedEntries)) ∧
      (sendCmd.configValid env p w →
        (∀ x ∈ invocations (sendCmd.ProcessURL env p) (sendCmd.feedsStart p w)
          env.feedEntries, x.2.isPanic = false) →
        ((sendCmd.Execute env p w).2 = ExecResult.exit ExitStatus.ExitFailure ↔
          ∃ x ∈ invocations (sendCmd.ProcessURL env p) (sendCmd.feedsStart p w)
            env.feedEntries, x.2.isErr = true) ∧
        ((sendCmd.Execute env p w).2 = ExecResult.exit ExitStatus.ExitSuccess ↔
          ¬ ∃ x ∈ invocations (sendCmd.ProcessURL env p) (sendCmd.feedsStart p w)
            env.feedEntries, x.2.isErr = true)) ∧
      (sendCmd.configValid env p w → env.feedEntries = [] →
        (sendCmd.Execute env p w).2 = ExecResult.exit ExitStatus.ExitSuccess)) ∧
    ((∀ u ∈ env.feedEntries, ∀ t, ∃ txt items, env.httpGet t u = Except.ok txt ∧
        env.parseString txt = Except.ok items ∧ ∀ i ∈ items, HasSeen w i = true) →
      (∀ p : pushCmd, pushCmd.configValid p →
        (pushCmd.Execute env p w).2 = ExecResult.exit ExitStatus.ExitSuccess) ∧
      (∀ p : sendCmd, sendCmd.configValid env p w →
        (sendCmd.Execute env p w).2 = ExecResult.exit ExitStatus.ExitSuccess)) := by
  have key : ∀ (process : World → String → World × Outcome) (w0 : World),
      (∀ x ∈ invocations process w0 env.feedEntries, x.2.isPanic = false) →
      ((match forFeeds process w0 [] env.feedEntries with
        | (w1, Except.error m) => (w1, ExecResult.panic m)
        | (w1, Except.ok errors) => finish w1 errors).2 =
          ExecResult.exit ExitStatus.ExitFailure ↔
        ∃ x ∈ invocations process w0 env.feedEntries, x.2.isErr = true) ∧
      ((match forFeeds process w0 [] env.feedEntries with
        | (w1, Except.error m) => (w1, ExecResult.panic m)
        | (w1, Except.ok errors) => finish w1 errors).2 =
          ExecResult.exit ExitStatus.ExitSuccess ↔
        ¬ ∃ x ∈ invocations process w0 env.feedEntries, x.2.isErr = true) := by
    intro process w0 hnp
    have hok := (forFeeds_ok_iff process env.feedEntries w0 [] _).mpr ⟨hnp, rfl⟩
    have hnil := errorLines_eq_nil_iff (invocations process w0 env.feedEntries)
    cases hrun : forFeeds process w0 [] env.feedEntries with
    | mk w1 r =>
      rw [hrun] at hok
      simp only at hok
      subst hok
      simp only [(finish_result w1 _).1, List.nil_append]
      by_cases hl : (invocations process w0 env.feedEntries).filterMap errorLine = []
      · have := hnil.mp hl
        simp only [hl, if_true]
        constructor
        · constructor
          · intro h; cases h
          · rintro ⟨x, hx, hx2⟩
            rw [this x hx] at hx2; cases hx2
        · constructor
          · rintro _ ⟨x, hx, hx2⟩
            rw [this x hx] at hx2; cases hx2
          · intro _; trivial
      · have hex : ∃ x ∈ invocations process w0 env.feedEntries, x.2.isErr = true := by
          by_contra hcon
          push_neg at hcon
          exact hl (hnil.mpr (fun x hx => by simpa using hcon x hx))
        simp only [hl, if_false]
        constructor
        · exact ⟨fun _ => hex, fun _ => trivial⟩
        · constructor
          · intro h; cases h
          · intro h; exact absurd hex h
  refine ⟨?_, ?_, ?_⟩
  · intro p
    by_cases hv : pushCmd.configValid p
    · have hnp := pushCmd_invocations_no_panic env p env.feedEntries w
      have hk := key (pushCmd.ProcessURL env p) w hnp
      rw [← pushCmd_Execute_valid env p w hv] at hk
      refine ⟨?_, ?_, ?_⟩
      · rw [hk.1]; simp [hv]
      · rw [hk.2]; simp [hv]
      · intro _ hempty
        rw [hk.2, hempty]
        simp [invocations]
    · have hi := (pushCmd_Execute_invalid env p w hv).1
      refine ⟨?_, ?_, ?_⟩
      · rw [hi]; simp [hv]
      · rw [hi]; simp [hv]
      · intro h; exact absurd h hv
  · intro p
    refine ⟨fun hv => (sendCmd_Execute_invalid env p w hv).1, ?_, ?_, ?_⟩
    · intro hv m
      rw [sendCmd_Execute_valid env p w hv,
        ← forFeeds_error_iff (sendCmd.ProcessURL env p) env.feedEntries
          (sendCmd.feedsStart p w) [] m]
      cases hrun : forFeeds (sendCmd.ProcessURL env p) (sendCmd.feedsStart p w) []
          env.feedEntries with
      | mk w1 r =>
        cases r with
        | error m1 => simp
        | ok errors =>
          simp only [(finish_result w1 errors).1]
          simp
    · intro hv hnp
      have hk := key (sendCmd.ProcessURL env p) (sendCmd.feedsStart p w) hnp
      rw [← sendCmd_Execute_valid env p w hv] at hk
      exact hk
    · intro hv hempty
      have hnp : ∀ x ∈ invocations (sendCmd.ProcessURL env p) (sendCmd.feedsStart p w)
          env.feedEntries, x.2.isPanic = false := by
        rw [hempty]; simp [invocations]
      have hk := key (sendCmd.ProcessURL env p) (sendCmd.feedsStart p w) hnp
      rw [← sendCmd_Execute_valid env p w hv] at hk
      rw [hk.2, hempty]
      simp [invocations]
  · intro hfeeds
    constructor
    · intro p hv
      have hrun := forFeeds_all_seen env p.verbose (pushCmd_entryContract env p) w.seen
        env.feedEntries hfeeds w [] rfl
      rw [← pushCmd_ProcessURL_eq] at hrun
      rw [pushCmd_Execute_valid env p w hv]
      cases hloop : forFeeds (pushCmd.ProcessURL env p) w [] env.feedEntries with
      | mk w1 r =>
        rw [hloop] at hrun
        simp only at hrun
        subst hrun
        exact (finish_result w1 []).1
    · intro p hv
      have hstart : (sendCmd.feedsStart p w).seen = w.seen := by
        unfold sendCmd.feedsStart
        split <;> rfl
      have hrun := forFeeds_all_seen env p.verbose (sendCmd_entryContract env p) w.seen
        env.feedEntries hfeeds (sendCmd.feedsStart p w) [] hstart
      rw [← sendCmd_ProcessURL_eq] at hrun
      rw [sendCmd_Execute_valid env p w hv]
      cases hloop : forFeeds (sendCmd.ProcessURL env p) (sendCmd.feedsStart p w) []
          env.feedEntries with
      | mk w1 r =>
        rw [hloop] at hrun
        simp only at hrun
        subst hrun
        exact (finish_result w1 []).1

/-- C4, as amended, at three feeds of which the second cannot be fetched: `send`
returns `ExitFailure`, because a call of `ProcessURL` returned an error; and at
three feeds whose entries are all seen: `push` returns `ExitSuccess`. -/
theorem C4_exit_status_witness :
    (sendCmd.Execute secondFeedDownEnv sendSample emptyWorld).2 =
      ExecResult.exit ExitStatus.ExitFailure ∧
    (pushCmd.Execute calmEnv pushSample { emptyWorld with seen := ["a", "b"] }).2 =
      ExecResult.exit ExitStatus.ExitSuccess :=
  ⟨(((C4_exit_status secondFeedDownEnv emptyWorld).2.1 sendSample).2.2.1 (by decide)
    (by decide)).1.mpr ⟨("f2", Outcome.err "error processing f2 - connection refused"),
      by decide, rfl⟩,
   ((C4_exit_status calmEnv { emptyWorld with seen := ["a", "b"] }).2.2
    (fun _ _ _ => ⟨"<rss/>", [itemA, itemB], rfl, rfl, by decide⟩)).1 pushSample
      (by decide)⟩

/-- C5.  In `sendCmd.Execute`, an enabled push sink with an empty API key or user
key, or an enabled campaign sink with an empty API key, hostname, list id, from-name
or from-email, makes `Execute` return `ExitFailure` with the trace and the seen
store untouched, so `ProcessURL` is called for no feed; and when a sink is not
enabled, the outcome of `Execute` is the same whatever that sink's credentials are,
empty ones included. -/
theorem C5_missing_credentials (env : Env) (p : sendCmd) (w : World) :
    (p.usePushover = true → p.pushoverApiKey = "" ∨ p.pushoverUserKey = "" →
      (sendCmd.Execute env p w).2 = ExecResult.exit ExitStatus.ExitFailure ∧
      (sendCmd.Execute env p w).1.log = w.log ∧ (sendCmd.Execute env p w).1.seen = w.seen) ∧
    (p.useSendy = true →
      p.sendyApiKey = "" ∨ p.sendyApiHostname = "" ∨ p.sendyListId = "" ∨
        p.sendyFromName = "" ∨ p.sendyFromEmail = "" →
      (sendCmd.Execute env p w).2 = ExecResult.exit ExitStatus.ExitFailure ∧
      (sendCmd.Execute env p w).1.log = w.log ∧ (sendCmd.Execute env p w).1.seen = w.seen) ∧
    (p.usePushover = false → ∀ k u : String,
      sendCmd.Execute env { p with pushoverApiKey := k, pushoverUserKey := u } w =
        sendCmd.Execute env p w) ∧
    (p.useSendy = false → ∀ key host list name email : String,
      sendCmd.Execute env { p with
          sendyApiKey := key, sendyApiHostname := host, sendyListId := list,
          sendyFromName := name, sendyFromEmail := email } w =
        sendCmd.Execute env p w) := by
  refine ⟨?_, ?_, ?_, ?_⟩
  · intro h1 h2
    have c1 : p.usePushover = true ∧
        (p.pushoverApiKey.length = 0 ∨ p.pushoverUserKey.length = 0) := by
      simp only [length_eq_zero_iff]; exact ⟨h1, h2⟩
    have c0 : p.usePushover = true ∨ p.useSendy = true := Or.inl h1
    unfold sendCmd.Execute
    rw [if_pos c0, if_pos c1]
    simp
  · intro h1 h2
    have c2 : p.useSendy = true ∧ (p.sendyApiKey.length = 0 ∨ p.sendyApiHostname.length = 0 ∨
        p.sendyListId.length = 0 ∨ p.sendyFromName.length = 0 ∨ p.sendyFromEmail.length = 0) := by
      simp only [length_eq_zero_iff]; exact ⟨h1, h2⟩
    have c0 : p.usePushover = true ∨ p.useSendy = true := Or.inr h1
    unfold sendCmd.Execute
    rw [if_pos c0]
    by_cases c1 : p.usePushover = true ∧
        (p.pushoverApiKey.length = 0 ∨ p.pushoverUserKey.length = 0)
    · rw [if_pos c1]; simp
    · rw [if_neg c1, if_pos c2]; simp
  · intro h k u
    have hproc := sendCmd_ProcessURL_congr env p
      { p with pushoverApiKey := k, pushoverUserKey := u } rfl
      (sendCmd_entryBody_pushover_keys env p h k u)
    unfold sendCmd.Execute
    rw [hproc]
    simp only [h]
    simp
  · intro h key host list name email
    have hproc := sendCmd_ProcessURL_congr env p
      { p with
          sendyApiKey := key, sendyApiHostname := host, sendyListId := list,
          sendyFromName := name, sendyFromEmail := email } rfl
      (sendCmd_entryBody_sendy_keys env p h key host list name email)
    unfold sendCmd.Execute
    rw [hproc]
    simp only [h]
    simp

/-- C5 at a configuration whose enabled push sink has no user key: `Execute` fails
and touches neither the trace nor the store. -/
theorem C5_missing_credentials_witness :
    (sendCmd.Execute calmEnv { sendSample with pushoverUserKey := "" } emptyWorld).2 =
      ExecResult.exit ExitStatus.ExitFailure ∧
    (sendCmd.Execute calmEnv { sendSample with pushoverUserKey := "" } emptyWorld).1.log =
      emptyWorld.log ∧
    (sendCmd.Execute calmEnv { sendSample with pushoverUserKey := "" } emptyWorld).1.seen =
      emptyWorld.seen :=
  (C5_missing_credentials calmEnv { sendSample with pushoverUserKey := "" } emptyWorld).1
    rfl (Or.inr rfl)

/-- C6.  The text handed to the markup-to-text converter is the entry's `Content` if
that is non-empty, else its `Description` if that is non-empty, else the empty
string, which is the selection rule of the spec; and in every run the plain-text
body of every sink call made for an entry is the conversion of that selection
(`FromString` in `send`, `HTML2Text` in `push`). -/
theorem C6_body_selection (env : Env) (w : World) (input : String) :
    (∀ i : Item, selectContent i = specBestBody i) ∧
    (∀ i : Item, i.Content ≠ "" → selectContent i = i.Content) ∧
    (∀ i : Item, i.Content = "" → i.Description ≠ "" → selectContent i = i.Description) ∧
    (∀ i : Item, i.Content = "" → i.Description = "" → selectContent i = "") ∧
    (∀ (p : sendCmd) (e : Event) (i : Item),
      e ∈ w.since (sendCmd.ProcessURL env p w input).1 → e.dispatchEntry = some i →
      ∃ text, env.FromString (selectContent i) = Except.ok text ∧ e.plainText = some text) ∧
    (∀ (p : pushCmd) (e : Event) (i : Item),
      e ∈ w.since (pushCmd.ProcessURL env p w input).1 → e.dispatchEntry = some i →
      e.plainText = some (env.HTML2Text (selectContent i))) := by
  refine ⟨?_, ?_, ?_, ?_, ?_, ?_⟩
  · intro i
    unfold selectContent specBestBody
    by_cases hc : i.Content = "" <;> by_cases hd : i.Description = "" <;> simp [hc, hd]
  · intro i hc
    simp [selectContent, hc]
  · intro i hc hd
    simp [selectContent, hc, hd]
  · intro i hc hd
    simp [selectContent, hc, hd]
  · intro p e i he hd
    exact sendCmd_ProcessURL_forall env p
      (fun e => ∀ i, e.dispatchEntry = some i →
        ∃ text, env.FromString (selectContent i) = Except.ok text ∧ e.plainText = some text)
      (by intro url i h; simp [Event.dispatchEntry] at h)
      (by intro j ok i h; simp [Event.dispatchEntry] at h)
      (by
        intro j _ _ text ht i h
        simp only [Event.dispatchEntry, Option.some.injEq] at h
        subst h
        exact ⟨text, ht, rfl⟩)
      (by intro _ _ _ i h; simp [Event.dispatchEntry] at h)
      (by
        intro j _ _ text urlStr c ht i h
        simp only [Event.dispatchEntry, Option.some.injEq] at h
        subst h
        refine ⟨text, ht, ?_⟩
        simp [Event.plainText, sendCmd.campaignForm, List.lookup])
      w input e he i hd
  · intro p e i he hd
    exact pushCmd_ProcessURL_forall env p
      (fun e => ∀ i, e.dispatchEntry = some i →
        e.plainText = some (env.HTML2Text (selectContent i)))
      (by intro url i h; simp [Event.dispatchEntry] at h)
      (by intro j ok i h; simp [Event.dispatchEntry] at h)
      (by
        intro j _ i h
        simp only [Event.dispatchEntry, Option.some.injEq] at h
        subst h
        rfl)
      w input e he i hd

/-- C6 at `itemB`, whose content is empty: the message pushed for it carries the
converted description. -/
theorem C6_body_selection_witness :
    selectContent itemB = "<i>beta</i>" ∧
    (Event.sendMessage itemB "app-key" "user-key" "text:<i>beta</i>" "").plainText =
      some (calmEnv.HTML2Text (selectContent itemB)) :=
  ⟨(C6_body_selection calmEnv emptyWorld "f1").2.2.1 itemB rfl (by decide),
   (C6_body_selection calmEnv emptyWorld "f1").2.2.2.2.2 pushSample
    (Event.sendMessage itemB "app-key" "user-key" "text:<i>beta</i>" "") itemB
    (by decide) rfl⟩

/-- C7, counterexample.  The markup conversion fails on `itemA`, the first unseen
entry of the feed.  `sendCmd.ProcessURL` panics: `itemA` has been recorded, no sink
is called with the raw text or any other, `itemB` is never reached, and the panic
ends `Execute` before the second feed. -/
theorem C7_conversion_failure_aborts :
    (sendCmd.ProcessURL badMarkupEnv sendSample emptyWorld "f1").2 =
      Outcome.panic "html2text: bad markup" ∧
    (sendCmd.ProcessURL badMarkupEnv sendSample emptyWorld "f1").1.log =
      [Event.fetch "f1", Event.recordSeen itemA true] ∧
    (sendCmd.ProcessURL badMarkupEnv sendSample emptyWorld "f1").1.seen = ["a"] ∧
    (sendCmd.Execute badMarkupEnv sendSample emptyWorld).1.log =
      [Event.fetch "f1", Event.recordSeen itemA true] := by
  decide

/-- C7, as amended.  In `sendCmd.ProcessURL` with `send` set, when the loop reaches
an unseen entry whose markup conversion reports a failure, `ProcessURL` panics with
that failure: `RecordSeen` has been called for the entry, which is in the store
unless the store did not take it, no sink is called for it, no later entry is
processed, and the panic leaves the loop of `Execute`, so that no later feed is
processed either. -/
theorem C7_conversion_failure_panics (env : Env) (p : sendCmd) (w w1 : World)
    (input : String) (pre post : List Item) (i : Item) (m : String)
    (hc : feedContent env w input = some (pre ++ i :: post))
    (hpre : forItems (sendCmd.entryBody env p)
      (loopStart p.verbose w input (pre ++ i :: post).length) pre = (w1, Outcome.nil))
    (hnew : HasSeen w1 i = false) (hsend : p.send = true)
    (hconv : env.FromString (selectContent i) = Except.error m) :
    (sendCmd.ProcessURL env p w input).2 = Outcome.panic m ∧
    (sendCmd.ProcessURL env p w input).1.log =
      w1.log ++ [Event.recordSeen i (storeAccepts env w1 i)] ∧
    (sendCmd.ProcessURL env p w input).1.seen =
      (if storeAccepts env w1 i = true then w1.seen ++ [identifier i] else w1.seen) ∧
    (∀ (errors rest : List String),
      forFeeds (sendCmd.ProcessURL env p) w errors (input :: rest) =
        ((sendCmd.ProcessURL env p w input).1, Except.error m)) := by
  have hbody : sendCmd.entryBody env p w1 i =
      (RecordSeen env ((w1.printfIf p.verbose ("New item: " ++ i.GUID ++ "\n")).printfIf p.verbose
        ("\tTitle: " ++ i.Title ++ "\n")) i, Outcome.panic m) := by
    unfold sendCmd.entryBody sendCmd.sendBlock
    simp [hnew, hsend, hconv]
  have hrun : sendCmd.ProcessURL env p w input =
      (RecordSeen env ((w1.printfIf p.verbose ("New item: " ++ i.GUID ++ "\n")).printfIf p.verbose
        ("\tTitle: " ++ i.Title ++ "\n")) i, Outcome.panic m) := by
    rw [sendCmd_ProcessURL_eq, runFeed_of_content env p.verbose _ w input _ hc]
    exact forItems_stops _ pre post i _ w1 _ _ hpre hbody (by simp)
  have hseen := RecordSeen_seen_fresh env
    ((w1.printfIf p.verbose ("New item: " ++ i.GUID ++ "\n")).printfIf p.verbose
      ("\tTitle: " ++ i.Title ++ "\n")) i (by simpa using hnew)
  simp only [storeAccepts_printfIf, World.printfIf_seen] at hseen
  refine ⟨by rw [hrun], by rw [hrun]; simp, by rw [hrun]; exact hseen, ?_⟩
  intro errors rest
  simp only [forFeeds, hrun]

/-- C7, as amended, at the feed whose first entry cannot be converted. -/
theorem C7_conversion_failure_panics_witness :
    (sendCmd.ProcessURL badMarkupEnv sendSample emptyWorld "f1").2 =
      Outcome.panic "html2text: bad markup" ∧
    (sendCmd.ProcessURL badMarkupEnv sendSample emptyWorld "f1").1.log =
      (loopStart false emptyWorld "f1" 2).log ++ [Event.recordSeen itemA true] ∧
    (sendCmd.ProcessURL badMarkupEnv sendSample emptyWorld "f1").1.seen =
      (loopStart false emptyWorld "f1" 2).seen ++ [identifier itemA] :=
  have h := C7_conversion_failure_panics badMarkupEnv sendSample emptyWorld
    (loopStart false emptyWorld "f1" 2) "f1" [] [itemB] itemA "html2text: bad markup"
    rfl rfl (by decide) rfl rfl
  ⟨h.1, h.2.1, h.2.2.1⟩

/-- C8, counterexample.  The push sink is disabled and the campaign sink enabled.
With a template file that cannot be read, the unseen entry `itemA` is recorded and
no campaign is created for it; with a campaign service that cannot be reached, the
call for `itemA` fails and the unseen entry `itemB` gets no call at all. -/
theorem C8_unseen_entry_without_campaign :
    campaignTemplated.usePushover = false ∧ campaignTemplated.useSendy = true ∧
    campaignOnly.usePushover = false ∧ campaignOnly.useSendy = true ∧
    feedContent unreadableTemplateEnv emptyWorld "f1" = some [itemA, itemB] ∧
    feedContent campaignDownEnv emptyWorld "f1" = some [itemA, itemB] ∧
    HasSeen emptyWorld itemA = false ∧ HasSeen emptyWorld itemB = false ∧
    (sendCmd.ProcessURL unreadableTemplateEnv campaignTemplated emptyWorld "f1").1.log =
      [Event.fetch "f1", Event.recordSeen itemA true, Event.readFile "mail.tmpl"] ∧
    (sendCmd.ProcessURL campaignDownEnv campaignOnly emptyWorld "f1").2 =
      Outcome.err "dial tcp: timeout" ∧
    (sendCmd.ProcessURL campaignDownEnv campaignOnly emptyWorld "f1").1.log.filterMap
      Event.campaigned = [itemA] := by
  decide

/-- C8, as amended.  With the push sink disabled and the campaign sink enabled,
`sendCmd.ProcessURL` makes no push call in any run and no campaign call for an
entry that is seen when the run starts.  With `send` set, the campaign calls of
every run are, in feed order, one for each entry for which `RecordSeen` is called,
which are the entries found unseen, except that the entry at which the run stops
with an error or a panic may have none; in a run that returns `nil` every such
entry has exactly one, and when in addition every record was stored these are the
fresh entries of the feed.  With `send` unset no campaign call is made. -/
theorem C8_sink_gating (env : Env) (p : sendCmd) (w : World) (input : String)
    (hpush : p.usePushover = false) (hsendy : p.useSendy = true) :
    (∀ e ∈ w.since (sendCmd.ProcessURL env p w input).1, e.isPush = false) ∧
    (∀ e ∈ w.since (sendCmd.ProcessURL env p w input).1, ∀ i : Item,
      e.isCampaign = true → e.dispatchEntry = some i → HasSeen w i = false) ∧
    (p.send = true → ∃ tail,
      (w.since (sendCmd.ProcessURL env p w input).1).filterMap Event.recorded =
        (w.since (sendCmd.ProcessURL env p w input).1).filterMap Event.campaigned ++ tail ∧
      tail.length ≤ 1 ∧ ((sendCmd.ProcessURL env p w input).2 = Outcome.nil → tail = [])) ∧
    (p.send = false →
      (w.since (sendCmd.ProcessURL env p w input).1).filterMap Event.campaigned = []) ∧
    (∀ items : List Item, feedContent env w input = some items → p.send = true →
      (sendCmd.ProcessURL env p w input).2 = Outcome.nil →
      (∀ e ∈ w.since (sendCmd.ProcessURL env p w input).1, e.unstored = false) →
      (w.since (sendCmd.ProcessURL env p w input).1).filterMap Event.campaigned =
        freshEntries w.seen items) := by
  refine ⟨?_, ?_, ?_, ?_, ?_⟩
  · exact sendCmd_ProcessURL_forall env p (fun e => e.isPush = false)
      (fun _ => rfl) (fun _ _ => rfl)
      (by intro _ _ h; rw [hpush] at h; cases h)
      (fun _ _ _ => rfl) (fun _ _ _ _ _ _ _ => rfl) w input
  · intro e he i _ hd
    have ho := runFeed_orderly_since env p.verbose (sendCmd_entryContract env p) w input
    rw [← sendCmd_ProcessURL_eq] at ho
    exact ho.2.2.1 e he i (Or.inl hd)
  · intro hs
    rw [sendCmd_ProcessURL_eq]
    exact runFeed_calls env p.verbose (sendCmd_entryContract env p) Event.campaigned
      (fun _ => rfl)
      (by
        intro w i h ho
        rw [(sendCmd_entryBody_sent env p w i h ho).2]
        simp [hs, hsendy])
      (fun w i h => sendCmd_entryBody_campaigned env p w i h) w input
  · intro hs
    rw [List.filterMap_eq_nil_iff]
    exact sendCmd_ProcessURL_forall env p (fun e => e.campaigned = none)
      (fun _ => rfl) (fun _ _ => rfl) (fun _ _ _ _ _ => rfl) (fun _ _ _ => rfl)
      (by intro _ h; rw [hs] at h; cases h) w input
  · intro items hc hs hnil hst
    rw [(sendCmd_ProcessURL_nil_trace env p w input items hc hnil hst).2.2.1]
    simp [hs, hsendy]

/-- C8, as amended, at a run in which everything works: the campaign calls are one
for `itemA` and one for `itemB`, in this order. -/
theorem C8_sink_gating_witness :
    (emptyWorld.since (sendCmd.ProcessURL calmEnv campaignOnly emptyWorld "f1").1).filterMap
      Event.campaigned = [itemA, itemB] :=
  (C8_sink_gating calmEnv campaignOnly emptyWorld "f1" rfl rfl).2.2.2.2 [itemA, itemB] rfl rfl
    (by decide) (by decide)

/-- C9, counterexample.  In `send` the push for `itemA` of the first feed is
rejected and `ProcessURL` returns that error; `Execute` goes on to the second feed,
whose entry cannot be converted, so `ProcessURL` panics and the third feed is never
fetched. -/
theorem C9_later_panic_skips_feed :
    sendCmd.configValid pushDownThenBadMarkupEnv sendSample emptyWorld ∧
    pushDownThenBadMarkupEnv.feedEntries = ["f1", "f2", "f3"] ∧
    sendCmd.ProcessURL pushDownThenBadMarkupEnv sendSample emptyWorld "f1" =
      ({ seen := ["a"], stdout := [], stderr := [],
         log := [Event.fetch "f1", Event.recordSeen itemA true,
           Event.sendMessage itemA "app-key" "user-key" "text:<p>alpha</p>" "Title A"] },
        Outcome.err "pushover: 500") ∧
    fetchedURLs (sendCmd.Execute pushDownThenBadMarkupEnv sendSample emptyWorld).1.log =
      ["f1", "f2"] ∧
    (sendCmd.Execute pushDownThenBadMarkupEnv sendSample emptyWorld).2 =
      ExecResult.panic "html2text: bad markup" := by
  decide

/-- C9, as amended.  In `sendCmd.ProcessURL` and `pushCmd.ProcessURL` a sink call
that fails is the last event of the run, and its error is what `ProcessURL`
returns: no later entry is recorded or dispatched, and what was traced and stored
before is kept.  With a valid configuration `pushCmd.Execute` calls `ProcessURL` for
every configured feed whatever errors are returned, and `sendCmd.Execute` does so
unless a call of `ProcessURL` panics. -/
theorem C9_failed_call_stops_feed_only (env : Env) (w : World) :
    (∀ (p : sendCmd) (input : String) (pre post : List Event) (e : Event) (m : String),
      w.since (sendCmd.ProcessURL env p w input).1 = pre ++ e :: post →
      sinkError env (w.log.length + pre.length) e = some m →
      post = [] ∧ (sendCmd.ProcessURL env p w input).2 = Outcome.err m ∧
      (sendCmd.ProcessURL env p w input).1.log = w.log ++ pre ++ [e] ∧
      ∀ x ∈ w.seen, x ∈ (sendCmd.ProcessURL env p w input).1.seen) ∧
    (∀ (p : pushCmd) (input : String) (pre post : List Event) (e : Event) (m : String),
      w.since (pushCmd.ProcessURL env p w input).1 = pre ++ e :: post →
      sinkError env (w.log.length + pre.length) e = some m →
      post = [] ∧ (pushCmd.ProcessURL env p w input).2 = Outcome.err m ∧
      (pushCmd.ProcessURL env p w input).1.log = w.log ++ pre ++ [e] ∧
      ∀ x ∈ w.seen, x ∈ (pushCmd.ProcessURL env p w input).1.seen) ∧
    (∀ p : pushCmd, pushCmd.configValid p →
      fetchedURLs (w.since (pushCmd.Execute env p w).1) = env.feedEntries) ∧
    (∀ p : sendCmd, sendCmd.configValid env p w →
      (∀ x ∈ invocations (sendCmd.ProcessURL env p) (sendCmd.feedsStart p w) env.feedEntries,
        x.2.isPanic = false) →
      fetchedURLs (w.since (sendCmd.Execute env p w).1) = env.feedEntries) := by
  have core : ∀ (verbose : Bool) (body : World → Item → World × Outcome),
      EntryContract body → SinkContract env body →
      ∀ (input : String) (pre post : List Event) (e : Event) (m : String),
      w.since (runFeed env verbose body w input).1 = pre ++ e :: post →
      sinkError env (w.log.length + pre.length) e = some m →
      post = [] ∧ (runFeed env verbose body w input).2 = Outcome.err m ∧
      (runFeed env verbose body w input).1.log = w.log ++ pre ++ [e] ∧
      ∀ x ∈ w.seen, x ∈ (runFeed env verbose body w input).1.seen := by
    intro verbose body hb hs input pre post e m hsplit herr
    have hstop := runFeed_failStops env verbose hb hs w input
    obtain ⟨h1, h2⟩ := hstop pre e post m hsplit herr
    obtain ⟨evs, hl, hord, _, _⟩ := runFeed_orderly env verbose hb w input
    have hsince := since_of_log hl
    refine ⟨h1, h2, ?_, hord.1⟩
    rw [hl, ← hsince, hsplit, h1, List.append_assoc]
  refine ⟨?_, ?_, ?_, ?_⟩
  · intro p
    rw [sendCmd_ProcessURL_eq]
    exact core p.verbose _ (sendCmd_entryContract env p) (sendCmd_sinkContract env p)
  · intro p
    rw [pushCmd_ProcessURL_eq]
    exact core p.verbose _ (pushCmd_entryContract env p) (pushCmd_sinkContract env p)
  · intro p hv
    exact (pushCmd_Execute_trace env w p hv).2.1
  · intro p hv hnp
    exact (sendCmd_Execute_trace env w p hv hnp).2.1

/-- C9, as amended, where the pushover service rejects every message: in `send` and
in `push` the run over the first feed ends with the rejected message and returns
its error, and `Execute` fetches all three feeds. -/
theorem C9_failed_call_stops_feed_only_witness :
    ((sendCmd.ProcessURL pushDownEnv sendSample emptyWorld "f1").2 =
        Outcome.err "pushover: 500" ∧
      (sendCmd.ProcessURL pushDownEnv sendSample emptyWorld "f1").1.log =
        emptyWorld.log ++ [Event.fetch "f1", Event.recordSeen itemA true] ++
          [Event.sendMessage itemA "app-key" "user-key" "text:<p>alpha</p>" "Title A"]) ∧
    ((pushCmd.ProcessURL pushDownEnv pushSample emptyWorld "f1").2 =
        Outcome.err "pushover: 500" ∧
      (pushCmd.ProcessURL pushDownEnv pushSample emptyWorld "f1").1.log =
        emptyWorld.log ++ [Event.fetch "f1", Event.recordSeen itemA true] ++
          [Event.sendMessage itemA "app-key" "user-key" "text:<p>alpha</p>" ""]) ∧
    fetchedURLs (emptyWorld.since (pushCmd.Execute pushDownEnv pushSample emptyWorld).1) =
      ["f1", "f2", "f3"] ∧
    fetchedURLs (emptyWorld.since (sendCmd.Execute pushDownEnv sendSample emptyWorld).1) =
      ["f1", "f2", "f3"] :=
  have hs := (C9_failed_call_stops_feed_only pushDownEnv emptyWorld).1 sendSample "f1"
    [Event.fetch "f1", Event.recordSeen itemA true] []
    (Event.sendMessage itemA "app-key" "user-key" "text:<p>alpha</p>" "Title A")
    "pushover: 500" (by decide) (by decide)
  have hp := (C9_failed_call_stops_feed_only pushDownEnv emptyWorld).2.1 pushSample "f1"
    [Event.fetch "f1", Event.recordSeen itemA true] []
    (Event.sendMessage itemA "app-key" "user-key" "text:<p>alpha</p>" "")
    "pushover: 500" (by decide) (by decide)
  ⟨⟨hs.2.1, hs.2.2.1⟩, ⟨hp.2.1, hp.2.2.1⟩,
   (C9_failed_call_stops_feed_only pushDownEnv emptyWorld).2.2.1 pushSample (by decide),
   (C9_failed_call_stops_feed_only pushDownEnv emptyWorld).2.2.2 sendSample (by decide)
    (by decide)⟩

/-- C10, counterexample.  With `send` unset, `push` records an entry that has
neither GUID nor link and returns `nil` without calling a sink; the next run, with
`send` set, pushes that entry.  And when the medium behind the store fails, `itemA`
and `itemB` are recorded in vain by the run with `send` unset and pushed by the
next run. -/
theorem C10_recorded_yet_dispatched_later :
    (pushCmd.ProcessURL noIdEnv { pushSample with send := false } emptyWorld "f1").2 =
      Outcome.nil ∧
    (pushCmd.ProcessURL noIdEnv { pushSample with send := false } emptyWorld "f1").1.log =
      [Event.fetch "f1", Event.recordSeen itemNoId false] ∧
    ((pushCmd.ProcessURL noIdEnv { pushSample with send := false } emptyWorld "f1").1.since
      (pushCmd.ProcessURL noIdEnv pushSample
        (pushCmd.ProcessURL noIdEnv { pushSample with send := false } emptyWorld "f1").1
          "f1").1).filterMap Event.pushed = [itemNoId] ∧
    (pushCmd.ProcessURL storeDownEnv { pushSample with send := false } emptyWorld "f1").2 =
      Outcome.nil ∧
    (pushCmd.ProcessURL storeDownEnv { pushSample with send := false } emptyWorld "f1").1.log =
      [Event.fetch "f1", Event.recordSeen itemA false, Event.recordSeen itemB false] ∧
    ((pushCmd.ProcessURL storeDownEnv { pushSample with send := false } emptyWorld "f1").1.since
      (pushCmd.ProcessURL storeDownEnv pushSample
        (pushCmd.ProcessURL storeDownEnv { pushSample with send := false } emptyWorld "f1").1
          "f1").1).filterMap Event.pushed = [itemA, itemB] := by
  decide

/-- C10, as amended.  With `send` unset, a call of `ProcessURL` that fetches and
parses its feed returns `nil` and calls no sink, and calls `RecordSeen` for the
identifier of every entry that was unseen when it started.  Every entry whose
record was stored is seen afterwards, and when all records were stored these are
the fresh entries and every entry of the feed is seen afterwards.  No later run,
whatever its configuration, calls a sink for an entry that is seen after this
call; an entry without GUID and link, or whose record the store did not take, stays
new. -/
theorem C10_send_unset_records_only (env : Env) (w : World) (input : String)
    (items : List Item) (hc : feedContent env w input = some items) :
    (∀ p : sendCmd, p.send = false →
      (sendCmd.ProcessURL env p w input).2 = Outcome.nil ∧
      (∀ e ∈ w.since (sendCmd.ProcessURL env p w input).1, e.dispatchEntry = none) ∧
      (∀ i ∈ items, HasSeen w i = false → ∃ j ok, identifier j = identifier i ∧
        Event.recordSeen j ok ∈ w.since (sendCmd.ProcessURL env p w input).1) ∧
      (∀ i, Event.recordSeen i true ∈ w.since (sendCmd.ProcessURL env p w input).1 →
        HasSeen (sendCmd.ProcessURL env p w input).1 i = true) ∧
      ((∀ e ∈ w.since (sendCmd.ProcessURL env p w input).1, e.unstored = false) →
        (w.since (sendCmd.ProcessURL env p w input).1).filterMap Event.recorded =
          freshEntries w.seen items ∧
        ∀ i ∈ items, HasSeen (sendCmd.ProcessURL env p w input).1 i = true) ∧
      (∀ (env2 : Env) (q : sendCmd) (w2 : World) (input2 : String) (i : Item),
        HasSeen (sendCmd.ProcessURL env p w input).1 i = true →
        (∀ x ∈ (sendCmd.ProcessURL env p w input).1.seen, x ∈ w2.seen) →
        ∀ e ∈ w2.since (sendCmd.ProcessURL env2 q w2 input2).1, e.dispatchEntry ≠ some i)) ∧
    (∀ p : pushCmd, p.send = false →
      (pushCmd.ProcessURL env p w input).2 = Outcome.nil ∧
      (∀ e ∈ w.since (pushCmd.ProcessURL env p w input).1, e.dispatchEntry = none) ∧
      (∀ i ∈ items, HasSeen w i = false → ∃ j ok, identifier j = identifier i ∧
        Event.recordSeen j ok ∈ w.since (pushCmd.ProcessURL env p w input).1) ∧
      (∀ i, Event.recordSeen i true ∈ w.since (pushCmd.ProcessURL env p w input).1 →
        HasSeen (pushCmd.ProcessURL env p w input).1 i = true) ∧
      ((∀ e ∈ w.since (pushCmd.ProcessURL env p w input).1, e.unstored = false) →
        (w.since (pushCmd.ProcessURL env p w input).1).filterMap Event.recorded =
          freshEntries w.seen items ∧
        ∀ i ∈ items, HasSeen (pushCmd.ProcessURL env p w input).1 i = true) ∧
      (∀ (env2 : Env) (q : pushCmd) (w2 : World) (input2 : String) (i : Item),
        HasSeen (pushCmd.ProcessURL env p w input).1 i = true →
        (∀ x ∈ (pushCmd.ProcessURL env p w input).1.seen, x ∈ w2.seen) →
        ∀ e ∈ w2.since (pushCmd.ProcessURL env2 q w2 input2).1, e.dispatchEntry ≠ some i)) := by
  constructor
  · intro p hs
    have hb := sendCmd_entryContract env p
    have hnil : (sendCmd.ProcessURL env p w input).2 = Outcome.nil := by
      rw [sendCmd_ProcessURL_eq, runFeed_of_content env p.verbose _ w input items hc]
      exact forItems_nil_of_body _ (sendCmd_entryBody_unsent env p hs) items _
    have ho := runFeed_orderly_since env p.verbose hb w input
    rw [← sendCmd_ProcessURL_eq] at ho
    refine ⟨hnil, ?_, ?_, ho.2.2.2, ?_, ?_⟩
    · exact sendCmd_ProcessURL_forall env p (fun e => e.dispatchEntry = none)
        (fun _ => rfl) (fun _ _ => rfl)
        (by intro _ h; rw [hs] at h; cases h)
        (by intro h; rw [hs] at h; cases h)
        (by intro _ h; rw [hs] at h; cases h) w input
    · have := runFeed_recorded env p.verbose hb w input items hc
        (by rw [← sendCmd_ProcessURL_eq]; exact hnil)
      rw [← sendCmd_ProcessURL_eq] at this
      exact this
    · intro hst
      refine ⟨(sendCmd_ProcessURL_nil_trace env p w input items hc hnil hst).1, ?_⟩
      have := runFeed_nil_seen env p.verbose hb w input items hc
        (by rw [← sendCmd_ProcessURL_eq]; exact hnil)
        (by rw [← sendCmd_ProcessURL_eq]; exact hst)
      rw [← sendCmd_ProcessURL_eq] at this
      exact this
    · intro env2 q w2 input2 i hseen hsub e he hd
      have ho2 := runFeed_orderly_since env2 q.verbose (sendCmd_entryContract env2 q) w2 input2
      rw [← sendCmd_ProcessURL_eq] at ho2
      have h1 := ho2.2.2.1 e he i (Or.inl hd)
      have h2 : seenIn w2.seen i = true := seenIn_mono hsub i hseen
      rw [h2] at h1
      cases h1
  · intro p hs
    have hb := pushCmd_entryContract env p
    have hnil : (pushCmd.ProcessURL env p w input).2 = Outcome.nil := by
      rw [pushCmd_ProcessURL_eq, runFeed_of_content env p.verbose _ w input items hc]
      exact forItems_nil_of_body _ (pushCmd_entryBody_unsent env p hs) items _
    have ho := runFeed_orderly_since env p.verbose hb w input
    rw [← pushCmd_ProcessURL_eq] at ho
    refine ⟨hnil, ?_, ?_, ho.2.2.2, ?_, ?_⟩
    · exact pushCmd_ProcessURL_forall env p (fun e => e.dispatchEntry = none)
        (fun _ => rfl) (fun _ _ => rfl)
        (by intro _ h; rw [hs] at h; cases h) w input
    · have := runFeed_recorded env p.verbose hb w input items hc
        (by rw [← pushCmd_ProcessURL_eq]; exact hnil)
      rw [← pushCmd_ProcessURL_eq] at this
      exact this
    · intro hst
      refine ⟨(pushCmd_ProcessURL_nil_trace env p w input items hc hnil hst).1, ?_⟩
      have := runFeed_nil_seen env p.verbose hb w input items hc
        (by rw [← pushCmd_ProcessURL_eq]; exact hnil)
        (by rw [← pushCmd_ProcessURL_eq]; exact hst)
      rw [← pushCmd_ProcessURL_eq] at this
      exact this
    · intro env2 q w2 input2 i hseen hsub e he hd
      have ho2 := runFeed_orderly_since env2 q.verbose (pushCmd_entryContract env2 q) w2 input2
      rw [← pushCmd_ProcessURL_eq] at ho2
      have h1 := ho2.2.2.1 e he i (Or.inl hd)
      have h2 : seenIn w2.seen i = true := seenIn_mono hsub i hseen
      rw [h2] at h1
      cases h1

/-- C10, as amended, at `send` with `-send=false`: the run returns `nil`, records
`itemA` and `itemB` without calling a sink, and both are seen afterwards. -/
theorem C10_send_unset_records_only_witness :
    (sendCmd.ProcessURL calmEnv { sendSample with send := false } emptyWorld "f1").2 =
      Outcome.nil ∧
    (emptyWorld.since
      (sendCmd.ProcessURL calmEnv { sendSample with send := false } emptyWorld "f1").1).filterMap
        Event.recorded = [itemA, itemB] ∧
    HasSeen (sendCmd.ProcessURL calmEnv { sendSample with send := false } emptyWorld "f1").1
      itemB = true :=
  have h := (C10_send_unset_records_only calmEnv emptyWorld "f1" [itemA, itemB] rfl).1
    { sendSample with send := false } rfl
  ⟨h.1, (h.2.2.2.2.1 (by decide)).1, (h.2.2.2.2.1 (by decide)).2 itemB (by decide)⟩

end Rss2Email
